import Mathlib

/-!
# Sudoku board engine (`game.c`, `main_aux.c`): shallow embedding

C `int`s are modelled as `Int` (grid sides are tiny, so no overflow is reachable),
`bool` as `Bool`.  A `cell**` board is a function from a row index and a column
index to a `cell`; `board[r][c]` is `board.cells r c`.  Functions that mutate the board
in place return the new board next to their C return value.  A counted
`for (i = lo; i < hi; i++)` loop is a left fold over `intRange lo hi`.

Printing (`printf`, `print_board`) and `game_over` (which only touches the
globals `mode` and `gameOver`, never the board) have no effect on the board and
are left out of the board transformers.
-/

namespace Sudoku

/-- The `cell` struct of `game.h`: a value, the fixed marker and the asterisk flag. -/
structure cell where
  number : Int
  isFixed : Bool
  asterisk : Bool
deriving DecidableEq

/-- A `cell**` board: `board[r][c]` is `board.cells r c`. -/
structure Board where
  cells : Int → Int → cell

/-- The global `int`s the two files read: `blockRows`, `blockCols` (declared `extern` in
`game.c`) and `rows`, `cols` (declared `extern` in `main_aux.c`).  Their definitions are
not part of the sources, so they are parameters of every operation. -/
structure Globals where
  blockRows : Int
  blockCols : Int
  rows : Int
  cols : Int
deriving DecidableEq

/-- Modelled from the spec: the constant `UNASSIGNED` of the missing `game.h`;
`0` means empty. -/
def UNASSIGNED : Int := 0

/-- Modelled from the spec: `valid_board_index` of the missing `main_aux.h`;
a coordinate is valid when it lies in `[1, N]`. -/
def valid_board_index (index N : Int) : Bool := decide (1 ≤ index ∧ index ≤ N)

/-- Modelled from the spec: `valid_set_value` of the missing `main_aux.h`;
a value is valid when it lies in `[0, N]` (`0` clears). -/
def valid_set_value (value N : Int) : Bool := decide (0 ≤ value ∧ value ≤ N)

/-- The indices visited by `for (i = lo; i < hi; i++)`. -/
def intRange (lo hi : Int) : List Int :=
  (List.range (hi - lo).toNat).map (fun (k : Nat) => lo + (k : Int))

/-- Assignment `board[r][c].asterisk = v`. -/
def setAsterisk (board : Board) (r c : Int) (v : Bool) : Board :=
  ⟨fun i j =>
    if i = r ∧ j = c then { board.cells i j with asterisk := v } else board.cells i j⟩

/-- Assignment `board[r][c].number = v`. -/
def setNumber (board : Board) (r c : Int) (v : Int) : Board :=
  ⟨fun i j =>
    if i = r ∧ j = c then { board.cells i j with number := v } else board.cells i j⟩

/-- Assignment `board[r][c].isFixed = v`. -/
def setIsFixed (board : Board) (r c : Int) (v : Bool) : Board :=
  ⟨fun i j =>
    if i = r ∧ j = c then { board.cells i j with isFixed := v } else board.cells i j⟩

/-- `get_block_col_index` of `main_aux.c`; C `/` truncates, hence `Int.tdiv`. -/
def get_block_col_index (g : Globals) (column : Int) : Int :=
  let blockNumberCols := 1 + Int.tdiv (column - 1) g.cols
  g.cols * (blockNumberCols - 1)

/-- `get_block_row_index` of `main_aux.c`. -/
def get_block_row_index (g : Globals) (row : Int) : Int :=
  let blockNumberRows := 1 + Int.tdiv (row - 1) g.rows
  g.rows * (blockNumberRows - 1)

/-- Body of the inner loop of `val_in_block`.  The cell tested is
`board[rowIndex][colIndex]`, the cell marked is `board[row - 1][colIndex]`,
as in the source. -/
def val_in_block_body (column row val : Int) (colIndex : Int)
    (st : Bool × Board) (rowIndex : Int) : Bool × Board :=
  if colIndex = column - 1 ∧ rowIndex = row - 1 then st
  else if (st.2.cells rowIndex colIndex).number = val then
    (true,
      if (st.2.cells (row - 1) colIndex).isFixed = false
      then setAsterisk st.2 (row - 1) colIndex true else st.2)
  else st

/-- `val_in_block` of `game.c`: the returned flag `valExist` and the board afterwards. -/
def val_in_block (g : Globals) (board : Board) (column row val : Int) : Bool × Board :=
  let initialCol := get_block_col_index g column
  let initialRow := get_block_row_index g row
  (intRange initialCol (g.blockCols + initialCol)).foldl
    (fun st colIndex =>
      (intRange initialRow (g.blockRows + initialRow)).foldl
        (val_in_block_body column row val colIndex) st)
    (false, board)

/-- Body of the loop of `val_in_row`. -/
def val_in_row_body (column row val : Int) (st : Bool × Board) (colIndex : Int) :
    Bool × Board :=
  if colIndex = column - 1 then st
  else if (st.2.cells (row - 1) colIndex).number = val then
    (true,
      if (st.2.cells (row - 1) colIndex).isFixed = false
      then setAsterisk st.2 (row - 1) colIndex true else st.2)
  else st

/-- `val_in_row` of `game.c`. -/
def val_in_row (g : Globals) (board : Board) (column row val : Int) : Bool × Board :=
  let N := g.blockRows * g.blockCols
  (intRange 0 N).foldl (val_in_row_body column row val) (false, board)

/-- Body of the loop of `val_in_column`. -/
def val_in_column_body (column row val : Int) (st : Bool × Board) (rowIndex : Int) :
    Bool × Board :=
  if rowIndex = row - 1 then st
  else if (st.2.cells rowIndex (column - 1)).number = val then
    (true,
      if (st.2.cells rowIndex (column - 1)).isFixed = false
      then setAsterisk st.2 rowIndex (column - 1) true else st.2)
  else st

/-- `val_in_column` of `game.c`. -/
def val_in_column (g : Globals) (board : Board) (column row val : Int) : Bool × Board :=
  let N := g.blockRows * g.blockCols
  (intRange 0 N).foldl (val_in_column_body column row val) (false, board)

/-- `valid_check` of `game.c`.  The three operands of the non-short-circuit `|` are all
evaluated; they only write asterisks and only read values and fixed markers, so the
order of evaluation does not matter and left to right is taken. -/
def valid_check (g : Globals) (board : Board) (column row val : Int) : Bool × Board :=
  let inBlock := val_in_block g board column row val
  let inRow := val_in_row g inBlock.2 column row val
  let inColumn := val_in_column g inRow.2 column row val
  if (inBlock.1 || inRow.1 || inColumn.1) = true then
    (false, setAsterisk inColumn.2 (row - 1) (column - 1) true)
  else
    (true, setAsterisk inColumn.2 (row - 1) (column - 1) false)

/-- Body of the inner loop of `mark_asterisks`. -/
def mark_asterisks_body (g : Globals) (i : Int) (board : Board) (j : Int) : Board :=
  if (board.cells i j).number ≠ UNASSIGNED then
    (valid_check g board (j + 1) (i + 1) (board.cells i j).number).2
  else board

/-- `mark_asterisks` of `game.c`. -/
def mark_asterisks (g : Globals) (board : Board) : Board :=
  let N := g.blockCols * g.blockRows
  (intRange 0 N).foldl
    (fun board i => (intRange 0 N).foldl (mark_asterisks_body g i) board)
    board

/-- `check_board_erroneous` of `game.c`: some cell carries an asterisk. -/
def check_board_erroneous (g : Globals) (board : Board) : Bool :=
  let N := g.blockRows * g.blockCols
  (intRange 0 N).any (fun rowIndex =>
    (intRange 0 N).any (fun colIndex => (board.cells rowIndex colIndex).asterisk))

/-- The re-validation of one previously flagged cell inside `validate_risks`:
`valid_check` on the cell with its own value, then clear the flag or record the risk. -/
def validate_risks_cell (g : Globals) (st : Bool × Board) (rowIndex colIndex : Int) :
    Bool × Board :=
  if (st.2.cells rowIndex colIndex).asterisk = true then
    let r := valid_check g st.2 (colIndex + 1) (rowIndex + 1) (st.2.cells rowIndex colIndex).number
    if r.1 = true then (st.1, setAsterisk r.2 rowIndex colIndex false)
    else (false, r.2)
  else st

/-- `validate_risks` of `game.c`: the returned `risksFound` and the board afterwards. -/
def validate_risks (g : Globals) (board : Board) (column row : Int) : Bool × Board :=
  let N := g.blockRows * g.blockCols
  let initialCol := get_block_col_index g column
  let initialRow := get_block_row_index g row
  let afterBlock :=
    (intRange initialCol (g.blockCols + initialCol)).foldl
      (fun st colIndex =>
        (intRange initialRow (g.blockRows + initialRow)).foldl
          (fun st rowIndex =>
            if colIndex = column - 1 ∧ rowIndex = row - 1 then st
            else validate_risks_cell g st rowIndex colIndex)
          st)
      (true, board)
  let afterRow :=
    (intRange 0 N).foldl
      (fun st colIndex =>
        if colIndex = column - 1 then st
        else validate_risks_cell g st (row - 1) colIndex)
      afterBlock
  (intRange 0 N).foldl
    (fun st rowIndex =>
      if rowIndex = row - 1 then st
      else validate_risks_cell g st rowIndex (column - 1))
    afterRow

/-- `set` of `game.c`: the returned flag and the board afterwards. -/
def set (g : Globals) (board : Board) (column row val : Int) (_mode : Char) : Bool × Board :=
  let N := g.blockRows * g.blockCols
  if (!valid_board_index column N) || (!valid_board_index row N)
      || (!valid_set_value val N) then
    (false, board)
  else if (board.cells (row - 1) (column - 1)).isFixed = true then
    (false, board)
  else if (board.cells (row - 1) (column - 1)).number = val then
    (false, board)
  else if val = 0 then
    let b1 := setNumber board (row - 1) (column - 1) UNASSIGNED
    let b2 := setAsterisk b1 (row - 1) (column - 1) false
    (true, (validate_risks g b2 column row).2)
  else
    let b1 := (valid_check g board column row val).2
    let b2 := setNumber b1 (row - 1) (column - 1) val
    (true, (validate_risks g b2 column row).2)

/-- `empty_board` of `game.c`. -/
def empty_board (g : Globals) (board : Board) : Board :=
  let N := g.blockRows * g.blockCols
  (intRange 0 N).foldl
    (fun board i =>
      (intRange 0 N).foldl
        (fun board j =>
          setIsFixed (setAsterisk (setNumber board i j UNASSIGNED) i j false) i j false)
        board)
    board

/-- `generate_empty_board` of `game.c`: `calloc` hands out zeroed cells, which
`empty_board` then resets. -/
def generate_empty_board (g : Globals) : Board :=
  empty_board g ⟨fun _ _ => ⟨0, false, false⟩⟩

/-- `copy_board` of `game.c`: the contents of `new_board` afterwards. -/
def copy_board (g : Globals) (source_board new_board : Board) : Board :=
  let N := g.blockRows * g.blockCols
  (intRange 0 N).foldl
    (fun new_board i =>
      (intRange 0 N).foldl
        (fun new_board j =>
          setIsFixed
            (setAsterisk
              (setNumber new_board i j (source_board.cells i j).number)
              i j (source_board.cells i j).asterisk)
            i j (source_board.cells i j).isFixed)
        new_board)
    new_board

/-- The local variables of `auto_fill` that live across loop iterations. -/
structure AutoFillState where
  board : Board
  copyOfBoard : Board
  fillFlag : Bool
  candidate : Int
  numOfCandidates : Int

/-- Body of the `k` loop of `auto_fill`: one `valid_check` on the copy. -/
def auto_fill_try (g : Globals) (i j : Int) (st : AutoFillState) (k : Int) : AutoFillState :=
  let r := valid_check g st.copyOfBoard (j + 1) (i + 1) k
  if r.1 = true then
    { st with copyOfBoard := r.2, candidate := k, numOfCandidates := st.numOfCandidates + 1 }
  else
    { st with copyOfBoard := r.2 }

/-- Body of the `j` loop of `auto_fill`. -/
def auto_fill_body (g : Globals) (i : Int) (st : AutoFillState) (j : Int) : AutoFillState :=
  let maxValue := g.blockRows * g.blockCols + 1
  if (st.copyOfBoard.cells i j).number = UNASSIGNED then
    let st1 := (intRange 1 maxValue).foldl (auto_fill_try g i j) st
    let st2 :=
      if st1.numOfCandidates = 1 then
        { st1 with
          board := (validate_risks g (setNumber st1.board i j st1.candidate) (j + 1) (i + 1)).2,
          fillFlag := true }
      else st1
    { st2 with numOfCandidates := 0 }
  else st

/-- `auto_fill` of `game.c`: the returned `fillFlag` and the board afterwards.
The local `candidate` is uninitialised in the source; it is only read after it has been
assigned (when `numOfCandidates == 1`), so its initial value, taken as `0`, is never
observed. -/
def auto_fill (g : Globals) (board : Board) : Bool × Board :=
  let N := g.blockRows * g.blockCols
  if check_board_erroneous g board = true then (false, board)
  else
    let copyOfBoard := copy_board g board (generate_empty_board g)
    let st0 : AutoFillState :=
      { board := board, copyOfBoard := copyOfBoard, fillFlag := false,
        candidate := 0, numOfCandidates := 0 }
    let st := (intRange 0 N).foldl
      (fun st i => (intRange 0 N).foldl (auto_fill_body g i) st) st0
    (st.fillFlag, st.board)

/-! ## Specification-side vocabulary -/

/-- The side of the grid, `N = blockRows * blockCols`. -/
def Globals.N (g : Globals) : Int := g.blockRows * g.blockCols

/-- The dimensions describe a grid: positive block sides, and the `rows`/`cols` read by
`main_aux.c` are the block sides `blockRows`/`blockCols` read by `game.c`. -/
def Globals.WF (g : Globals) : Prop :=
  0 < g.blockRows ∧ 0 < g.blockCols ∧ g.rows = g.blockRows ∧ g.cols = g.blockCols

instance (g : Globals) : Decidable g.WF := by
  unfold Globals.WF; infer_instance

/-- Bounded existential over a loop range is decidable. -/
instance decidableExistsRange (P : Int → Prop) [DecidablePred P] (lo hi : Int) :
    Decidable (∃ r, lo ≤ r ∧ r < hi ∧ P r) :=
  decidable_of_iff (∃ r ∈ intRange lo hi, P r) (by
    constructor
    · rintro ⟨r, hr, hp⟩
      simp only [intRange, List.mem_map, List.mem_range] at hr
      obtain ⟨k, hk, rfl⟩ := hr
      exact ⟨lo + k, by omega, by omega, hp⟩
    · rintro ⟨r, h1, h2, hp⟩
      refine ⟨r, ?_, hp⟩
      simp only [intRange, List.mem_map, List.mem_range]
      exact ⟨(r - lo).toNat, by omega, by omega⟩)

/-- Cells `(r, c)` and `(r2, c2)` lie in the same row, the same column or the same block. -/
def sameUnit (g : Globals) (r c r2 c2 : Int) : Prop :=
  r2 = r ∨ c2 = c ∨ (r2 / g.blockRows = r / g.blockRows ∧ c2 / g.blockCols = c / g.blockCols)

instance (g : Globals) (r c r2 c2 : Int) : Decidable (sameUnit g r c r2 c2) := by
  unfold sameUnit; infer_instance

/-- Some cell of the grid other than `(r, c)`, in the row, column or block of `(r, c)`,
holds `v`. -/
def conflictAt (g : Globals) (b : Board) (r c v : Int) : Prop :=
  ∃ r2, 0 ≤ r2 ∧ r2 < g.N ∧ ∃ c2, 0 ≤ c2 ∧ c2 < g.N ∧
    ((r2 ≠ r ∨ c2 ≠ c) ∧ sameUnit g r c r2 c2 ∧ (b.cells r2 c2).number = v)

instance (g : Globals) (b : Board) (r c v : Int) : Decidable (conflictAt g b r c v) := by
  unfold conflictAt; infer_instance

/-- No cell of the grid carries an asterisk. -/
def Unflagged (g : Globals) (b : Board) : Prop :=
  ∀ r, 0 ≤ r → r < g.N → ∀ c, 0 ≤ c → c < g.N → (b.cells r c).asterisk = false

instance (g : Globals) (b : Board) : Decidable (Unflagged g b) := by
  unfold Unflagged; infer_instance

/-- The flag invariant of the data model, for the non-empty, non-fixed cells: flagged iff
some other cell of its row, column or block holds the same value. -/
def FlagInvariant (g : Globals) (b : Board) : Prop :=
  ∀ r, 0 ≤ r → r < g.N → ∀ c, 0 ≤ c → c < g.N →
    (b.cells r c).number ≠ 0 → (b.cells r c).isFixed = false →
      ((b.cells r c).asterisk = true ↔ conflictAt g b r c (b.cells r c).number)

instance (g : Globals) (b : Board) : Decidable (FlagInvariant g b) := by
  unfold FlagInvariant; infer_instance

/-- No empty cell of the grid carries an asterisk. -/
def NoEmptyFlagged (g : Globals) (b : Board) : Prop :=
  ∀ r, 0 ≤ r → r < g.N → ∀ c, 0 ≤ c → c < g.N →
    (b.cells r c).number = 0 → (b.cells r c).asterisk = false

instance (g : Globals) (b : Board) : Decidable (NoEmptyFlagged g b) := by
  unfold NoEmptyFlagged; infer_instance

/-- No fixed cell of the grid carries an asterisk. -/
def NoFixedFlagged (g : Globals) (b : Board) : Prop :=
  ∀ r, 0 ≤ r → r < g.N → ∀ c, 0 ≤ c → c < g.N →
    (b.cells r c).isFixed = true → (b.cells r c).asterisk = false

instance (g : Globals) (b : Board) : Decidable (NoFixedFlagged g b) := by
  unfold NoFixedFlagged; infer_instance

/-- Two boards agree on the value, fixed marker and flag of every cell of the grid. -/
def SameCells (g : Globals) (b b2 : Board) : Prop :=
  ∀ r, 0 ≤ r → r < g.N → ∀ c, 0 ≤ c → c < g.N → b2.cells r c = b.cells r c

instance (g : Globals) (b b2 : Board) : Decidable (SameCells g b b2) := by
  unfold SameCells; infer_instance

/-- Some cell of the grid holds a non-zero value that another cell of its row, column or
block holds too. -/
def AnyConflict (g : Globals) (b : Board) : Prop :=
  ∃ r, 0 ≤ r ∧ r < g.N ∧ ∃ c, 0 ≤ c ∧ c < g.N ∧
    ((b.cells r c).number ≠ 0 ∧ conflictAt g b r c (b.cells r c).number)

instance (g : Globals) (b : Board) : Decidable (AnyConflict g b) := by
  unfold AnyConflict; infer_instance

/-- Some non-fixed cell of the grid holds a non-zero value that another cell of its row,
column or block holds too. -/
def AnyNonFixedConflict (g : Globals) (b : Board) : Prop :=
  ∃ r, 0 ≤ r ∧ r < g.N ∧ ∃ c, 0 ≤ c ∧ c < g.N ∧
    ((b.cells r c).isFixed = false ∧ (b.cells r c).number ≠ 0 ∧
      conflictAt g b r c (b.cells r c).number)

instance (g : Globals) (b : Board) : Decidable (AnyNonFixedConflict g b) := by
  unfold AnyNonFixedConflict; infer_instance

/-! ## Proof vocabulary -/

/-- All pairs `(a, b)` in the order a nested loop (outer over `as`, inner over `bs`)
visits them. -/
def pairs {α β : Type} : List α → List β → List (α × β)
  | [], _ => []
  | a :: as, bs => bs.map (fun b => (a, b)) ++ pairs as bs

/-- The common shape of the loop bodies of `val_in_block`, `val_in_row` and
`val_in_column`: unless the index is skipped, one cell is tested against `val` and,
on a hit, one cell is marked if it is not fixed. -/
def scanBody {α : Type} (skip : α → Prop) [DecidablePred skip] (test mark : α → Int × Int)
    (val : Int) (st : Bool × Board) (x : α) : Bool × Board :=
  if skip x then st
  else if (st.2.cells (test x).1 (test x).2).number = val then
    (true,
      if (st.2.cells (mark x).1 (mark x).2).isFixed = false
      then setAsterisk st.2 (mark x).1 (mark x).2 true else st.2)
  else st

/-- Board `b2` arises from `b` by setting asterisks on cells that are not fixed: values
and fixed markers are kept and no asterisk is removed. -/
def Marked (b b2 : Board) : Prop :=
  ∀ i j, (b2.cells i j).number = (b.cells i j).number ∧
    (b2.cells i j).isFixed = (b.cells i j).isFixed ∧
    ((b.cells i j).asterisk = true → (b2.cells i j).asterisk = true) ∧
    ((b2.cells i j).asterisk = true →
      (b.cells i j).asterisk = true ∨ (b.cells i j).isFixed = false)

/-- Boards `b` and `b2` hold the same value and fixed marker in every cell. -/
def FlagOnly (b b2 : Board) : Prop :=
  ∀ i j, (b2.cells i j).number = (b.cells i j).number ∧
    (b2.cells i j).isFixed = (b.cells i j).isFixed

/-! ## Concrete boards used to exercise the operations -/

/-- Dimensions of a 4x4 grid of 2x2 blocks. -/
def dims2x2 : Globals := ⟨2, 2, 2, 2⟩

/-- The board whose cell values are the given rows (missing entries are empty);
no cell is fixed or flagged. -/
def boardOfRows (rowsList : List (List Int)) : Board :=
  ⟨fun r c =>
    if 0 ≤ r ∧ 0 ≤ c then ⟨(rowsList.getD r.toNat []).getD c.toNat 0, false, false⟩
    else ⟨0, false, false⟩⟩

/-- The 4x4 board whose only non-empty cell is row 1 / column 1, holding `1`. -/
def boardSingleOne : Board := boardOfRows [[1]]

/-- A 4x4 board that satisfies the flag invariant: row 1 = [3,1,0,0], row 2 = [1,0,0,0],
where the two `1`s (same block) are flagged. -/
def boardTwoOnes : Board :=
  setAsterisk (setAsterisk (boardOfRows [[3, 1], [1]]) 0 1 true) 1 0 true

/-- A 4x4 board with no flag whose only duplicate is between two fixed cells:
row 1 = [1,0,1,0] with both `1`s fixed. -/
def boardFixedPair : Board :=
  setIsFixed (setIsFixed (boardOfRows [[1, 0, 1]]) 0 0 true) 0 2 true

/-! ## Further operations of `game.c` and `main_aux.c` -/

/-- `count_empty_cells` of `game.c`. -/
def count_empty_cells (g : Globals) (board : Board) : Int :=
  let N := g.blockRows * g.blockCols
  (intRange 0 N).foldl
    (fun counter i =>
      (intRange 0 N).foldl
        (fun counter j =>
          if (board.cells i j).number = UNASSIGNED then counter + 1 else counter)
        counter)
    0

/-- `board_is_empty` of `game.c`. -/
def board_is_empty (g : Globals) (board : Board) : Bool :=
  let N := g.blockRows * g.blockCols
  if count_empty_cells g board ≠ N * N then false else true

/-- `update_moves_list` of `game.c`: the board `boardAfter` that is handed to
`insert_at_tail`.  The list itself lives in the missing `linked_list.c` and is not
modelled; `board`, which is only read, is not returned. -/
def update_moves_list (g : Globals) (board : Board) : Board :=
  copy_board g board (generate_empty_board g)

/-- An `int` array, `a[i]` being `a.elems i`. -/
structure IntArray where
  elems : Int → Int

/-- Assignment `a[i] = v`. -/
def setElem (a : IntArray) (i v : Int) : IntArray :=
  ⟨fun k => if k = i then v else a.elems k⟩

/-- `del_from_arr` of `main_aux.c`; `game.c` calls it under the name `delFromArr`. -/
def del_from_arr (position numbersLeft : Int) (availableNumbers : IntArray) : IntArray :=
  (intRange (position - 1) (numbersLeft - 1)).foldl
    (fun a c => setElem a c (a.elems (c + 1)))
    availableNumbers

/-- Modelled from the spec: `generate_int_array` is not part of the sources; following the
comment at its call site in `fill_cell` it yields the available numbers `1..N`. -/
def generate_int_array (N : Int) : IntArray :=
  ⟨fun i => if 0 ≤ i ∧ i < N then i + 1 else 0⟩

/-- The `while (numbersLeft > 0)` loop of `fill_cell`, by recursion on `numbersLeft`, which
the loop decrements in every iteration.  `rand` is the stream of values returned by
successive calls of `rand()` and `pos` the number of calls made so far; the result
carries the returned flag, the board and the new position in the stream.  `column` and
`row` are 0-based here, as in the source.  The array is total here: the write to index
`-1` that `delFromArr` makes after a failed try at index `0` lands outside the entries
the loop reads, whereas in C it is a write before the allocated block;
`fill_cell_loop_writes` lists the indices written. -/
def fill_cell_loop (g : Globals) (rand : Nat → Int) (column row : Int) :
    Nat → IntArray → Board → Board → Nat → Bool × Board × Nat
  | 0, _, _, board, pos => (false, board, pos)
  | n + 1, availableNumbers, copyOfBoard, board, pos =>
    let numbersLeft : Int := (n : Int) + 1
    let randomIndex := Int.tmod (rand pos) numbersLeft
    let nextNum := availableNumbers.elems randomIndex
    let r := valid_check g copyOfBoard (column + 1) (row + 1) nextNum
    if r.1 = true then
      (true, copy_board g (setNumber r.2 row column nextNum) board, pos + 1)
    else
      let copy1 := setAsterisk (setNumber r.2 row column UNASSIGNED) row column false
      let numbersLeft1 : Int := numbersLeft - 1
      let availableNumbers1 :=
        if numbersLeft1 > 0 then del_from_arr randomIndex numbersLeft1 availableNumbers
        else availableNumbers
      fill_cell_loop g rand column row n availableNumbers1 copy1 board (pos + 1)

/-- `fill_cell` of `game.c`. -/
def fill_cell (g : Globals) (rand : Nat → Int) (board : Board) (column row : Int)
    (pos : Nat) : Bool × Board × Nat :=
  let N := g.blockRows * g.blockCols
  fill_cell_loop g rand column row N.toNat (generate_int_array N)
    (copy_board g board (generate_empty_board g)) board pos

/-- The `while (triesLeft > 0)` loop of `generate_randomized_solved_board`.  The loop need
not terminate (it spins while the random cell chosen is already filled), so it runs on
`fuel`, one unit per evaluation of the loop condition, and yields `none` when the fuel
runs out.  `ILP` is the external solver (`some` solution, or `none` for unsolvable) and
`copy_random_cells` the missing extraction helper; both are parameters. -/
def generate_loop (g : Globals) (ILP : Board → Option Board)
    (copy_random_cells : Board → Int → Board → (Nat → Int) → Nat → Board)
    (rand : Nat → Int) (initialFullCells copyCells : Int) :
    Nat → Board → Int → Int → Nat → Option (Bool × Board)
  | 0, _, _, _, _ => none
  | fuel + 1, board, cellsFilled, triesLeft, pos =>
    let N := g.blockCols * g.blockRows
    if triesLeft > 0 then
      if cellsFilled < initialFullCells then
        let randCol := Int.tmod (rand pos) N
        let randRow := Int.tmod (rand (pos + 1)) N
        if (board.cells randRow randCol).number = UNASSIGNED then
          let r := fill_cell g rand board randCol randRow (pos + 2)
          if r.1 = false then
            generate_loop g ILP copy_random_cells rand initialFullCells copyCells fuel
              (empty_board g r.2.1) 0 (triesLeft - 1) r.2.2
          else
            generate_loop g ILP copy_random_cells rand initialFullCells copyCells fuel
              r.2.1 (cellsFilled + 1) triesLeft r.2.2
        else
          generate_loop g ILP copy_random_cells rand initialFullCells copyCells fuel
            board cellsFilled triesLeft (pos + 2)
      else if cellsFilled = initialFullCells then
        match ILP board with
        | some newBoard =>
          let board1 := empty_board g board
          let board2 := copy_random_cells newBoard copyCells board1 rand pos
          if board_is_empty g board2 = true then some (false, board2)
          else some (true, board2)
        | none =>
          generate_loop g ILP copy_random_cells rand initialFullCells copyCells fuel
            (empty_board g (empty_board g board)) 0 (triesLeft - 1) pos
      else
        generate_loop g ILP copy_random_cells rand initialFullCells copyCells fuel
          board cellsFilled triesLeft pos
    else some (false, board)

/-- `generate_randomized_solved_board` of `game.c`: `none` when the fuel does not suffice,
otherwise the returned flag and the board afterwards. -/
def generate_randomized_solved_board (g : Globals) (ILP : Board → Option Board)
    (copy_random_cells : Board → Int → Board → (Nat → Int) → Nat → Board)
    (rand : Nat → Int) (fuel : Nat) (board : Board) (initialFullCells copyCells : Int) :
    Option (Bool × Board) :=
  let emptyCellsCounter := count_empty_cells g board
  if (!valid_set_value initialFullCells emptyCellsCounter)
      || (!valid_set_value copyCells emptyCellsCounter) then
    some (false, board)
  else if (!board_is_empty g board) = true then
    some (false, board)
  else
    generate_loop g ILP copy_random_cells rand initialFullCells copyCells fuel board 0 1000 0

/-- `count_solutions` of `game.c`.  `get_next_play` and `deterministic_backtrack` belong
to the missing `solver.c` and are parameters; of the array `get_next_play` returns, the
entries `0` and `1`, the only ones read, are kept. -/
def count_solutions (g : Globals) (get_next_play : Board → Int × Int)
    (deterministic_backtrack : Board → Int → Int → Int) (board : Board) : Int :=
  let boardCopy := copy_board g board (generate_empty_board g)
  let unassignedsArray := get_next_play boardCopy
  if unassignedsArray.1 = -1 then 0
  else deterministic_backtrack boardCopy unassignedsArray.1 unassignedsArray.2

/-! ## Further concrete inputs -/

/-- The 4x4 board of the auto-fill example: row 1 = [0,0,1,2], row 2 = [3,0,0,0], other
rows empty; no cell is fixed or flagged. -/
def boardAutoFill : Board := boardOfRows [[0, 0, 1, 2], [3]]

/-- A solved 4x4 grid; no cell is fixed or flagged. -/
def boardSolved4 : Board :=
  boardOfRows [[1, 2, 3, 4], [3, 4, 1, 2], [2, 1, 4, 3], [4, 3, 2, 1]]

/-- Modelled from the spec: one possible behaviour of the missing `copy_random_cells`,
the one in which the random subset is the first `copyCells` cells in row-major order.
Each retained cell receives the value of the solved board and is marked fixed; the other
cells of the destination are left as they are. -/
def copy_cells_in_order (g : Globals) (solved : Board) (copyCells : Int) (board : Board)
    (_rand : Nat → Int) (_pos : Nat) : Board :=
  let N := g.blockRows * g.blockCols
  ((intRange 0 N).foldl
    (fun st i =>
      (intRange 0 N).foldl
        (fun (st : Int × Board) j =>
          if st.1 < copyCells then
            (st.1 + 1, setIsFixed (setNumber st.2 i j (solved.cells i j).number) i j true)
          else st)
        st)
    (0, board)).2

/-- Every cell of the grid holds a non-zero value. -/
def NoEmptyCell (g : Globals) (b : Board) : Prop :=
  ∀ r, 0 ≤ r → r < g.N → ∀ c, 0 ≤ c → c < g.N → (b.cells r c).number ≠ 0

instance (g : Globals) (b : Board) : Decidable (NoEmptyCell g b) := by
  unfold NoEmptyCell; infer_instance

/-- Every cell of the grid is empty, not fixed and not flagged. -/
def Cleared (g : Globals) (b : Board) : Prop :=
  ∀ r, 0 ≤ r → r < g.N → ∀ c, 0 ≤ c → c < g.N → b.cells r c = ⟨0, false, false⟩

instance (g : Globals) (b : Board) : Decidable (Cleared g b) := by
  unfold Cleared; infer_instance

/-- Some cell of the grid holds a non-zero value. -/
def SomeValue (g : Globals) (b : Board) : Prop :=
  ∃ r, 0 ≤ r ∧ r < g.N ∧ ∃ c, 0 ≤ c ∧ c < g.N ∧ (b.cells r c).number ≠ 0

instance (g : Globals) (b : Board) : Decidable (SomeValue g b) := by
  unfold SomeValue; infer_instance

/-- The empty cell `(r, c)` has `k` as its single candidate: `k` is the only value of
`1..N` that no other cell of its row, column or block holds. -/
def SingleCandidate (g : Globals) (b : Board) (r c k : Int) : Prop :=
  (b.cells r c).number = 0 ∧ (1 ≤ k ∧ k ≤ g.N ∧ ¬ conflictAt g b r c k) ∧
    ∀ k2, 1 ≤ k2 → k2 ≤ g.N → ¬ conflictAt g b r c k2 → k2 = k

instance (g : Globals) (b : Board) (r c k : Int) : Decidable (SingleCandidate g b r c k) := by
  unfold SingleCandidate; infer_instance

/-- What holds of the loop state of `auto_fill`, started on board `b`, between two cells:
the live board carries no asterisk, the copy still holds the values of `b`, the candidate
counter is reset, every cell of the live board holds its value in `b` or its single
candidate, and `fillFlag` is only set when some cell has a single candidate. -/
def AutoFillInv (g : Globals) (b : Board) (st : AutoFillState) : Prop :=
  Unflagged g st.board ∧
  (∀ r, 0 ≤ r → r < g.N → ∀ c, 0 ≤ c → c < g.N →
    (st.copyOfBoard.cells r c).number = (b.cells r c).number) ∧
  st.numOfCandidates = 0 ∧
  (∀ r, 0 ≤ r → r < g.N → ∀ c, 0 ≤ c → c < g.N →
    (st.board.cells r c).number = (b.cells r c).number ∨
      SingleCandidate g b r c (st.board.cells r c).number) ∧
  (st.fillFlag = true →
    ∃ r, 0 ≤ r ∧ r < g.N ∧ ∃ c, 0 ≤ c ∧ c < g.N ∧ ∃ k, SingleCandidate g b r c k)

/-! ## Saving and loading: `save_command`, `load_board`

The file is the list of characters written to it or read from it.  A file that cannot be
opened and a failing write are not modelled; `'\0'` characters never occur in the files
considered. -/

/-- The characters `printf("%d", n)` writes. -/
def printInt (n : Int) : List Char :=
  if n < 0 then '-' :: Nat.toDigits 10 (-n).toNat else Nat.toDigits 10 n.toNat

/-- What `save_command` writes for one cell: the value, a dot for a fixed cell or in
mode `'E'` when the cell is not empty, and a blank. -/
def save_cell (mode : Char) (c : cell) : List Char :=
  printInt c.number
    ++ (if (c.isFixed = true ∨ mode = 'E') ∧ c.number ≠ UNASSIGNED then ['.'] else [])
    ++ [' ']

/-- `save_command` of `game.c`: the text written to the file, or `none` when the function
returns before writing (in mode `'E'`, on an erroneous or unsolvable board).  `ILP` is the
external solver, of which only solvability is used. -/
def save_command (g : Globals) (ILP : Board → Option Board) (mode : Char) (board : Board) :
    Option (List Char) :=
  if mode = 'E' ∧ check_board_erroneous g board = true then none
  else if mode = 'E' ∧ (ILP board).isSome = false then none
  else
    let N := g.blockRows * g.blockCols
    let header := printInt g.blockRows ++ [' '] ++ printInt g.blockCols ++ ['\n']
    some ((intRange 0 N).foldl
      (fun out i =>
        (intRange 0 N).foldl (fun out j => out ++ save_cell mode (board.cells i j)) out
          ++ ['\n'])
      header)

/-- The delimiter set `" \t\r\n"` of `load_board`. -/
def isDelimiter (c : Char) : Bool :=
  c = ' ' || c = '\t' || c = '\r' || c = '\n'

/-- The characters `fgets` stores: at most `k` of them, stopping after a newline; the
second component is what remains of the file. -/
def fgetsTake : Nat → List Char → List Char × List Char
  | 0, rest => ([], rest)
  | _ + 1, [] => ([], [])
  | k + 1, c :: rest =>
    if c = '\n' then ([c], rest)
    else ((c :: (fgetsTake k rest).1), (fgetsTake k rest).2)

/-- Call `fgets(line, n, fp)`: `none` at end of file (the buffer is then left alone),
otherwise the line read and the rest of the file. -/
def fgets (n : Nat) (file : List Char) : Option (List Char × List Char) :=
  match file with
  | [] => none
  | _ :: _ => some (fgetsTake (n - 1) file)

/-- The successive tokens `strtok` finds in a line; `cur` is the token being read. -/
def tokensAux : List Char → List Char → List (List Char)
  | [], cur => if cur = [] then [] else [cur]
  | c :: rest, cur =>
    if isDelimiter c = true then
      if cur = [] then tokensAux rest [] else cur :: tokensAux rest []
    else tokensAux rest (cur ++ [c])

/-- The successive results of `strtok(line, delimiter)`, `strtok(NULL, delimiter)`, ... -/
def strtokAll (line : List Char) : List (List Char) := tokensAux line []

/-- The line buffer as a C string once `strtok` has cut off its first token: the leading
delimiters and the first token. -/
def lineAfterStrtok (line : List Char) : List Char :=
  line.takeWhile isDelimiter
    ++ (line.dropWhile isDelimiter).takeWhile (fun c => !isDelimiter c)

/-- The digits read by `atoi`, accumulated from the left. -/
def atoiDigits : List Char → Int → Int
  | [], acc => acc
  | c :: cs, acc =>
    if c.isDigit = true then atoiDigits cs (acc * 10 + ((c.toNat : Int) - 48)) else acc

/-- `atoi` of the C library: leading white space, an optional sign, then digits. -/
def atoi (s : List Char) : Int :=
  match s.dropWhile (fun c => c = ' ' || (9 ≤ c.toNat && c.toNat ≤ 13)) with
  | '-' :: cs => - atoiDigits cs 0
  | '+' :: cs => atoiDigits cs 0
  | cs => atoiDigits cs 0

/-- The assignments `load_board` makes for one cell from its token; `token[1]` of a
one-character token is the terminating `'\0'`. -/
def load_cell (mode : Char) (board : Board) (i j : Int) (token : List Char) : Board :=
  let b1 := setNumber board i j (((token.getD 0 (Char.ofNat 0)).toNat : Int) - 48)
  if token.getD 1 (Char.ofNat 0) = '.' ∧ mode = 'S' then setIsFixed b1 i j true
  else if token.getD 1 (Char.ofNat 0) = '*' then setAsterisk b1 i j true
  else b1

/-- Body of the `j` loop of `load_board`: the state is the board and the tokens not yet
consumed, the head being the current `token`; dereferencing a `NULL` token (no token
left) is a crash, `none`. -/
def load_row_step (mode : Char) (i : Int) (st : Option (Board × List (List Char)))
    (j : Int) : Option (Board × List (List Char)) :=
  match st with
  | none => none
  | some (_, []) => none
  | some (board, token :: rest) => some (load_cell mode board i j token, rest)

/-- The `j` loop of `load_board` over the tokens of one line. -/
def load_row (mode : Char) (N : Int) (board : Board) (i : Int) (tokens : List (List Char)) :
    Option (Board × List (List Char)) :=
  (intRange 0 N).foldl (load_row_step mode i) (some (board, tokens))

/-- The local state of `load_board` across the lines: the unread part of the file, the
line buffer and the board. -/
structure LoadState where
  file : List Char
  line : List Char
  board : Board

/-- Body of the `i` loop of `load_board`: `fgets(line, 256, fp)`, whose result is not
checked, then the tokens of the line. -/
def load_rows_step (mode : Char) (N : Int) (st : Option LoadState) (i : Int) :
    Option LoadState :=
  match st with
  | none => none
  | some st =>
    let read := fgets 256 st.file
    let line := match read with
      | some r => r.1
      | none => st.line
    let file := match read with
      | some r => r.2
      | none => st.file
    match load_row mode N st.board i (strtokAll line) with
    | none => none
    | some r => some { file := file, line := lineAfterStrtok line, board := r.1 }

/-- The `i` loop of `load_board`. -/
def load_rows (mode : Char) (N : Int) (st : LoadState) : Option LoadState :=
  (intRange 0 N).foldl (load_rows_step mode N) (some st)

/-- `load_board` of `game.c`: `none` when it returns `NULL` or crashes on a missing token,
otherwise the globals with the `blockRows` and `blockCols` read from the file and the
board.  `g` holds the globals before the call.  As in the source, `rows` and `cols` are
left as they were and the closing `mark_asterisks` runs under them; when they differ from
the block sides read, the source divides by zero or indexes past a row where this
definition still yields a board, so it stands for the source only when they agree. -/
def load_board (g : Globals) (mode : Char) (file : List Char) : Option (Globals × Board) :=
  match fgets 257 file with
  | none => none
  | some (line, rest) =>
    match strtokAll line with
    | t1 :: t2 :: _ =>
      let g1 : Globals := { g with blockRows := atoi t1, blockCols := atoi t2 }
      let board := generate_empty_board g1
      let N := g1.blockRows * g1.blockCols
      match load_rows mode N { file := rest, line := lineAfterStrtok line, board := board } with
      | none => none
      | some st => some (g1, mark_asterisks g1 st.board)
    | _ => none

/-- Dimensions of a 10x10 grid of blocks with 2 rows and 5 columns. -/
def dims2x5 : Globals := ⟨2, 5, 2, 5⟩

/-- The 10x10 board whose only value is `10`, at row 1 / column 1. -/
def boardSingleTen : Board := boardOfRows [[10]]

/-- The 4x4 board whose only value is a fixed `2` at row 1 / column 1. -/
def boardFixedTwo : Board := setIsFixed (boardOfRows [[2]]) 0 0 true

/-- The token `save_command` writes for a cell, without the blank that follows it. -/
def cellToken (mode : Char) (c : cell) : List Char :=
  printInt c.number
    ++ (if (c.isFixed = true ∨ mode = 'E') ∧ c.number ≠ UNASSIGNED then ['.'] else [])

/-- The line `save_command` writes for row `i`. -/
def rowLine (g : Globals) (mode : Char) (b : Board) (i : Int) : List Char :=
  ((intRange 0 g.N).map (fun j => cellToken mode (b.cells i j) ++ [' '])).flatten ++ ['\n']

/-! ## Inputs and vocabulary for the scan, the seeding step and the candidate array -/

/-- The 4x4 board with row 1 = [2,1,0,0] and row 2 = [1,0,0,0]; no cell is fixed or
flagged. -/
def boardScan : Board := boardOfRows [[2, 1, 0, 0], [1, 0, 0, 0]]

/-- The 4x4 board with row 1 = [1,2,3,0]; no cell is fixed or flagged. -/
def boardRowThree : Board := boardOfRows [[1, 2, 3, 0]]

/-- The 4x4 board whose only value is `2` at row 1 / column 1; no cell is fixed or
flagged. -/
def boardSingleTwo : Board := boardOfRows [[2]]

/-- The random stream on which every call of `rand()` returns `1`. -/
def randOnes : Nat → Int := fun _ => 1

/-- The indices `del_from_arr` writes, in the order of its loop: `availableNumbers[c]`. -/
def del_from_arr_writes (position numbersLeft : Int) : List Int :=
  intRange (position - 1) (numbersLeft - 1)

/-- The indices `del_from_arr` reads, in the order of its loop: `availableNumbers[c+1]`. -/
def del_from_arr_reads (position numbersLeft : Int) : List Int :=
  (intRange (position - 1) (numbersLeft - 1)).map (fun c => c + 1)

/-- The deletion in the words of the specification: the entries before `position` stay,
the entry at `position` is removed and the later entries move one place down. -/
def deleted_at (position : Int) (a : IntArray) : IntArray :=
  ⟨fun k => if k < position then a.elems k else a.elems (k + 1)⟩

/-- The indices of `availableNumbers` that the loop of `fill_cell` writes through its
calls of `delFromArr`, in order.  The arguments and the control flow are those of
`fill_cell_loop`. -/
def fill_cell_loop_writes (g : Globals) (rand : Nat → Int) (column row : Int) :
    Nat → IntArray → Board → Nat → List Int
  | 0, _, _, _ => []
  | n + 1, availableNumbers, copyOfBoard, pos =>
    let numbersLeft : Int := (n : Int) + 1
    let randomIndex := Int.tmod (rand pos) numbersLeft
    let nextNum := availableNumbers.elems randomIndex
    let r := valid_check g copyOfBoard (column + 1) (row + 1) nextNum
    if r.1 = true then []
    else
      let copy1 := setAsterisk (setNumber r.2 row column UNASSIGNED) row column false
      let numbersLeft1 : Int := numbersLeft - 1
      if numbersLeft1 > 0 then
        del_from_arr_writes randomIndex numbersLeft1
          ++ fill_cell_loop_writes g rand column row n
              (del_from_arr randomIndex numbersLeft1 availableNumbers) copy1 (pos + 1)
      else fill_cell_loop_writes g rand column row n availableNumbers copy1 (pos + 1)

/-- The indices of `availableNumbers` written during a call of `fill_cell`. -/
def fill_cell_writes (g : Globals) (rand : Nat → Int) (board : Board) (column row : Int)
    (pos : Nat) : List Int :=
  let N := g.blockRows * g.blockCols
  fill_cell_loop_writes g rand column row N.toNat (generate_int_array N)
    (copy_board g board (generate_empty_board g)) pos

/-- Dimensions of an 85x85 grid of blocks with 5 rows and 17 columns. -/
def dims5x17 : Globals := ⟨5, 17, 5, 17⟩

/-- The board whose first row holds a fixed `1` in every cell, all other cells being
empty; no cell is flagged. -/
def boardFixedRow : Board :=
  ⟨fun r _ => if r = 0 then ⟨1, true, false⟩ else ⟨0, false, false⟩⟩

/-! ## Loops as folds -/

theorem mem_intRange {lo hi x : Int} : x ∈ intRange lo hi ↔ lo ≤ x ∧ x < hi := by
  simp only [intRange, List.mem_map, List.mem_range]
  constructor
  · rintro ⟨k, hk, rfl⟩
    omega
  · intro h
    exact ⟨(x - lo).toNat, by omega, by omega⟩

theorem foldl_inv {α σ : Type} (P : σ → Prop) (f : σ → α → σ) (l : List α) (s : σ)
    (h0 : P s) (hstep : ∀ s x, x ∈ l → P s → P (f s x)) : P (l.foldl f s) := by
  induction l generalizing s with
  | nil => exact h0
  | cons a l ih =>
    simp only [List.foldl_cons]
    apply ih
    · exact hstep s a (List.mem_cons_self _ _) h0
    · intro s x hx hs
      exact hstep s x (List.mem_cons_of_mem _ hx) hs

theorem foldl_track {α σ : Type} (P : σ → Prop) (Q : α → σ → Prop) (f : σ → α → σ)
    (l : List α) (s : σ) (h0 : P s)
    (hP : ∀ s x, x ∈ l → P s → P (f s x))
    (hQ : ∀ s x, x ∈ l → P s → Q x (f s x))
    (hmono : ∀ s x y, y ∈ l → P s → Q x s → Q x (f s y)) :
    ∀ x ∈ l, Q x (l.foldl f s) := by
  induction l generalizing s with
  | nil => intro x hx; cases hx
  | cons a l ih =>
    intro x hx
    simp only [List.foldl_cons]
    have hPa : P (f s a) := hP s a (List.mem_cons_self _ _) h0
    rcases List.mem_cons.mp hx with rfl | hxl
    · refine (foldl_inv (fun t => P t ∧ Q x t) f l (f s x) ⟨hPa, ?_⟩ ?_).2
      · exact hQ s x (List.mem_cons_self _ _) h0
      · intro t y hy ht
        exact ⟨hP t y (List.mem_cons_of_mem _ hy) ht.1,
          hmono t x y (List.mem_cons_of_mem _ hy) ht.1 ht.2⟩
    · exact ih (f s a) hPa
        (fun t y hy ht => hP t y (List.mem_cons_of_mem _ hy) ht)
        (fun t y hy ht => hQ t y (List.mem_cons_of_mem _ hy) ht)
        (fun t y z hz ht hq => hmono t y z (List.mem_cons_of_mem _ hz) ht hq) x hxl

theorem mem_pairs {α β : Type} {as : List α} {bs : List β} {p : α × β} :
    p ∈ pairs as bs ↔ p.1 ∈ as ∧ p.2 ∈ bs := by
  induction as with
  | nil => simp [pairs]
  | cons a as ih =>
    simp only [pairs, List.mem_append, List.mem_map, ih, List.mem_cons]
    constructor
    · rintro (⟨b, hb, rfl⟩ | ⟨h1, h2⟩)
      · exact ⟨Or.inl rfl, hb⟩
      · exact ⟨Or.inr h1, h2⟩
    · rintro ⟨rfl | h1, h2⟩
      · exact Or.inl ⟨p.2, h2, rfl⟩
      · exact Or.inr ⟨h1, h2⟩

theorem foldl_pairs {α β σ : Type} (f : α → σ → β → σ) (as : List α) (bs : List β) (s : σ) :
    as.foldl (fun s a => bs.foldl (f a) s) s
      = (pairs as bs).foldl (fun s p => f p.1 s p.2) s := by
  induction as generalizing s with
  | nil => rfl
  | cons a as ih =>
    simp only [List.foldl_cons, pairs, List.foldl_append, List.foldl_map]
    exact ih _

/-! ## Cell updates -/

@[simp] theorem setAsterisk_number (b : Board) (r c : Int) (v : Bool) (i j : Int) :
    ((setAsterisk b r c v).cells i j).number = (b.cells i j).number := by
  unfold setAsterisk; dsimp only; split <;> rfl

@[simp] theorem setAsterisk_isFixed (b : Board) (r c : Int) (v : Bool) (i j : Int) :
    ((setAsterisk b r c v).cells i j).isFixed = (b.cells i j).isFixed := by
  unfold setAsterisk; dsimp only; split <;> rfl

theorem setAsterisk_asterisk (b : Board) (r c : Int) (v : Bool) (i j : Int) :
    ((setAsterisk b r c v).cells i j).asterisk
      = if i = r ∧ j = c then v else (b.cells i j).asterisk := by
  unfold setAsterisk; dsimp only; split <;> rfl

@[simp] theorem setAsterisk_asterisk_self (b : Board) (r c : Int) (v : Bool) :
    ((setAsterisk b r c v).cells r c).asterisk = v := by
  simp [setAsterisk_asterisk]

theorem setNumber_number (b : Board) (r c v : Int) (i j : Int) :
    ((setNumber b r c v).cells i j).number
      = if i = r ∧ j = c then v else (b.cells i j).number := by
  unfold setNumber; dsimp only; split <;> rfl

@[simp] theorem setNumber_isFixed (b : Board) (r c v : Int) (i j : Int) :
    ((setNumber b r c v).cells i j).isFixed = (b.cells i j).isFixed := by
  unfold setNumber; dsimp only; split <;> rfl

@[simp] theorem setNumber_asterisk (b : Board) (r c v : Int) (i j : Int) :
    ((setNumber b r c v).cells i j).asterisk = (b.cells i j).asterisk := by
  unfold setNumber; dsimp only; split <;> rfl

theorem Marked.same (b : Board) : Marked b b :=
  fun _ _ => ⟨rfl, rfl, id, Or.inl⟩

theorem Marked.andThen {b1 b2 b3 : Board} (h12 : Marked b1 b2) (h23 : Marked b2 b3) :
    Marked b1 b3 := by
  intro i j
  obtain ⟨n1, f1, m1, k1⟩ := h12 i j
  obtain ⟨n2, f2, m2, k2⟩ := h23 i j
  refine ⟨n2.trans n1, f2.trans f1, fun h => m2 (m1 h), fun h => ?_⟩
  rcases k2 h with h2 | h2
  · exact k1 h2
  · exact Or.inr (f1 ▸ h2)

theorem Marked.mark (b : Board) (r c : Int) (h : (b.cells r c).isFixed = false) :
    Marked b (setAsterisk b r c true) := by
  intro i j
  refine ⟨by simp, by simp, ?_, ?_⟩
  · intro hij
    rw [setAsterisk_asterisk]; split
    · rfl
    · exact hij
  · rw [setAsterisk_asterisk]; split
    · rename_i hrc
      intro _
      exact Or.inr (by rw [hrc.1, hrc.2]; exact h)
    · exact Or.inl

theorem Marked.flagOnly {b b2 : Board} (h : Marked b b2) : FlagOnly b b2 :=
  fun i j => ⟨(h i j).1, (h i j).2.1⟩

theorem FlagOnly.unchanged (b : Board) : FlagOnly b b := fun _ _ => ⟨rfl, rfl⟩

theorem FlagOnly.followedBy {b1 b2 b3 : Board} (h12 : FlagOnly b1 b2) (h23 : FlagOnly b2 b3) :
    FlagOnly b1 b3 :=
  fun i j => ⟨(h23 i j).1.trans (h12 i j).1, (h23 i j).2.trans (h12 i j).2⟩

theorem FlagOnly.ofSetAsterisk (b : Board) (r c : Int) (v : Bool) :
    FlagOnly b (setAsterisk b r c v) :=
  fun i j => ⟨by simp, by simp⟩

/-! ## The three scans -/

theorem scan_spec {α : Type} (skip : α → Prop) [DecidablePred skip]
    (test mark : α → Int × Int) (val : Int) (b : Board) (l : List α) :
    ∀ (ve : Bool) (bd : Board), Marked b bd → (ve = false → bd = b) →
      Marked b (l.foldl (scanBody skip test mark val) (ve, bd)).2 ∧
      ((l.foldl (scanBody skip test mark val) (ve, bd)).1 = false →
        (l.foldl (scanBody skip test mark val) (ve, bd)).2 = b) ∧
      ((l.foldl (scanBody skip test mark val) (ve, bd)).1 = true ↔
        ve = true ∨ ∃ x ∈ l, ¬ skip x ∧ (b.cells (test x).1 (test x).2).number = val) := by
  induction l with
  | nil =>
    intro ve bd hm he
    simp only [List.foldl_nil, List.not_mem_nil, false_and, exists_false, or_false]
    exact ⟨hm, he, trivial⟩
  | cons a l ih =>
    intro ve bd hm he
    simp only [List.foldl_cons]
    by_cases hs : skip a
    · have hb : scanBody skip test mark val (ve, bd) a = (ve, bd) := by
        simp [scanBody, hs]
      rw [hb]
      obtain ⟨h1, h2, h3⟩ := ih ve bd hm he
      refine ⟨h1, h2, h3.trans ?_⟩
      constructor
      · rintro (h | ⟨x, hx, hns, hv⟩)
        · exact Or.inl h
        · exact Or.inr ⟨x, List.mem_cons_of_mem _ hx, hns, hv⟩
      · rintro (h | ⟨x, hx, hns, hv⟩)
        · exact Or.inl h
        · rcases List.mem_cons.mp hx with rfl | hx
          · exact absurd hs hns
          · exact Or.inr ⟨x, hx, hns, hv⟩
    · by_cases hv : (b.cells (test a).1 (test a).2).number = val
      · have hv2 : (bd.cells (test a).1 (test a).2).number = val := by
          rw [(hm _ _).1]; exact hv
        obtain ⟨bd2, hbd2, hm2⟩ : ∃ bd2, scanBody skip test mark val (ve, bd) a = (true, bd2)
            ∧ Marked b bd2 := by
          by_cases hf : (bd.cells (mark a).1 (mark a).2).isFixed = false
          · exact ⟨_, by simp [scanBody, hs, hv2, hf], hm.andThen (Marked.mark _ _ _ hf)⟩
          · exact ⟨_, by simp [scanBody, hs, hv2, hf], hm⟩
        rw [hbd2]
        obtain ⟨h1, h2, h3⟩ := ih true bd2 hm2 (by simp)
        refine ⟨h1, h2, ?_⟩
        constructor
        · intro _
          exact Or.inr ⟨a, List.mem_cons_self _ _, hs, hv⟩
        · intro _
          exact h3.mpr (Or.inl rfl)
      · have hv2 : ¬ (bd.cells (test a).1 (test a).2).number = val := by
          rw [(hm _ _).1]; exact hv
        have hb : scanBody skip test mark val (ve, bd) a = (ve, bd) := by
          simp [scanBody, hs, hv2]
        rw [hb]
        obtain ⟨h1, h2, h3⟩ := ih ve bd hm he
        refine ⟨h1, h2, h3.trans ?_⟩
        constructor
        · rintro (h | ⟨x, hx, hns, hv⟩)
          · exact Or.inl h
          · exact Or.inr ⟨x, List.mem_cons_of_mem _ hx, hns, hv⟩
        · rintro (h | ⟨x, hx, hns, hvx⟩)
          · exact Or.inl h
          · rcases List.mem_cons.mp hx with rfl | hx
            · exact absurd hvx hv
            · exact Or.inr ⟨x, hx, hns, hvx⟩

theorem val_in_row_spec (g : Globals) (b : Board) (column row val : Int) :
    Marked b (val_in_row g b column row val).2 ∧
    ((val_in_row g b column row val).1 = false → (val_in_row g b column row val).2 = b) ∧
    ((val_in_row g b column row val).1 = true ↔
      ∃ c, 0 ≤ c ∧ c < g.N ∧ c ≠ column - 1 ∧ (b.cells (row - 1) c).number = val) := by
  have h := scan_spec (fun c : Int => c = column - 1) (fun c => (row - 1, c))
    (fun c => (row - 1, c)) val b (intRange 0 (g.blockRows * g.blockCols)) false b
    (Marked.same b) (fun _ => rfl)
  have e : val_in_row g b column row val
      = (intRange 0 (g.blockRows * g.blockCols)).foldl
          (scanBody (fun c : Int => c = column - 1) (fun c => (row - 1, c))
            (fun c => (row - 1, c)) val) (false, b) := rfl
  rw [e]
  refine ⟨h.1, h.2.1, h.2.2.trans ?_⟩
  simp only [Bool.false_eq_true, false_or, mem_intRange, Globals.N]
  constructor
  · rintro ⟨c, ⟨h1, h2⟩, h3, h4⟩
    exact ⟨c, h1, h2, h3, h4⟩
  · rintro ⟨c, h1, h2, h3, h4⟩
    exact ⟨c, ⟨h1, h2⟩, h3, h4⟩

theorem val_in_column_spec (g : Globals) (b : Board) (column row val : Int) :
    Marked b (val_in_column g b column row val).2 ∧
    ((val_in_column g b column row val).1 = false →
      (val_in_column g b column row val).2 = b) ∧
    ((val_in_column g b column row val).1 = true ↔
      ∃ r, 0 ≤ r ∧ r < g.N ∧ r ≠ row - 1 ∧ (b.cells r (column - 1)).number = val) := by
  have h := scan_spec (fun r : Int => r = row - 1) (fun r => (r, column - 1))
    (fun r => (r, column - 1)) val b (intRange 0 (g.blockRows * g.blockCols)) false b
    (Marked.same b) (fun _ => rfl)
  have e : val_in_column g b column row val
      = (intRange 0 (g.blockRows * g.blockCols)).foldl
          (scanBody (fun r : Int => r = row - 1) (fun r => (r, column - 1))
            (fun r => (r, column - 1)) val) (false, b) := rfl
  rw [e]
  refine ⟨h.1, h.2.1, h.2.2.trans ?_⟩
  simp only [Bool.false_eq_true, false_or, mem_intRange, Globals.N]
  constructor
  · rintro ⟨c, ⟨h1, h2⟩, h3, h4⟩
    exact ⟨c, h1, h2, h3, h4⟩
  · rintro ⟨c, h1, h2, h3, h4⟩
    exact ⟨c, ⟨h1, h2⟩, h3, h4⟩

theorem val_in_block_spec (g : Globals) (b : Board) (column row val : Int) :
    Marked b (val_in_block g b column row val).2 ∧
    ((val_in_block g b column row val).1 = false →
      (val_in_block g b column row val).2 = b) ∧
    ((val_in_block g b column row val).1 = true ↔
      ∃ r c, (get_block_row_index g row ≤ r ∧ r < g.blockRows + get_block_row_index g row) ∧
        (get_block_col_index g column ≤ c ∧ c < g.blockCols + get_block_col_index g column) ∧
        ¬ (c = column - 1 ∧ r = row - 1) ∧ (b.cells r c).number = val) := by
  have h := scan_spec (fun p : Int × Int => p.1 = column - 1 ∧ p.2 = row - 1)
    (fun p => (p.2, p.1)) (fun p => (row - 1, p.1)) val b
    (pairs (intRange (get_block_col_index g column) (g.blockCols + get_block_col_index g column))
      (intRange (get_block_row_index g row) (g.blockRows + get_block_row_index g row)))
    false b (Marked.same b) (fun _ => rfl)
  have e : val_in_block g b column row val
      = (pairs (intRange (get_block_col_index g column)
            (g.blockCols + get_block_col_index g column))
          (intRange (get_block_row_index g row)
            (g.blockRows + get_block_row_index g row))).foldl
          (scanBody (fun p : Int × Int => p.1 = column - 1 ∧ p.2 = row - 1)
            (fun p => (p.2, p.1)) (fun p => (row - 1, p.1)) val) (false, b) :=
    (foldl_pairs (val_in_block_body column row val) _ _ _).trans rfl
  rw [e]
  refine ⟨h.1, h.2.1, h.2.2.trans ?_⟩
  simp only [Bool.false_eq_true, false_or, mem_pairs, mem_intRange]
  constructor
  · rintro ⟨⟨c, r⟩, ⟨h1, h2⟩, h3, h4⟩
    exact ⟨r, c, h2, h1, h3, h4⟩
  · rintro ⟨r, c, h2, h1, h3, h4⟩
    exact ⟨(c, r), ⟨h1, h2⟩, h3, h4⟩

/-! ## `valid_check` -/

/-- What `valid_check` does to the board, whatever its arguments: values and fixed markers
are kept, the target's asterisk is the negated result, no other asterisk is removed, new
asterisks only land on cells that are not fixed, and a `true` result changes nothing but
the target's asterisk. -/
theorem valid_check_frame (g : Globals) (b : Board) (column row val : Int) :
    FlagOnly b (valid_check g b column row val).2 ∧
    ((valid_check g b column row val).2.cells (row - 1) (column - 1)).asterisk
      = !(valid_check g b column row val).1 ∧
    (∀ i j, ¬ (i = row - 1 ∧ j = column - 1) →
      ((b.cells i j).asterisk = true →
        ((valid_check g b column row val).2.cells i j).asterisk = true) ∧
      (((valid_check g b column row val).2.cells i j).asterisk = true →
        (b.cells i j).asterisk = true ∨ (b.cells i j).isFixed = false)) ∧
    ((valid_check g b column row val).1 = true →
      (valid_check g b column row val).2 = setAsterisk b (row - 1) (column - 1) false) := by
  obtain ⟨m1, u1, -⟩ := val_in_block_spec g b column row val
  obtain ⟨m2, u2, -⟩ := val_in_row_spec g (val_in_block g b column row val).2 column row val
  obtain ⟨m3, u3, -⟩ := val_in_column_spec g
    (val_in_row g (val_in_block g b column row val).2 column row val).2 column row val
  have m : Marked b (val_in_column g
      (val_in_row g (val_in_block g b column row val).2 column row val).2 column row val).2 :=
    (m1.andThen m2).andThen m3
  unfold valid_check
  dsimp only
  split
  · rename_i hhit
    refine ⟨m.flagOnly.followedBy (FlagOnly.ofSetAsterisk _ _ _ _), by simp, ?_, by simp⟩
    intro i j hij
    rw [setAsterisk_asterisk, if_neg hij]
    exact ⟨(m i j).2.2.1, (m i j).2.2.2⟩
  · rename_i hhit
    simp only [Bool.or_eq_true, not_or, Bool.not_eq_true] at hhit
    refine ⟨m.flagOnly.followedBy (FlagOnly.ofSetAsterisk _ _ _ _), by simp, ?_, ?_⟩
    · intro i j hij
      rw [setAsterisk_asterisk, if_neg hij]
      exact ⟨(m i j).2.2.1, (m i j).2.2.2⟩
    · intro _
      have e1 := u1 hhit.1.1
      have e2 := u2 hhit.1.2
      have e3 := u3 hhit.2
      rw [e3, e2, e1]

/-- The result of `valid_check` in terms of the three scans' loop ranges. -/
theorem valid_check_result_raw (g : Globals) (b : Board) (column row val : Int) :
    (valid_check g b column row val).1 = false ↔
      ((∃ r c, (get_block_row_index g row ≤ r ∧ r < g.blockRows + get_block_row_index g row) ∧
        (get_block_col_index g column ≤ c ∧ c < g.blockCols + get_block_col_index g column) ∧
        ¬ (c = column - 1 ∧ r = row - 1) ∧ (b.cells r c).number = val) ∨
      (∃ c, 0 ≤ c ∧ c < g.N ∧ c ≠ column - 1 ∧ (b.cells (row - 1) c).number = val) ∨
      (∃ r, 0 ≤ r ∧ r < g.N ∧ r ≠ row - 1 ∧ (b.cells r (column - 1)).number = val)) := by
  obtain ⟨m1, -, r1⟩ := val_in_block_spec g b column row val
  obtain ⟨m2, -, r2⟩ := val_in_row_spec g (val_in_block g b column row val).2 column row val
  obtain ⟨m3, -, r3⟩ := val_in_column_spec g
    (val_in_row g (val_in_block g b column row val).2 column row val).2 column row val
  have n2 : ∀ i j, ((val_in_block g b column row val).2.cells i j).number
      = (b.cells i j).number := fun i j => (m1 i j).1
  have n3 : ∀ i j, ((val_in_row g (val_in_block g b column row val).2 column row val).2.cells
      i j).number = (b.cells i j).number := fun i j => ((m1.andThen m2) i j).1
  simp only [n2] at r2
  simp only [n3] at r3
  rw [← r1, ← r2, ← r3]
  unfold valid_check
  dsimp only
  split
  · rename_i hhit
    simp only [Bool.or_eq_true] at hhit
    simp only [true_iff]
    tauto
  · rename_i hhit
    simp only [Bool.or_eq_true] at hhit
    simp only [Bool.true_eq_false, false_iff]
    tauto

/-! ## Block arithmetic -/

/-- The origin `size * (1 + x / size - 1)` of the block of the 0-based index `x`, as
`get_block_col_index` and `get_block_row_index` compute it, for a grid of `count` blocks
of side `size`. -/
theorem block_origin_bounds (size count x : Int) (hs : 0 < size) (hx0 : 0 ≤ x)
    (hx : x < count * size) :
    0 ≤ size * (1 + Int.tdiv x size - 1) ∧
    size * (1 + Int.tdiv x size - 1) ≤ x ∧
    x < size + size * (1 + Int.tdiv x size - 1) ∧
    size + size * (1 + Int.tdiv x size - 1) ≤ count * size ∧
    (∀ y, (size * (1 + Int.tdiv x size - 1) ≤ y ∧ y < size + size * (1 + Int.tdiv x size - 1))
      ↔ y / size = x / size) := by
  rw [Int.tdiv_eq_ediv hx0 (le_of_lt hs)]
  have e : 1 + x / size - 1 = x / size := by ring
  rw [e]
  have hq0 : 0 ≤ x / size := Int.ediv_nonneg hx0 (le_of_lt hs)
  have hq1 : x / size < count := Int.ediv_lt_of_lt_mul hs hx
  have hmod := Int.emod_add_ediv x size
  have hm0 := Int.emod_nonneg x (ne_of_gt hs)
  have hm1 := Int.emod_lt_of_pos x hs
  have hle : size * (x / size + 1) ≤ size * count :=
    Int.mul_le_mul_of_nonneg_left (by omega) (le_of_lt hs)
  have hnn : 0 ≤ size * (x / size) := Int.mul_nonneg (le_of_lt hs) hq0
  refine ⟨hnn, by omega, by omega, ?_, ?_⟩
  · have : size * (x / size + 1) = size + size * (x / size) := by ring
    have h2 : size * count = count * size := by ring
    omega
  · intro y
    constructor
    · rintro ⟨h1, h2⟩
      have := (Int.ediv_emod_unique (a := y) (r := y - size * (x / size)) (q := x / size) hs).mpr
        ⟨by ring, by omega, by omega⟩
      exact this.1
    · intro hy
      have hmody := Int.emod_add_ediv y size
      have hy0 := Int.emod_nonneg y (ne_of_gt hs)
      have hy1 := Int.emod_lt_of_pos y hs
      rw [hy] at hmody
      constructor <;> omega

theorem block_col_bounds (g : Globals) (hg : g.WF) (column : Int)
    (hc : 1 ≤ column ∧ column ≤ g.N) :
    0 ≤ get_block_col_index g column ∧
    g.blockCols + get_block_col_index g column ≤ g.N ∧
    (∀ y, (get_block_col_index g column ≤ y ∧ y < g.blockCols + get_block_col_index g column)
      ↔ y / g.blockCols = (column - 1) / g.blockCols) := by
  obtain ⟨h1, h2, h3, h4⟩ := hg
  have h := block_origin_bounds g.blockCols g.blockRows (column - 1) h2 (by omega)
    (by have := hc.2; unfold Globals.N at this; omega)
  have e : get_block_col_index g column
      = g.blockCols * (1 + Int.tdiv (column - 1) g.blockCols - 1) := by
    unfold get_block_col_index; rw [h4]
  rw [e]
  exact ⟨h.1, h.2.2.2.1, h.2.2.2.2⟩

theorem block_row_bounds (g : Globals) (hg : g.WF) (row : Int)
    (hr : 1 ≤ row ∧ row ≤ g.N) :
    0 ≤ get_block_row_index g row ∧
    g.blockRows + get_block_row_index g row ≤ g.N ∧
    (∀ y, (get_block_row_index g row ≤ y ∧ y < g.blockRows + get_block_row_index g row)
      ↔ y / g.blockRows = (row - 1) / g.blockRows) := by
  obtain ⟨h1, h2, h3, h4⟩ := hg
  have hN : g.N = g.blockCols * g.blockRows := by unfold Globals.N; ring
  have h := block_origin_bounds g.blockRows g.blockCols (row - 1) h1 (by omega)
    (by have := hr.2; rw [hN] at this; omega)
  have e : get_block_row_index g row
      = g.blockRows * (1 + Int.tdiv (row - 1) g.blockRows - 1) := by
    unfold get_block_row_index; rw [h3]
  rw [e, hN]
  exact ⟨h.1, h.2.2.2.1, h.2.2.2.2⟩

/-- For an in-range target, `valid_check` returns `false` exactly when some other cell of
the target's row, column or block holds the value. -/
theorem valid_check_false_iff (g : Globals) (hg : g.WF) (b : Board) (column row v : Int)
    (hc : 1 ≤ column ∧ column ≤ g.N) (hr : 1 ≤ row ∧ row ≤ g.N) :
    (valid_check g b column row v).1 = false ↔ conflictAt g b (row - 1) (column - 1) v := by
  rw [valid_check_result_raw]
  obtain ⟨c0, c1, cm⟩ := block_col_bounds g hg column hc
  obtain ⟨r0, r1, rm⟩ := block_row_bounds g hg row hr
  unfold conflictAt sameUnit
  constructor
  · rintro (⟨r, c, hr2, hc2, hne, hv⟩ | ⟨c, h1, h2, hne, hv⟩ | ⟨r, h1, h2, hne, hv⟩)
    · refine ⟨r, by omega, by omega, c, by omega, by omega, ?_, ?_, hv⟩
      · by_contra hcon
        push_neg at hcon
        exact hne ⟨hcon.2, hcon.1⟩
      · exact Or.inr (Or.inr ⟨(rm r).mp hr2, (cm c).mp hc2⟩)
    · exact ⟨row - 1, by omega, by omega, c, h1, h2, Or.inr hne, Or.inl rfl, hv⟩
    · exact ⟨r, h1, h2, column - 1, by omega, by omega, Or.inl hne, Or.inr (Or.inl rfl), hv⟩
  · rintro ⟨r, h1, h2, c, h3, h4, hne, hu, hv⟩
    rcases hu with hu | hu | hu
    · subst hu
      refine Or.inr (Or.inl ⟨c, h3, h4, ?_, hv⟩)
      rcases hne with h | h
      · exact absurd rfl h
      · exact h
    · subst hu
      refine Or.inr (Or.inr ⟨r, h1, h2, ?_, hv⟩)
      rcases hne with h | h
      · exact h
      · exact absurd rfl h
    · refine Or.inl ⟨r, c, (rm r).mpr hu.1, (cm c).mpr hu.2, ?_, hv⟩
      rintro ⟨rfl, rfl⟩
      rcases hne with h | h <;> exact h rfl

/-! ## `validate_risks` -/

theorem validate_risks_cell_clean (g : Globals) (st : Bool × Board) (r c : Int)
    (h : (st.2.cells r c).asterisk = false) : validate_risks_cell g st r c = st := by
  simp [validate_risks_cell, h]

theorem valid_check_noFixedFlagged (g : Globals) (b : Board) (column row val : Int)
    (h : NoFixedFlagged g b) (hnf : (b.cells (row - 1) (column - 1)).isFixed = false) :
    NoFixedFlagged g (valid_check g b column row val).2 := by
  obtain ⟨hfo, -, hother, -⟩ := valid_check_frame g b column row val
  intro i hi0 hi1 j hj0 hj1 hfix
  rw [(hfo i j).2] at hfix
  by_cases hij : i = row - 1 ∧ j = column - 1
  · rw [hij.1, hij.2] at hfix
    rw [hnf] at hfix
    cases hfix
  · by_contra hast
    rw [Bool.not_eq_false] at hast
    rcases (hother i j hij).2 hast with h1 | h1
    · rw [h i hi0 hi1 j hj0 hj1 hfix] at h1
      cases h1
    · rw [hfix] at h1
      cases h1

theorem NoFixedFlagged.ofClear (g : Globals) (b : Board) (r c : Int)
    (h : NoFixedFlagged g b) : NoFixedFlagged g (setAsterisk b r c false) := by
  intro i hi0 hi1 j hj0 hj1 hfix
  rw [setAsterisk_isFixed] at hfix
  rw [setAsterisk_asterisk]
  split
  · rfl
  · exact h i hi0 hi1 j hj0 hj1 hfix

theorem validate_risks_cell_inv (g : Globals) (b : Board) (st : Bool × Board) (r c : Int)
    (hr : 0 ≤ r ∧ r < g.N) (hc : 0 ≤ c ∧ c < g.N)
    (h : FlagOnly b st.2 ∧ NoFixedFlagged g st.2) :
    FlagOnly b (validate_risks_cell g st r c).2 ∧
      NoFixedFlagged g (validate_risks_cell g st r c).2 := by
  unfold validate_risks_cell
  split
  · rename_i hast
    have hnf : (st.2.cells (r + 1 - 1) (c + 1 - 1)).isFixed = false := by
      have e1 : r + 1 - 1 = r := by omega
      have e2 : c + 1 - 1 = c := by omega
      rw [e1, e2]
      by_contra hfix
      rw [Bool.not_eq_false] at hfix
      rw [h.2 r hr.1 hr.2 c hc.1 hc.2 hfix] at hast
      cases hast
    have hvc := valid_check_noFixedFlagged g st.2 (c + 1) (r + 1) (st.2.cells r c).number h.2 hnf
    have hfo := (valid_check_frame g st.2 (c + 1) (r + 1) (st.2.cells r c).number).1
    dsimp only
    split
    · exact ⟨(h.1.followedBy hfo).followedBy (FlagOnly.ofSetAsterisk _ _ _ _),
        NoFixedFlagged.ofClear g _ _ _ hvc⟩
    · exact ⟨h.1.followedBy hfo, hvc⟩
  · exact h

theorem validate_risks_inv (g : Globals) (hg : g.WF) (b : Board) (column row : Int)
    (hc : 1 ≤ column ∧ column ≤ g.N) (hr : 1 ≤ row ∧ row ≤ g.N)
    (h : NoFixedFlagged g b) :
    FlagOnly b (validate_risks g b column row).2 ∧
      NoFixedFlagged g (validate_risks g b column row).2 := by
  obtain ⟨c0, c1, -⟩ := block_col_bounds g hg column hc
  obtain ⟨r0, r1, -⟩ := block_row_bounds g hg row hr
  unfold validate_risks
  dsimp only
  apply foldl_inv (fun st : Bool × Board => FlagOnly b st.2 ∧ NoFixedFlagged g st.2)
  · apply foldl_inv (fun st : Bool × Board => FlagOnly b st.2 ∧ NoFixedFlagged g st.2)
    · apply foldl_inv (fun st : Bool × Board => FlagOnly b st.2 ∧ NoFixedFlagged g st.2)
      · exact ⟨FlagOnly.unchanged b, h⟩
      · intro st colIndex hcol hst
        rw [mem_intRange] at hcol
        apply foldl_inv (fun st : Bool × Board => FlagOnly b st.2 ∧ NoFixedFlagged g st.2)
        · exact hst
        · intro st2 rowIndex hrow hst2
          rw [mem_intRange] at hrow
          split
          · exact hst2
          · exact validate_risks_cell_inv g b st2 rowIndex colIndex
              ⟨by omega, by omega⟩ ⟨by omega, by omega⟩ hst2
    · intro st colIndex hcol hst
      rw [mem_intRange] at hcol
      split
      · exact hst
      · exact validate_risks_cell_inv g b st (row - 1) colIndex
          ⟨by omega, by omega⟩ hcol hst
  · intro st rowIndex hrow hst
    rw [mem_intRange] at hrow
    split
    · exact hst
    · exact validate_risks_cell_inv g b st rowIndex (column - 1)
        hrow ⟨by omega, by omega⟩ hst

/-- On a board without asterisks `validate_risks` changes nothing and returns `true`. -/
theorem validate_risks_clean (g : Globals) (hg : g.WF) (b : Board) (column row : Int)
    (hc : 1 ≤ column ∧ column ≤ g.N) (hr : 1 ≤ row ∧ row ≤ g.N)
    (h : Unflagged g b) : validate_risks g b column row = (true, b) := by
  obtain ⟨c0, c1, -⟩ := block_col_bounds g hg column hc
  obtain ⟨r0, r1, -⟩ := block_row_bounds g hg row hr
  unfold validate_risks
  dsimp only
  apply foldl_inv (fun st : Bool × Board => st = (true, b))
  · apply foldl_inv (fun st : Bool × Board => st = (true, b))
    · apply foldl_inv (fun st : Bool × Board => st = (true, b))
      · rfl
      · intro st colIndex hcol hst
        rw [mem_intRange] at hcol
        apply foldl_inv (fun st : Bool × Board => st = (true, b))
        · exact hst
        · intro st2 rowIndex hrow hst2
          rw [mem_intRange] at hrow
          split
          · exact hst2
          · rw [validate_risks_cell_clean g st2 rowIndex colIndex]
            · exact hst2
            · rw [hst2]
              exact h rowIndex (by omega) (by omega) colIndex (by omega) (by omega)
    · intro st colIndex hcol hst
      rw [mem_intRange] at hcol
      split
      · exact hst
      · rw [validate_risks_cell_clean g st (row - 1) colIndex]
        · exact hst
        · rw [hst]
          exact h (row - 1) (by omega) (by omega) colIndex hcol.1 hcol.2
  · intro st rowIndex hrow hst
    rw [mem_intRange] at hrow
    split
    · exact hst
    · rw [validate_risks_cell_clean g st rowIndex (column - 1)]
      · exact hst
      · rw [hst]
        exact h rowIndex hrow.1 hrow.2 (column - 1) (by omega) (by omega)

/-! ## `set` -/

theorem set_cases (g : Globals) (b : Board) (column row val : Int) (mode : Char) :
    ((set g b column row val mode) = (false, b) ∧
      ¬ ((1 ≤ column ∧ column ≤ g.N) ∧ (1 ≤ row ∧ row ≤ g.N) ∧ (0 ≤ val ∧ val ≤ g.N) ∧
        (b.cells (row - 1) (column - 1)).isFixed = false ∧
        (b.cells (row - 1) (column - 1)).number ≠ val)) ∨
    (((1 ≤ column ∧ column ≤ g.N) ∧ (1 ≤ row ∧ row ≤ g.N) ∧ (0 ≤ val ∧ val ≤ g.N) ∧
        (b.cells (row - 1) (column - 1)).isFixed = false ∧
        (b.cells (row - 1) (column - 1)).number ≠ val) ∧
      ((val = 0 ∧ set g b column row val mode = (true, (validate_risks g
          (setAsterisk (setNumber b (row - 1) (column - 1) UNASSIGNED) (row - 1) (column - 1)
            false) column row).2)) ∨
       (val ≠ 0 ∧ set g b column row val mode = (true, (validate_risks g
          (setNumber (valid_check g b column row val).2 (row - 1) (column - 1) val)
          column row).2)))) := by
  have hc1 : ((!valid_board_index column (g.blockRows * g.blockCols)
        || !valid_board_index row (g.blockRows * g.blockCols)
        || !valid_set_value val (g.blockRows * g.blockCols)) = true) ↔
      ¬ ((1 ≤ column ∧ column ≤ g.N) ∧ (1 ≤ row ∧ row ≤ g.N) ∧ (0 ≤ val ∧ val ≤ g.N)) := by
    simp only [valid_board_index, valid_set_value, Bool.or_eq_true, Bool.not_eq_true',
      decide_eq_false_iff_not, Globals.N]
    tauto
  by_cases hrange : (1 ≤ column ∧ column ≤ g.N) ∧ (1 ≤ row ∧ row ≤ g.N) ∧ (0 ≤ val ∧ val ≤ g.N)
  · have hn1 := (not_congr hc1).mpr (not_not.mpr hrange)
    by_cases hfix : (b.cells (row - 1) (column - 1)).isFixed = true
    · have e : set g b column row val mode = (false, b) := by
        unfold set; dsimp only; rw [if_neg hn1, if_pos hfix]
      refine Or.inl ⟨e, ?_⟩
      rintro ⟨-, -, -, h, -⟩
      rw [hfix] at h
      cases h
    · by_cases hnum : (b.cells (row - 1) (column - 1)).number = val
      · have e : set g b column row val mode = (false, b) := by
          unfold set; dsimp only; rw [if_neg hn1, if_neg hfix, if_pos hnum]
        refine Or.inl ⟨e, ?_⟩
        rintro ⟨-, -, -, -, h⟩
        exact h hnum
      · refine Or.inr ⟨⟨hrange.1, hrange.2.1, hrange.2.2, by simpa using hfix, hnum⟩, ?_⟩
        by_cases hv : val = 0
        · refine Or.inl ⟨hv, ?_⟩
          unfold set; dsimp only; rw [if_neg hn1, if_neg hfix, if_neg hnum, if_pos hv]
        · refine Or.inr ⟨hv, ?_⟩
          unfold set; dsimp only; rw [if_neg hn1, if_neg hfix, if_neg hnum, if_neg hv]
  · have e : set g b column row val mode = (false, b) := by
      unfold set; dsimp only; rw [if_pos (hc1.mpr hrange)]
    refine Or.inl ⟨e, ?_⟩
    rintro ⟨h1, h2, h3, -, -⟩
    exact hrange ⟨h1, h2, h3⟩

theorem NoFixedFlagged.ofSetNumber (g : Globals) (b : Board) (r c v : Int)
    (h : NoFixedFlagged g b) : NoFixedFlagged g (setNumber b r c v) := by
  intro i hi0 hi1 j hj0 hj1 hfix
  rw [setNumber_isFixed] at hfix
  rw [setNumber_asterisk]
  exact h i hi0 hi1 j hj0 hj1 hfix

theorem set_noFixedFlagged (g : Globals) (hg : g.WF) (b : Board) (column row val : Int)
    (mode : Char) (h : NoFixedFlagged g b) :
    NoFixedFlagged g (set g b column row val mode).2 := by
  rcases set_cases g b column row val mode with ⟨e, -⟩ | ⟨⟨hc, hr, -, hnf, -⟩, ⟨-, e⟩ | ⟨-, e⟩⟩
  · rw [e]; exact h
  · rw [e]
    exact (validate_risks_inv g hg _ column row hc hr
      (NoFixedFlagged.ofClear g _ _ _ (NoFixedFlagged.ofSetNumber g b _ _ _ h))).2
  · rw [e]
    exact (validate_risks_inv g hg _ column row hc hr
      (NoFixedFlagged.ofSetNumber g _ _ _ _
        (valid_check_noFixedFlagged g b column row val h hnf))).2

/-! ## `check_board_erroneous` and `auto_fill` -/

theorem check_board_erroneous_true_iff (g : Globals) (b : Board) :
    check_board_erroneous g b = true ↔
      ∃ r, 0 ≤ r ∧ r < g.N ∧ ∃ c, 0 ≤ c ∧ c < g.N ∧ (b.cells r c).asterisk = true := by
  unfold check_board_erroneous Globals.N
  simp only [List.any_eq_true, mem_intRange]
  constructor
  · rintro ⟨r, ⟨h1, h2⟩, c, ⟨h3, h4⟩, h⟩
    exact ⟨r, h1, h2, c, h3, h4, h⟩
  · rintro ⟨r, h1, h2, c, h3, h4, h⟩
    exact ⟨r, ⟨h1, h2⟩, c, ⟨h3, h4⟩, h⟩

theorem check_board_erroneous_false_iff (g : Globals) (b : Board) :
    check_board_erroneous g b = false ↔ Unflagged g b := by
  rw [← Bool.not_eq_true, check_board_erroneous_true_iff]
  unfold Unflagged
  constructor
  · intro h r h1 h2 c h3 h4
    by_contra hcon
    rw [Bool.not_eq_false] at hcon
    exact h ⟨r, h1, h2, c, h3, h4, hcon⟩
  · rintro h ⟨r, h1, h2, c, h3, h4, hcon⟩
    rw [h r h1 h2 c h3 h4] at hcon
    cases hcon

theorem auto_fill_try_board (g : Globals) (i j : Int) (st : AutoFillState) (k : Int) :
    (auto_fill_try g i j st k).board = st.board := by
  unfold auto_fill_try
  dsimp only
  split <;> rfl

theorem auto_fill_body_unflagged (g : Globals) (hg : g.WF) (i j : Int)
    (hi : 0 ≤ i ∧ i < g.N) (hj : 0 ≤ j ∧ j < g.N) (st : AutoFillState)
    (h : Unflagged g st.board) : Unflagged g (auto_fill_body g i st j).board := by
  unfold auto_fill_body
  dsimp only
  split
  · have hb : ((intRange 1 (g.blockRows * g.blockCols + 1)).foldl (auto_fill_try g i j)
        st).board = st.board := by
      apply foldl_inv (fun s : AutoFillState => s.board = st.board)
      · rfl
      · intro s k _ hs
        rw [auto_fill_try_board]; exact hs
    split
    · dsimp only
      rw [hb]
      have hclean : Unflagged g (setNumber st.board i j
          ((intRange 1 (g.blockRows * g.blockCols + 1)).foldl (auto_fill_try g i j)
            st).candidate) := by
        intro r h1 h2 c h3 h4
        rw [setNumber_asterisk]
        exact h r h1 h2 c h3 h4
      rw [validate_risks_clean g hg _ (j + 1) (i + 1) ⟨by omega, by omega⟩
        ⟨by omega, by omega⟩ hclean]
      exact hclean
    · dsimp only
      rw [hb]
      exact h
  · exact h

theorem auto_fill_unflagged (g : Globals) (hg : g.WF) (b : Board) (h : Unflagged g b) :
    Unflagged g (auto_fill g b).2 := by
  unfold auto_fill
  dsimp only
  split
  · exact h
  · dsimp only
    apply foldl_inv (fun s : AutoFillState => Unflagged g s.board)
    · exact h
    · intro s i hi hs
      rw [mem_intRange] at hi
      apply foldl_inv (fun s : AutoFillState => Unflagged g s.board)
      · exact hs
      · intro s2 j hj hs2
        rw [mem_intRange] at hj
        exact auto_fill_body_unflagged g hg i j hi hj s2 hs2

theorem auto_fill_noFixedFlagged (g : Globals) (hg : g.WF) (b : Board)
    (h : NoFixedFlagged g b) : NoFixedFlagged g (auto_fill g b).2 := by
  by_cases he : check_board_erroneous g b = true
  · have e : auto_fill g b = (false, b) := by
      unfold auto_fill; dsimp only; rw [if_pos he]
    rw [e]; exact h
  · rw [Bool.not_eq_true, check_board_erroneous_false_iff] at he
    have hu := auto_fill_unflagged g hg b he
    intro r h1 h2 c h3 h4 _
    exact hu r h1 h2 c h3 h4

/-! ## `mark_asterisks` -/

theorem conflictAt_congr (g : Globals) {b b2 : Board} (h : FlagOnly b b2) (r c v : Int) :
    conflictAt g b2 r c v ↔ conflictAt g b r c v := by
  unfold conflictAt
  simp only [(h _ _).1]

theorem mark_asterisks_pairs (g : Globals) (b : Board) :
    mark_asterisks g b
      = (pairs (intRange 0 g.N) (intRange 0 g.N)).foldl
          (fun s p => mark_asterisks_body g p.1 s p.2) b := by
  have e : g.blockCols * g.blockRows = g.N := by unfold Globals.N; ring
  unfold mark_asterisks
  dsimp only
  rw [e]
  exact foldl_pairs (mark_asterisks_body g) _ _ _

theorem mark_asterisks_body_spec (g : Globals) (hg : g.WF) (s : Board) (i j : Int)
    (hi : 0 ≤ i ∧ i < g.N) (hj : 0 ≤ j ∧ j < g.N) :
    FlagOnly s (mark_asterisks_body g i s j) ∧
    (((s.cells i j).number ≠ 0 ∧ conflictAt g s i j (s.cells i j).number) →
      ((mark_asterisks_body g i s j).cells i j).asterisk = true) ∧
    (∀ r c, ((mark_asterisks_body g i s j).cells r c).asterisk = true →
      (s.cells r c).asterisk = true ∨
        ((s.cells i j).number ≠ 0 ∧ conflictAt g s i j (s.cells i j).number)) ∧
    (∀ r c, ¬ (r = i ∧ c = j) → (s.cells r c).asterisk = true →
      ((mark_asterisks_body g i s j).cells r c).asterisk = true) := by
  have e1 : i + 1 - 1 = i := by omega
  have e2 : j + 1 - 1 = j := by omega
  obtain ⟨hfo, htgt, hother, htrue⟩ := valid_check_frame g s (j + 1) (i + 1) (s.cells i j).number
  have hres := valid_check_false_iff g hg s (j + 1) (i + 1) (s.cells i j).number
    ⟨by omega, by omega⟩ ⟨by omega, by omega⟩
  rw [e1, e2] at htgt hres htrue
  simp only [e1, e2] at hother
  unfold mark_asterisks_body
  split
  · rename_i hne
    have hne0 : (s.cells i j).number ≠ 0 := hne
    refine ⟨hfo, ?_, ?_, ?_⟩
    · rintro ⟨-, hcon⟩
      rw [htgt, hres.mpr hcon]
      rfl
    · intro r c hast
      by_cases hv : (valid_check g s (j + 1) (i + 1) (s.cells i j).number).1 = true
      · rw [htrue hv, setAsterisk_asterisk] at hast
        split at hast
        · cases hast
        · exact Or.inl hast
      · rw [Bool.not_eq_true] at hv
        exact Or.inr ⟨hne0, hres.mp hv⟩
    · intro r c hrc hast
      exact (hother r c hrc).1 hast
  · rename_i hne
    have h0 : (s.cells i j).number = 0 := by
      by_contra hcon
      exact hne hcon
    refine ⟨FlagOnly.unchanged s, ?_, ?_, ?_⟩
    · rintro ⟨hn, -⟩
      exact absurd h0 hn
    · intro r c hast
      exact Or.inl hast
    · intro r c _ hast
      exact hast

/-- After the full scan of a board without asterisks, some asterisk is set exactly when
some cell holds a non-zero value that a cell of its row, column or block shares. -/
theorem mark_asterisks_erroneous (g : Globals) (hg : g.WF) (b : Board)
    (h : Unflagged g b) :
    check_board_erroneous g (mark_asterisks g b) = true ↔ AnyConflict g b := by
  rw [check_board_erroneous_true_iff, mark_asterisks_pairs]
  constructor
  · rintro ⟨r, h1, h2, c, h3, h4, hast⟩
    have hP := foldl_inv
      (fun s : Board => FlagOnly b s ∧
        ∀ r, 0 ≤ r → r < g.N → ∀ c, 0 ≤ c → c < g.N →
          (s.cells r c).asterisk = true → AnyConflict g b)
      (fun s (p : Int × Int) => mark_asterisks_body g p.1 s p.2)
      (pairs (intRange 0 g.N) (intRange 0 g.N)) b
      ⟨FlagOnly.unchanged b, fun r h1 h2 c h3 h4 hast => by
        rw [h r h1 h2 c h3 h4] at hast; cases hast⟩
      (by
        intro s p hp hs
        rw [mem_pairs, mem_intRange, mem_intRange] at hp
        obtain ⟨hfo, -, hsound, -⟩ := mark_asterisks_body_spec g hg s p.1 p.2 hp.1 hp.2
        refine ⟨hs.1.followedBy hfo, ?_⟩
        intro r h1 h2 c h3 h4 hast
        rcases hsound r c hast with h5 | ⟨h5, h6⟩
        · exact hs.2 r h1 h2 c h3 h4 h5
        · rw [conflictAt_congr g hs.1, (hs.1 _ _).1] at h6
          rw [(hs.1 _ _).1] at h5
          exact ⟨p.1, hp.1.1, hp.1.2, p.2, hp.2.1, hp.2.2, h5, h6⟩)
    exact hP.2 r h1 h2 c h3 h4 hast
  · rintro ⟨r, h1, h2, c, h3, h4, hne, hcon⟩
    have hQ := foldl_track
      (fun s : Board => FlagOnly b s)
      (fun (p : Int × Int) (s : Board) =>
        ((b.cells p.1 p.2).number ≠ 0 ∧ conflictAt g b p.1 p.2 (b.cells p.1 p.2).number) →
          (s.cells p.1 p.2).asterisk = true)
      (fun s (p : Int × Int) => mark_asterisks_body g p.1 s p.2)
      (pairs (intRange 0 g.N) (intRange 0 g.N)) b (FlagOnly.unchanged b)
      (by
        intro s p hp hs
        rw [mem_pairs, mem_intRange, mem_intRange] at hp
        exact hs.followedBy (mark_asterisks_body_spec g hg s p.1 p.2 hp.1 hp.2).1)
      (by
        intro s p hp hs hb
        rw [mem_pairs, mem_intRange, mem_intRange] at hp
        apply (mark_asterisks_body_spec g hg s p.1 p.2 hp.1 hp.2).2.1
        rw [conflictAt_congr g hs, (hs _ _).1]
        exact hb)
      (by
        intro s p q hq hs hps hb
        rw [mem_pairs, mem_intRange, mem_intRange] at hq
        obtain ⟨-, hset, -, hmono⟩ := mark_asterisks_body_spec g hg s q.1 q.2 hq.1 hq.2
        by_cases hpq : p.1 = q.1 ∧ p.2 = q.2
        · rw [hpq.1, hpq.2] at hb ⊢
          apply hset
          rw [conflictAt_congr g hs, (hs _ _).1]
          exact hb
        · exact hmono p.1 p.2 hpq (hps hb))
      (r, c) (by rw [mem_pairs, mem_intRange, mem_intRange]; exact ⟨⟨h1, h2⟩, h3, h4⟩)
    exact ⟨r, h1, h2, c, h3, h4, hQ ⟨hne, hcon⟩⟩

/-! ## Frame of `set` -/

theorem validate_risks_cell_flagOnly (g : Globals) (b : Board) (st : Bool × Board)
    (r c : Int) (h : FlagOnly b st.2) : FlagOnly b (validate_risks_cell g st r c).2 := by
  unfold validate_risks_cell
  have hfo := (valid_check_frame g st.2 (c + 1) (r + 1) (st.2.cells r c).number).1
  split
  · dsimp only
    split
    · exact (h.followedBy hfo).followedBy (FlagOnly.ofSetAsterisk _ _ _ _)
    · exact h.followedBy hfo
  · exact h

theorem validate_risks_flagOnly (g : Globals) (b : Board) (column row : Int) :
    FlagOnly b (validate_risks g b column row).2 := by
  unfold validate_risks
  dsimp only
  apply foldl_inv (fun st : Bool × Board => FlagOnly b st.2)
  · apply foldl_inv (fun st : Bool × Board => FlagOnly b st.2)
    · apply foldl_inv (fun st : Bool × Board => FlagOnly b st.2)
      · exact FlagOnly.unchanged b
      · intro st colIndex _ hst
        apply foldl_inv (fun st : Bool × Board => FlagOnly b st.2)
        · exact hst
        · intro st2 rowIndex _ hst2
          split
          · exact hst2
          · exact validate_risks_cell_flagOnly g b st2 rowIndex colIndex hst2
    · intro st colIndex _ hst
      split
      · exact hst
      · exact validate_risks_cell_flagOnly g b st (row - 1) colIndex hst
  · intro st rowIndex _ hst
    split
    · exact hst
    · exact validate_risks_cell_flagOnly g b st rowIndex (column - 1) hst

/-- A successful `set` writes `val` into the target, keeps every other value and keeps
every fixed marker. -/
theorem set_frame (g : Globals) (b : Board) (column row val : Int) (mode : Char)
    (h : (set g b column row val mode).1 = true) :
    ((set g b column row val mode).2.cells (row - 1) (column - 1)).number = val ∧
    (∀ i j, ¬ (i = row - 1 ∧ j = column - 1) →
      ((set g b column row val mode).2.cells i j).number = (b.cells i j).number) ∧
    (∀ i j, ((set g b column row val mode).2.cells i j).isFixed = (b.cells i j).isFixed) := by
  rcases set_cases g b column row val mode with ⟨e, -⟩ | ⟨-, ⟨hv, e⟩ | ⟨-, e⟩⟩
  · rw [e] at h; cases h
  · rw [e]
    have hfo := validate_risks_flagOnly g
      (setAsterisk (setNumber b (row - 1) (column - 1) UNASSIGNED) (row - 1) (column - 1) false)
      column row
    refine ⟨?_, ?_, ?_⟩
    · rw [(hfo _ _).1, setAsterisk_number, setNumber_number, hv]
      simp [UNASSIGNED]
    · intro i j hij
      rw [(hfo _ _).1, setAsterisk_number, setNumber_number, if_neg hij]
    · intro i j
      rw [(hfo _ _).2, setAsterisk_isFixed, setNumber_isFixed]
  · rw [e]
    have hfo := validate_risks_flagOnly g
      (setNumber (valid_check g b column row val).2 (row - 1) (column - 1) val) column row
    have hvc := (valid_check_frame g b column row val).1
    refine ⟨?_, ?_, ?_⟩
    · rw [(hfo _ _).1, setNumber_number]
      simp
    · intro i j hij
      rw [(hfo _ _).1, setNumber_number, if_neg hij, (hvc _ _).1]
    · intro i j
      rw [(hfo _ _).2, setNumber_isFixed, (hvc _ _).2]

/-! ## The claims -/

/-- C1: for an in-range 1-based `(column, row)` and any value `v` (in particular
`1 ≤ v ≤ N`), `valid_check` returns `true` iff no cell other than the target in the
target's row, column or block holds `v`, and afterwards the target's asterisk is the
negation of the returned result. -/
theorem valid_check_spec (g : Globals) (hg : g.WF) (b : Board) (column row v : Int)
    (hc : 1 ≤ column ∧ column ≤ g.N) (hr : 1 ≤ row ∧ row ≤ g.N) :
    ((valid_check g b column row v).1 = true ↔ ¬ conflictAt g b (row - 1) (column - 1) v) ∧
    ((valid_check g b column row v).2.cells (row - 1) (column - 1)).asterisk
      = !(valid_check g b column row v).1 := by
  refine ⟨?_, (valid_check_frame g b column row v).2.1⟩
  rw [← valid_check_false_iff g hg b column row v hc hr]
  simp

theorem valid_check_spec_witness :
    dims2x2.WF ∧ (1 ≤ (2 : Int) ∧ (2 : Int) ≤ dims2x2.N) ∧
    (((valid_check dims2x2 boardSingleOne 2 2 1).1 = true ↔
        ¬ conflictAt dims2x2 boardSingleOne (2 - 1) (2 - 1) 1) ∧
      ((valid_check dims2x2 boardSingleOne 2 2 1).2.cells (2 - 1) (2 - 1)).asterisk
        = !(valid_check dims2x2 boardSingleOne 2 2 1).1) :=
  ⟨by decide, by decide,
    valid_check_spec dims2x2 (by decide) boardSingleOne 2 2 1 (by decide) (by decide)⟩

set_option maxRecDepth 100000 in
/-- C2: on the 4x4 board whose only value is a `1` at row 1 / column 1 (which satisfies
the flag invariant and has no flagged empty cell), `set(column=2, row=2, val=1)` returns
`true` and the resulting board violates the flag invariant: the `1` at row 1 / column 1
now shares a block with the new `1` but carries no asterisk. -/
theorem set_breaks_flag_invariant :
    FlagInvariant dims2x2 boardSingleOne ∧ NoEmptyFlagged dims2x2 boardSingleOne ∧
    (set dims2x2 boardSingleOne 2 2 1 'E').1 = true ∧
    ((set dims2x2 boardSingleOne 2 2 1 'E').2.cells 0 0).number = 1 ∧
    ((set dims2x2 boardSingleOne 2 2 1 'E').2.cells 0 0).isFixed = false ∧
    conflictAt dims2x2 (set dims2x2 boardSingleOne 2 2 1 'E').2 0 0 1 ∧
    ((set dims2x2 boardSingleOne 2 2 1 'E').2.cells 0 0).asterisk = false ∧
    ¬ FlagInvariant dims2x2 (set dims2x2 boardSingleOne 2 2 1 'E').2 := by
  decide

set_option maxRecDepth 100000 in
/-- C3: on the same board, which has no flagged empty cell and satisfies the flag
invariant, `set(column=2, row=2, val=1)` leaves empty cells flagged, for instance the
empty cell at row 2 / column 1. -/
theorem set_flags_empty_cells :
    NoEmptyFlagged dims2x2 boardSingleOne ∧ FlagInvariant dims2x2 boardSingleOne ∧
    ((set dims2x2 boardSingleOne 2 2 1 'E').2.cells 1 0).number = 0 ∧
    ((set dims2x2 boardSingleOne 2 2 1 'E').2.cells 1 0).asterisk = true ∧
    ¬ NoEmptyFlagged dims2x2 (set dims2x2 boardSingleOne 2 2 1 'E').2 := by
  decide

/-- C4: if no fixed cell of the board is flagged, then after any call to `set` and after
`auto_fill` no fixed cell is flagged. -/
theorem fixed_cells_stay_unflagged (g : Globals) (hg : g.WF) (b : Board)
    (h : NoFixedFlagged g b) :
    (∀ (column row val : Int) (mode : Char),
      NoFixedFlagged g (set g b column row val mode).2) ∧
    NoFixedFlagged g (auto_fill g b).2 :=
  ⟨fun column row val mode => set_noFixedFlagged g hg b column row val mode h,
    auto_fill_noFixedFlagged g hg b h⟩

theorem fixed_cells_stay_unflagged_witness :
    dims2x2.WF ∧ NoFixedFlagged dims2x2 boardFixedPair ∧
    ((∀ (column row val : Int) (mode : Char),
      NoFixedFlagged dims2x2 (set dims2x2 boardFixedPair column row val mode).2) ∧
    NoFixedFlagged dims2x2 (auto_fill dims2x2 boardFixedPair).2) :=
  ⟨by decide, by decide, fixed_cells_stay_unflagged dims2x2 (by decide) boardFixedPair
    (by decide)⟩

set_option maxRecDepth 100000 in
/-- C5: the 4x4 board with no flag whose row 1 is `[1,0,1,0]` with both `1`s fixed has
no non-fixed cell in conflict, yet after `mark_asterisks` the predicate
`check_board_erroneous` is `true`: the scan has flagged the two fixed cells, which `set`
on the same board (a `1` into row 1 / column 2) leaves unflagged. -/
theorem mark_asterisks_flags_fixed_duplicates :
    Unflagged dims2x2 boardFixedPair ∧
    ¬ (check_board_erroneous dims2x2 (mark_asterisks dims2x2 boardFixedPair) = true ↔
        AnyNonFixedConflict dims2x2 boardFixedPair) ∧
    (mark_asterisks dims2x2 boardFixedPair).cells 0 0 = ⟨1, true, true⟩ ∧
    (mark_asterisks dims2x2 boardFixedPair).cells 0 2 = ⟨1, true, true⟩ ∧
    (set dims2x2 boardFixedPair 2 1 1 'E').1 = true ∧
    (set dims2x2 boardFixedPair 2 1 1 'E').2.cells 0 0 = ⟨1, true, false⟩ ∧
    (set dims2x2 boardFixedPair 2 1 1 'E').2.cells 0 2 = ⟨1, true, false⟩ := by
  decide

set_option maxRecDepth 100000 in
/-- C6: `validate_risks` returns the negation of what its header comment announces.  On
the empty 4x4 board, where no cell is flagged, it returns `true`; on the board whose two
flagged `1`s (row 1 / column 2 and row 2 / column 1) are still in conflict after the
rescan, it returns `false`. -/
theorem validate_risks_result_inverted :
    Unflagged dims2x2 (boardOfRows []) ∧
    (validate_risks dims2x2 (boardOfRows []) 1 1).1 = true ∧
    conflictAt dims2x2 boardTwoOnes 0 1 1 ∧
    ((validate_risks dims2x2 boardTwoOnes 1 1).2.cells 0 1).asterisk = true ∧
    (validate_risks dims2x2 boardTwoOnes 1 1).1 = false := by
  decide

/-- C7: on a board in which no cell is flagged, for every in-range `(column, row)`,
`validate_risks` returns the board it was given: the value, fixed marker and flag of
every cell are unchanged. -/
theorem validate_risks_noop_when_unflagged (g : Globals) (hg : g.WF) (b : Board)
    (h : Unflagged g b) (column row : Int)
    (hc : 1 ≤ column ∧ column ≤ g.N) (hr : 1 ≤ row ∧ row ≤ g.N) :
    (validate_risks g b column row).2 = b := by
  rw [validate_risks_clean g hg b column row hc hr h]

theorem validate_risks_noop_when_unflagged_witness :
    dims2x2.WF ∧ Unflagged dims2x2 boardSingleOne ∧
    (1 ≤ (3 : Int) ∧ (3 : Int) ≤ dims2x2.N) ∧ (1 ≤ (2 : Int) ∧ (2 : Int) ≤ dims2x2.N) ∧
    (validate_risks dims2x2 boardSingleOne 3 2).2 = boardSingleOne :=
  ⟨by decide, by decide, by decide, by decide,
    validate_risks_noop_when_unflagged dims2x2 (by decide) boardSingleOne (by decide) 3 2
      (by decide) (by decide)⟩

/-- C8: `set` returns `true` iff `column` and `row` lie in `[1, N]`, `val` lies in
`[0, N]`, the addressed cell is not fixed and its current value differs from `val`;
otherwise it returns `false`. -/
theorem set_returns_true_iff (g : Globals) (b : Board) (column row val : Int) (mode : Char) :
    (set g b column row val mode).1 = true ↔
      ((1 ≤ column ∧ column ≤ g.N) ∧ (1 ≤ row ∧ row ≤ g.N) ∧ (0 ≤ val ∧ val ≤ g.N) ∧
        (b.cells (row - 1) (column - 1)).isFixed = false ∧
        (b.cells (row - 1) (column - 1)).number ≠ val) := by
  rcases set_cases g b column row val mode with ⟨e, hn⟩ | ⟨hy, ⟨-, e⟩ | ⟨-, e⟩⟩
  · rw [e]
    simp only [Bool.false_eq_true, false_iff]
    exact hn
  · rw [e]
    simp only [true_iff]
    exact hy
  · rw [e]
    simp only [true_iff]
    exact hy

/-- C9: whenever `set` returns `false` (range error, fixed cell, or the cell already
holding `val`), the board it leaves is the board it was given. -/
theorem set_false_board_unchanged (g : Globals) (b : Board) (column row val : Int)
    (mode : Char) (h : (set g b column row val mode).1 = false) :
    (set g b column row val mode).2 = b := by
  rcases set_cases g b column row val mode with ⟨e, -⟩ | ⟨-, ⟨-, e⟩ | ⟨-, e⟩⟩
  · rw [e]
  · rw [e] at h; cases h
  · rw [e] at h; cases h

theorem set_false_board_unchanged_witness :
    (set dims2x2 (boardOfRows []) 1 1 0 'S').1 = false ∧
    (set dims2x2 (boardOfRows []) 1 1 0 'S').2 = boardOfRows [] :=
  ⟨by decide, set_false_board_unchanged dims2x2 (boardOfRows []) 1 1 0 'S' (by decide)⟩

set_option maxRecDepth 100000 in
/-- C10: on the 4x4 board with row 1 = `[3,1,0,0]` and row 2 = `[1,0,0,0]`, whose two
`1`s are flagged (the flag invariant holds and no empty cell is flagged),
`set(column=1, row=1, val=0)` returns `true` and empties the target, but the target is
left flagged. -/
theorem set_clear_leaves_target_flagged :
    FlagInvariant dims2x2 boardTwoOnes ∧ NoEmptyFlagged dims2x2 boardTwoOnes ∧
    (set dims2x2 boardTwoOnes 1 1 0 'E').1 = true ∧
    ((set dims2x2 boardTwoOnes 1 1 0 'E').2.cells 0 0).number = 0 ∧
    ((set dims2x2 boardTwoOnes 1 1 0 'E').2.cells 0 0).asterisk = true := by
  decide

/-! ## Loops that write every cell: `copy_board`, `empty_board` -/

theorem foldl_write_cells (step : Int → Board → Int → Board) (val : Int → Int → cell)
    (hstep : ∀ i j s r c,
      (step i s j).cells r c = if r = i ∧ c = j then val i j else s.cells r c)
    (as bs : List Int) (init : Board) :
    ∀ r c, ((pairs as bs).foldl (fun s p => step p.1 s p.2) init).cells r c
      = if r ∈ as ∧ c ∈ bs then val r c else init.cells r c := by
  intro r c
  by_cases hrc : r ∈ as ∧ c ∈ bs
  · rw [if_pos hrc]
    have h := foldl_track (fun _ : Board => True)
      (fun (p : Int × Int) (s : Board) => s.cells p.1 p.2 = val p.1 p.2)
      (fun s (p : Int × Int) => step p.1 s p.2) (pairs as bs) init trivial
      (fun _ _ _ _ => trivial)
      (by
        intro s p _ _
        rw [hstep]; simp)
      (by
        intro s p q _ _ hp
        rw [hstep]
        split
        · rename_i hpq
          rw [hpq.1, hpq.2]
        · exact hp)
      (r, c) (mem_pairs.mpr hrc)
    exact h
  · rw [if_neg hrc]
    apply foldl_inv (fun s : Board => s.cells r c = init.cells r c)
    · rfl
    · intro s p hp hs
      rw [hstep]
      split
      · rename_i hpq
        exfalso
        apply hrc
        rw [hpq.1, hpq.2]
        exact mem_pairs.mp hp
      · exact hs

theorem copy_board_cells (g : Globals) (source new_board : Board) (r c : Int) :
    (copy_board g source new_board).cells r c
      = if (0 ≤ r ∧ r < g.N) ∧ (0 ≤ c ∧ c < g.N) then source.cells r c
        else new_board.cells r c := by
  have e : copy_board g source new_board
      = (pairs (intRange 0 g.N) (intRange 0 g.N)).foldl
          (fun s p => (fun i (s : Board) j =>
            setIsFixed (setAsterisk (setNumber s i j (source.cells i j).number)
              i j (source.cells i j).asterisk) i j (source.cells i j).isFixed) p.1 s p.2)
          new_board := by
    unfold copy_board Globals.N
    exact foldl_pairs _ _ _ _
  have h := foldl_write_cells
    (fun i (s : Board) j =>
      setIsFixed (setAsterisk (setNumber s i j (source.cells i j).number)
        i j (source.cells i j).asterisk) i j (source.cells i j).isFixed)
    (fun i j => source.cells i j)
    (by
      intro i j s r c
      simp only [setIsFixed, setAsterisk, setNumber]
      split <;> simp_all)
    (intRange 0 g.N) (intRange 0 g.N) new_board r c
  simp only [mem_intRange] at h
  rw [e]
  exact h

theorem empty_board_cells (g : Globals) (board : Board) (r c : Int) :
    (empty_board g board).cells r c
      = if (0 ≤ r ∧ r < g.N) ∧ (0 ≤ c ∧ c < g.N) then ⟨0, false, false⟩
        else board.cells r c := by
  have e : empty_board g board
      = (pairs (intRange 0 g.N) (intRange 0 g.N)).foldl
          (fun s p => (fun i (s : Board) j =>
            setIsFixed (setAsterisk (setNumber s i j UNASSIGNED) i j false) i j false)
            p.1 s p.2)
          board := by
    unfold empty_board Globals.N
    exact foldl_pairs _ _ _ _
  have h := foldl_write_cells
    (fun i (s : Board) j =>
      setIsFixed (setAsterisk (setNumber s i j UNASSIGNED) i j false) i j false)
    (fun _ _ => ⟨0, false, false⟩)
    (by
      intro i j s r c
      simp only [setIsFixed, setAsterisk, setNumber, UNASSIGNED]
      split <;> simp_all)
    (intRange 0 g.N) (intRange 0 g.N) board r c
  simp only [mem_intRange] at h
  rw [e]
  exact h

/-! ## Claims on `auto_fill`'s gate, snapshots and `val_in_block` -/

/-- C11: when `check_board_erroneous` is `true` on the board, `auto_fill` returns `false`
and hands back the board it was given, so the value, fixed marker and flag of every cell
are unchanged. -/
theorem auto_fill_gated (g : Globals) (b : Board) (h : check_board_erroneous g b = true) :
    (auto_fill g b).1 = false ∧ (auto_fill g b).2 = b := by
  have e : auto_fill g b = (false, b) := by
    unfold auto_fill; dsimp only; rw [if_pos h]
  rw [e]
  exact ⟨rfl, rfl⟩

theorem auto_fill_gated_witness :
    check_board_erroneous dims2x2 boardTwoOnes = true ∧
    ((auto_fill dims2x2 boardTwoOnes).1 = false ∧ (auto_fill dims2x2 boardTwoOnes).2
      = boardTwoOnes) :=
  ⟨by decide, auto_fill_gated dims2x2 boardTwoOnes (by decide)⟩

set_option maxRecDepth 100000 in
/-- C13: on the 4x4 board with row 1 = `[0,0,1,2]` and row 2 = `[3,0,0,0]`, which has no
flagged cell and no two equal values in a row, column or block, `auto_fill` returns `true`
and writes `4` into both row 1 / column 1 and row 1 / column 2; the two `4`s share a row
but neither is flagged, so the flag invariant fails on the resulting board. -/
theorem auto_fill_breaks_flag_invariant :
    Unflagged dims2x2 boardAutoFill ∧ ¬ AnyConflict dims2x2 boardAutoFill ∧
    (auto_fill dims2x2 boardAutoFill).1 = true ∧
    ((auto_fill dims2x2 boardAutoFill).2.cells 0 0).number = 4 ∧
    ((auto_fill dims2x2 boardAutoFill).2.cells 0 1).number = 4 ∧
    ((auto_fill dims2x2 boardAutoFill).2.cells 0 0).isFixed = false ∧
    ((auto_fill dims2x2 boardAutoFill).2.cells 0 0).asterisk = false ∧
    ¬ FlagInvariant dims2x2 (auto_fill dims2x2 boardAutoFill).2 := by
  decide

/-- C19: after `copy_board(source, new_board)` every cell of the grid of `new_board`
equals the corresponding cell of `source` in value, fixed marker and flag (`source` is only
read), and so does the board that `update_moves_list` hands to the history. -/
theorem copy_board_faithful (g : Globals) (source new_board : Board) :
    SameCells g source (copy_board g source new_board) ∧
    SameCells g source (update_moves_list g source) := by
  constructor
  · intro r h1 h2 c h3 h4
    rw [copy_board_cells, if_pos ⟨⟨h1, h2⟩, h3, h4⟩]
  · intro r h1 h2 c h3 h4
    unfold update_moves_list
    rw [copy_board_cells, if_pos ⟨⟨h1, h2⟩, h3, h4⟩]

set_option maxRecDepth 100000 in
/-- C20: on the 4x4 board whose only value is a `1` at row 1 / column 1,
`val_in_block(column=2, row=2, val=1)` returns `true`, leaves that `1` (not fixed, in the
block, not the target) unflagged and instead flags the empty cell at row 2 / column 1. -/
theorem val_in_block_marks_wrong_cell :
    (val_in_block dims2x2 boardSingleOne 2 2 1).1 = true ∧
    (boardSingleOne.cells 0 0).number = 1 ∧ (boardSingleOne.cells 0 0).isFixed = false ∧
    (boardSingleOne.cells 0 0).asterisk = false ∧
    ((val_in_block dims2x2 boardSingleOne 2 2 1).2.cells 0 0).asterisk = false ∧
    (boardSingleOne.cells 1 0).number = 0 ∧ (boardSingleOne.cells 1 0).asterisk = false ∧
    ((val_in_block dims2x2 boardSingleOne 2 2 1).2.cells 1 0).asterisk = true := by
  decide

/-! ## Counting empty cells -/

theorem foldl_count {α : Type} (p : α → Prop) [DecidablePred p] (l : List α) (c0 : Int) :
    l.foldl (fun counter x => if p x then counter + 1 else counter) c0
      = c0 + (l.countP (fun x => decide (p x)) : Nat) := by
  induction l generalizing c0 with
  | nil => simp
  | cons a l ih =>
    simp only [List.foldl_cons, List.countP_cons]
    rw [ih]
    by_cases h : p a
    · simp only [h, if_true, decide_True, Nat.cast_add, Nat.cast_one]
      ring
    · simp [h]

theorem length_pairs {α β : Type} (as : List α) (bs : List β) :
    (pairs as bs).length = as.length * bs.length := by
  induction as with
  | nil => simp [pairs]
  | cons a as ih =>
    simp only [pairs, List.length_append, List.length_map, ih, List.length_cons]
    ring

theorem length_intRange (lo hi : Int) : (intRange lo hi).length = (hi - lo).toNat := by
  simp [intRange]

theorem count_empty_cells_eq (g : Globals) (b : Board) :
    count_empty_cells g b
      = (((pairs (intRange 0 g.N) (intRange 0 g.N)).countP
          (fun p => decide ((b.cells p.1 p.2).number = 0)) : Nat) : Int) := by
  have e : count_empty_cells g b
      = (pairs (intRange 0 g.N) (intRange 0 g.N)).foldl
          (fun counter p => if (b.cells p.1 p.2).number = 0 then counter + 1 else counter)
          0 := by
    unfold count_empty_cells Globals.N
    exact foldl_pairs
      (fun i (counter : Int) j =>
        if (b.cells i j).number = UNASSIGNED then counter + 1 else counter) _ _ _
  rw [e, foldl_count (fun p : Int × Int => (b.cells p.1 p.2).number = 0)]
  simp

theorem count_empty_cells_bounds (g : Globals) (b : Board) :
    0 ≤ count_empty_cells g b ∧
      count_empty_cells g b ≤ ((g.N.toNat * g.N.toNat : Nat) : Int) := by
  rw [count_empty_cells_eq]
  refine ⟨Int.natCast_nonneg _, ?_⟩
  have h := List.countP_le_length (fun p : Int × Int => decide ((b.cells p.1 p.2).number = 0))
    (l := pairs (intRange 0 g.N) (intRange 0 g.N))
  rw [length_pairs, length_intRange] at h
  simp only [sub_zero] at h
  exact_mod_cast h

/-- `board_is_empty` holds exactly when the grid has a non-negative side and every cell of
the grid holds `0`. -/
theorem board_is_empty_iff (g : Globals) (b : Board) :
    board_is_empty g b = true ↔
      (0 ≤ g.N ∧ ∀ r, 0 ≤ r → r < g.N → ∀ c, 0 ≤ c → c < g.N → (b.cells r c).number = 0) := by
  have hlen : (pairs (intRange 0 g.N) (intRange 0 g.N)).length = g.N.toNat * g.N.toNat := by
    rw [length_pairs, length_intRange]; simp
  have hb : board_is_empty g b = true ↔ count_empty_cells g b = g.N * g.N := by
    unfold board_is_empty Globals.N
    dsimp only
    split
    · rename_i h
      simp only [Bool.false_eq_true, false_iff]
      exact h
    · rename_i h
      simp only [true_iff]
      exact not_not.mp h
  rw [hb, count_empty_cells_eq]
  constructor
  · intro h
    have hN : 0 ≤ g.N := by
      by_contra hneg
      have h0 : g.N.toNat = 0 := by omega
      have hc : (pairs (intRange 0 g.N) (intRange 0 g.N)).countP
          (fun p => decide ((b.cells p.1 p.2).number = 0)) = 0 := by
        have := List.countP_le_length (fun p : Int × Int =>
          decide ((b.cells p.1 p.2).number = 0))
          (l := pairs (intRange 0 g.N) (intRange 0 g.N))
        rw [hlen, h0] at this
        omega
      rw [hc] at h
      have : 0 < g.N * g.N := by nlinarith
      omega
    refine ⟨hN, ?_⟩
    have hNN : ((g.N.toNat * g.N.toNat : Nat) : Int) = g.N * g.N := by
      rw [Nat.cast_mul, Int.toNat_of_nonneg hN]
    have hcl : (pairs (intRange 0 g.N) (intRange 0 g.N)).countP
        (fun p => decide ((b.cells p.1 p.2).number = 0))
        = (pairs (intRange 0 g.N) (intRange 0 g.N)).length := by
      rw [hlen]
      have : (((pairs (intRange 0 g.N) (intRange 0 g.N)).countP
        (fun p => decide ((b.cells p.1 p.2).number = 0)) : Nat) : Int)
          = ((g.N.toNat * g.N.toNat : Nat) : Int) := by rw [h, hNN]
      exact_mod_cast this
    rw [List.countP_eq_length] at hcl
    intro r h1 h2 c h3 h4
    have := hcl (r, c) (mem_pairs.mpr ⟨mem_intRange.mpr ⟨h1, h2⟩, mem_intRange.mpr ⟨h3, h4⟩⟩)
    simpa using this
  · rintro ⟨hN, hall⟩
    have hcl : (pairs (intRange 0 g.N) (intRange 0 g.N)).countP
        (fun p => decide ((b.cells p.1 p.2).number = 0))
        = (pairs (intRange 0 g.N) (intRange 0 g.N)).length := by
      rw [List.countP_eq_length]
      intro p hp
      rw [mem_pairs, mem_intRange, mem_intRange] at hp
      simpa using hall p.1 hp.1.1 hp.1.2 p.2 hp.2.1 hp.2.2
    rw [hcl, hlen, Nat.cast_mul, Int.toNat_of_nonneg hN]

/-! ## `generate_randomized_solved_board` -/

/-- The early exits of `generate_randomized_solved_board`. -/
theorem generate_rejects (g : Globals) (ILP : Board → Option Board)
    (copy_random_cells : Board → Int → Board → (Nat → Int) → Nat → Board)
    (rand : Nat → Int) (fuel : Nat) (b : Board) (initialFullCells copyCells : Int)
    (h : ¬ (0 ≤ initialFullCells ∧ initialFullCells ≤ count_empty_cells g b) ∨
      ¬ (0 ≤ copyCells ∧ copyCells ≤ count_empty_cells g b) ∨
      board_is_empty g b = false) :
    generate_randomized_solved_board g ILP copy_random_cells rand fuel b initialFullCells
      copyCells = some (false, b) := by
  unfold generate_randomized_solved_board
  dsimp only
  by_cases hr : ((!valid_set_value initialFullCells (count_empty_cells g b))
      || (!valid_set_value copyCells (count_empty_cells g b))) = true
  · rw [if_pos hr]
  · rw [if_neg hr]
    have hin : (0 ≤ initialFullCells ∧ initialFullCells ≤ count_empty_cells g b) ∧
        (0 ≤ copyCells ∧ copyCells ≤ count_empty_cells g b) := by
      simp only [valid_set_value, Bool.or_eq_true, Bool.not_eq_true',
        decide_eq_false_iff_not, not_or, not_not] at hr
      exact hr
    rcases h with h | h | h
    · exact absurd hin.1 h
    · exact absurd hin.2 h
    · rw [if_pos (by rw [h]; rfl)]

/-- Past the early exits the function is its retry loop. -/
theorem generate_accepts (g : Globals) (ILP : Board → Option Board)
    (copy_random_cells : Board → Int → Board → (Nat → Int) → Nat → Board)
    (rand : Nat → Int) (fuel : Nat) (b : Board) (initialFullCells copyCells : Int)
    (h1 : 0 ≤ initialFullCells ∧ initialFullCells ≤ count_empty_cells g b)
    (h2 : 0 ≤ copyCells ∧ copyCells ≤ count_empty_cells g b)
    (h3 : board_is_empty g b = true) :
    generate_randomized_solved_board g ILP copy_random_cells rand fuel b initialFullCells
      copyCells
      = generate_loop g ILP copy_random_cells rand initialFullCells copyCells fuel b 0 1000
          0 := by
  unfold generate_randomized_solved_board
  dsimp only
  have hr : ¬ (((!valid_set_value initialFullCells (count_empty_cells g b))
      || (!valid_set_value copyCells (count_empty_cells g b))) = true) := by
    simp only [valid_set_value, Bool.or_eq_true, Bool.not_eq_true',
      decide_eq_false_iff_not, not_or, not_not]
    exact ⟨h1, h2⟩
  rw [if_neg hr, if_neg (by rw [h3]; simp)]

/-- Every exit of the retry loop with result `false` leaves a cleared grid, provided the
solver's solutions are complete and `copy_random_cells` only copies solution cells. -/
theorem generate_loop_false (g : Globals) (ILP : Board → Option Board)
    (copy_random_cells : Board → Int → Board → (Nat → Int) → Nat → Board)
    (rand : Nat → Int) (initialFullCells copyCells : Int)
    (hsolve : ∀ b sol, ILP b = some sol →
      ∀ r, 0 ≤ r → r < g.N → ∀ c, 0 ≤ c → c < g.N → (sol.cells r c).number ≠ 0)
    (hcopy : ∀ solved n dst rnd k r c, 0 ≤ r → r < g.N → 0 ≤ c → c < g.N →
      (copy_random_cells solved n dst rnd k).cells r c = dst.cells r c ∨
      ((copy_random_cells solved n dst rnd k).cells r c).number = (solved.cells r c).number)
    (fuel : Nat) :
    ∀ (board : Board) (cellsFilled triesLeft : Int) (pos : Nat) (res : Bool × Board),
      (triesLeft ≤ 0 → ∀ r, 0 ≤ r → r < g.N → ∀ c, 0 ≤ c → c < g.N →
        board.cells r c = ⟨0, false, false⟩) →
      generate_loop g ILP copy_random_cells rand initialFullCells copyCells fuel board
        cellsFilled triesLeft pos = some res →
      res.1 = false →
      ∀ r, 0 ≤ r → r < g.N → ∀ c, 0 ≤ c → c < g.N → res.2.cells r c = ⟨0, false, false⟩ := by
  have hcleared : ∀ b2 : Board, ∀ r, 0 ≤ r → r < g.N → ∀ c, 0 ≤ c → c < g.N →
      (empty_board g b2).cells r c = ⟨0, false, false⟩ := by
    intro b2 r h1 h2 c h3 h4
    rw [empty_board_cells, if_pos ⟨⟨h1, h2⟩, h3, h4⟩]
  induction fuel with
  | zero =>
    intro board cellsFilled triesLeft pos res _ hres
    simp [generate_loop] at hres
  | succ fuel ih =>
    intro board cellsFilled triesLeft pos res hinv hres hfalse
    unfold generate_loop at hres
    dsimp only at hres
    split at hres
    · rename_i htries
      split at hres
      · split at hres
        · split at hres
          · exact ih _ _ _ _ res (fun _ => hcleared _) hres hfalse
          · exact ih _ _ _ _ res (fun h => absurd htries (by omega)) hres hfalse
        · exact ih _ _ _ _ res (fun h => absurd htries (by omega)) hres hfalse
      · split at hres
        · split at hres
          · rename_i newBoard hilp
            split at hres
            · rename_i hbe
              injection hres with hres
              subst hres
              rw [board_is_empty_iff] at hbe
              intro r h1 h2 c h3 h4
              rcases hcopy newBoard copyCells (empty_board g board) rand pos r c h1 h2 h3 h4
                with h | h
              · rw [h]
                exact hcleared _ r h1 h2 c h3 h4
              · exfalso
                have hz := hbe.2 r h1 h2 c h3 h4
                rw [h] at hz
                exact hsolve board newBoard hilp r h1 h2 c h3 h4 hz
            · injection hres with hres
              subst hres
              cases hfalse
          · exact ih _ _ _ _ res (fun _ => hcleared _) hres hfalse
        · exact ih _ _ _ _ res (fun h => absurd htries (by omega)) hres hfalse
    · rename_i htries
      injection hres with hres
      subst hres
      exact hinv (by omega)

/-- Every exit of the retry loop with result `true` leaves a board that `board_is_empty`
rejects. -/
theorem generate_loop_true (g : Globals) (ILP : Board → Option Board)
    (copy_random_cells : Board → Int → Board → (Nat → Int) → Nat → Board)
    (rand : Nat → Int) (initialFullCells copyCells : Int) (fuel : Nat) :
    ∀ (board : Board) (cellsFilled triesLeft : Int) (pos : Nat) (res : Bool × Board),
      generate_loop g ILP copy_random_cells rand initialFullCells copyCells fuel board
        cellsFilled triesLeft pos = some res →
      res.1 = true → board_is_empty g res.2 = false := by
  induction fuel with
  | zero =>
    intro board cellsFilled triesLeft pos res hres
    simp [generate_loop] at hres
  | succ fuel ih =>
    intro board cellsFilled triesLeft pos res hres htrue
    unfold generate_loop at hres
    dsimp only at hres
    split at hres
    · split at hres
      · split at hres
        · split at hres
          · exact ih _ _ _ _ res hres htrue
          · exact ih _ _ _ _ res hres htrue
        · exact ih _ _ _ _ res hres htrue
      · split at hres
        · split at hres
          · split at hres
            · injection hres with hres
              subst hres
              cases htrue
            · rename_i hbe
              injection hres with hres
              subst hres
              simpa using hbe
          · exact ih _ _ _ _ res hres htrue
        · exact ih _ _ _ _ res hres htrue
    · injection hres with hres
      subst hres
      cases htrue

theorem board_is_empty_false_of_value (g : Globals) (b : Board) (h : SomeValue g b) :
    board_is_empty g b = false := by
  obtain ⟨r, h1, h2, c, h3, h4, hne⟩ := h
  rw [← Bool.not_eq_true, board_is_empty_iff]
  rintro ⟨-, hall⟩
  exact hne (hall r h1 h2 c h3 h4)

/-! ## Claims on the generator and the solution counter -/

/-- C14: if `initialFullCells` or `copyCells` lies outside `[0, count_empty_cells(board)]`,
or some cell of the board is not empty, `generate_randomized_solved_board` returns `false`
and the board it was given, whatever the random stream, the solver, the extraction helper
and the fuel. -/
theorem generate_rejects_bad_requests (g : Globals) (ILP : Board → Option Board)
    (copy_random_cells : Board → Int → Board → (Nat → Int) → Nat → Board)
    (rand : Nat → Int) (fuel : Nat) (b : Board) (initialFullCells copyCells : Int)
    (h : ¬ (0 ≤ initialFullCells ∧ initialFullCells ≤ count_empty_cells g b) ∨
      ¬ (0 ≤ copyCells ∧ copyCells ≤ count_empty_cells g b) ∨ SomeValue g b) :
    generate_randomized_solved_board g ILP copy_random_cells rand fuel b initialFullCells
      copyCells = some (false, b) := by
  apply generate_rejects
  rcases h with h | h | h
  · exact Or.inl h
  · exact Or.inr (Or.inl h)
  · exact Or.inr (Or.inr (board_is_empty_false_of_value g b h))

theorem generate_rejects_bad_requests_witness :
    (¬ (0 ≤ (3 : Int) ∧ (3 : Int) ≤ count_empty_cells dims2x2 boardSingleOne) ∨
      ¬ (0 ≤ (17 : Int) ∧ (17 : Int) ≤ count_empty_cells dims2x2 boardSingleOne) ∨
      SomeValue dims2x2 boardSingleOne) ∧
    generate_randomized_solved_board dims2x2 (fun _ => some boardSolved4)
      (copy_cells_in_order dims2x2) (fun _ => 0) 5 boardSingleOne 3 17
      = some (false, boardSingleOne) :=
  ⟨by decide, generate_rejects_bad_requests dims2x2 (fun _ => some boardSolved4)
    (copy_cells_in_order dims2x2) (fun _ => 0) 5 boardSingleOne 3 17 (by decide)⟩

/-- C15: for an empty input board and in-range parameters, whenever
`generate_randomized_solved_board` returns `false` every cell of the grid has value `0`,
is not fixed and is not flagged.  The solver and the extraction helper are not part of the
sources; the solver's solutions are taken to be complete and `copy_random_cells` to leave
a cell as it was or give it the value of the solved board. -/
theorem generate_failure_leaves_empty (g : Globals) (ILP : Board → Option Board)
    (copy_random_cells : Board → Int → Board → (Nat → Int) → Nat → Board)
    (rand : Nat → Int)
    (hsolve : ∀ b sol, ILP b = some sol →
      ∀ r, 0 ≤ r → r < g.N → ∀ c, 0 ≤ c → c < g.N → (sol.cells r c).number ≠ 0)
    (hcopy : ∀ solved n dst rnd k r c, 0 ≤ r → r < g.N → 0 ≤ c → c < g.N →
      (copy_random_cells solved n dst rnd k).cells r c = dst.cells r c ∨
      ((copy_random_cells solved n dst rnd k).cells r c).number = (solved.cells r c).number)
    (fuel : Nat) (b : Board) (initialFullCells copyCells : Int)
    (h1 : 0 ≤ initialFullCells ∧ initialFullCells ≤ count_empty_cells g b)
    (h2 : 0 ≤ copyCells ∧ copyCells ≤ count_empty_cells g b)
    (h3 : board_is_empty g b = true)
    (res : Bool × Board)
    (hres : generate_randomized_solved_board g ILP copy_random_cells rand fuel b
      initialFullCells copyCells = some res)
    (hfalse : res.1 = false) : Cleared g res.2 := by
  rw [generate_accepts g ILP copy_random_cells rand fuel b initialFullCells copyCells h1 h2
    h3] at hres
  exact generate_loop_false g ILP copy_random_cells rand initialFullCells copyCells hsolve
    hcopy fuel b 0 1000 0 res (fun h => absurd h (by omega)) hres hfalse

set_option maxRecDepth 1000000 in
theorem generate_failure_leaves_empty_witness :
    ∃ res : Bool × Board,
      generate_randomized_solved_board dims2x2 (fun _ => none) (fun _ _ dst _ _ => dst)
        (fun _ => 0) 1001 (boardOfRows []) 0 0 = some res ∧
      res.1 = false ∧ Cleared dims2x2 res.2 := by
  have hm : (generate_randomized_solved_board dims2x2 (fun _ => none)
      (fun _ _ dst _ _ => dst) (fun _ => 0) 1001 (boardOfRows []) 0 0).map Prod.fst
      = some false := by
    decide
  obtain ⟨res, hres⟩ : ∃ res, generate_randomized_solved_board dims2x2 (fun _ => none)
      (fun _ _ dst _ _ => dst) (fun _ => 0) 1001 (boardOfRows []) 0 0 = some res := by
    cases h : generate_randomized_solved_board dims2x2 (fun _ => none)
        (fun _ _ dst _ _ => dst) (fun _ => 0) 1001 (boardOfRows []) 0 0 with
    | none => rw [h] at hm; cases hm
    | some r => exact ⟨r, rfl⟩
  have hfalse : res.1 = false := by
    rw [hres] at hm
    simpa using hm
  exact ⟨res, hres, hfalse,
    generate_failure_leaves_empty dims2x2 (fun _ => none) (fun _ _ dst _ _ => dst)
      (fun _ => 0) (fun _ _ h => by cases h) (fun _ _ _ _ _ _ _ _ _ _ _ => Or.inl rfl)
      1001 (boardOfRows []) 0 0 (by decide) (by decide) (by decide) res hres hfalse⟩

set_option maxRecDepth 100000 in
/-- C16 (as stated, refuted): with a solver that returns a solved 4x4 grid and an
extraction that retains `copyCells = 16 = N*N` cells, the board after extraction has no
empty cell and `generate_randomized_solved_board` returns `true`. -/
theorem generate_accepts_full_board :
    (generate_randomized_solved_board dims2x2 (fun _ => some boardSolved4)
      (copy_cells_in_order dims2x2) (fun _ => 0) 1 (boardOfRows []) 0 16).map
        (fun res => (res.1, count_empty_cells dims2x2 res.2,
          decide (NoEmptyCell dims2x2 res.2)))
      = some (true, 0, true) := by
  decide

/-- C16 (amended): whenever `generate_randomized_solved_board` returns `true` the board has
at least one non-empty cell; an attempt whose extraction step leaves every cell empty
(for instance `copyCells = 0`) is the one that returns `false`. -/
theorem generate_true_has_value (g : Globals) (hg : g.WF) (ILP : Board → Option Board)
    (copy_random_cells : Board → Int → Board → (Nat → Int) → Nat → Board)
    (rand : Nat → Int) (fuel : Nat) (b : Board) (initialFullCells copyCells : Int)
    (res : Bool × Board)
    (hres : generate_randomized_solved_board g ILP copy_random_cells rand fuel b
      initialFullCells copyCells = some res)
    (htrue : res.1 = true) : SomeValue g res.2 := by
  have hbe : board_is_empty g res.2 = false := by
    by_cases hacc : (0 ≤ initialFullCells ∧ initialFullCells ≤ count_empty_cells g b) ∧
        (0 ≤ copyCells ∧ copyCells ≤ count_empty_cells g b) ∧ board_is_empty g b = true
    · rw [generate_accepts g ILP copy_random_cells rand fuel b initialFullCells copyCells
        hacc.1 hacc.2.1 hacc.2.2] at hres
      exact generate_loop_true g ILP copy_random_cells rand initialFullCells copyCells fuel
        b 0 1000 0 res hres htrue
    · have hrej := generate_rejects g ILP copy_random_cells rand fuel b initialFullCells
        copyCells (by
          by_contra hcon
          push_neg at hcon
          exact hacc ⟨hcon.1, hcon.2.1, by simpa using hcon.2.2⟩)
      rw [hrej] at hres
      injection hres with hres
      subst hres
      cases htrue
  have hN : 0 ≤ g.N := by
    obtain ⟨h1, h2, -, -⟩ := hg
    unfold Globals.N
    exact le_of_lt (Int.mul_pos h1 h2)
  by_contra hnone
  have : board_is_empty g res.2 = true := by
    rw [board_is_empty_iff]
    refine ⟨hN, ?_⟩
    intro r h1 h2 c h3 h4
    by_contra hne
    exact hnone ⟨r, h1, h2, c, h3, h4, hne⟩
  rw [this] at hbe
  cases hbe

set_option maxRecDepth 100000 in
theorem generate_true_has_value_witness :
    ∃ res : Bool × Board,
      dims2x2.WF ∧
      generate_randomized_solved_board dims2x2 (fun _ => some boardSolved4)
        (copy_cells_in_order dims2x2) (fun _ => 0) 1 (boardOfRows []) 0 5 = some res ∧
      res.1 = true ∧ SomeValue dims2x2 res.2 := by
  have hm : (generate_randomized_solved_board dims2x2 (fun _ => some boardSolved4)
      (copy_cells_in_order dims2x2) (fun _ => 0) 1 (boardOfRows []) 0 5).map Prod.fst
      = some true := by
    decide
  obtain ⟨res, hres⟩ : ∃ res, generate_randomized_solved_board dims2x2
      (fun _ => some boardSolved4) (copy_cells_in_order dims2x2) (fun _ => 0) 1
      (boardOfRows []) 0 5 = some res := by
    cases h : generate_randomized_solved_board dims2x2 (fun _ => some boardSolved4)
        (copy_cells_in_order dims2x2) (fun _ => 0) 1 (boardOfRows []) 0 5 with
    | none => rw [h] at hm; cases hm
    | some r => exact ⟨r, rfl⟩
  have htrue : res.1 = true := by
    rw [hres] at hm
    simpa using hm
  exact ⟨res, by decide, hres, htrue,
    generate_true_has_value dims2x2 (by decide) (fun _ => some boardSolved4)
      (copy_cells_in_order dims2x2) (fun _ => 0) 1 (boardOfRows []) 0 5 res hres htrue⟩

/-- The two exits of `count_solutions`: it returns `0` when the first entry that
`get_next_play` returns for the copy of the board is `-1`, and otherwise what
`deterministic_backtrack` returns for the copy and the two entries. -/
theorem count_solutions_exits (g : Globals) (get_next_play : Board → Int × Int)
    (deterministic_backtrack : Board → Int → Int → Int) (b : Board) :
    ((get_next_play (copy_board g b (generate_empty_board g))).1 = -1 →
      count_solutions g get_next_play deterministic_backtrack b = 0) ∧
    ((get_next_play (copy_board g b (generate_empty_board g))).1 ≠ -1 →
      count_solutions g get_next_play deterministic_backtrack b
        = deterministic_backtrack (copy_board g b (generate_empty_board g))
            (get_next_play (copy_board g b (generate_empty_board g))).1
            (get_next_play (copy_board g b (generate_empty_board g))).2) := by
  unfold count_solutions
  dsimp only
  constructor
  · intro h
    rw [if_pos h]
  · intro h
    rw [if_neg h]

/-- If `get_next_play` answers `-1` for every board without empty cell, then
`count_solutions` returns `0` on every such board, whatever its values and whatever
`deterministic_backtrack` does. -/
theorem count_solutions_zero_of_sentinel (g : Globals) (get_next_play : Board → Int × Int)
    (deterministic_backtrack : Board → Int → Int → Int) (b : Board)
    (hs : ∀ b2, NoEmptyCell g b2 → (get_next_play b2).1 = -1)
    (h : NoEmptyCell g b) :
    count_solutions g get_next_play deterministic_backtrack b = 0 := by
  have hcopy : NoEmptyCell g (copy_board g b (generate_empty_board g)) := by
    intro r h1 h2 c h3 h4
    rw [copy_board_cells, if_pos ⟨⟨h1, h2⟩, h3, h4⟩]
    exact h r h1 h2 c h3 h4
  exact (count_solutions_exits g get_next_play deterministic_backtrack b).1 (hs _ hcopy)

/-! ## `auto_fill`: which cells are filled -/

theorem nodup_intRange (lo hi : Int) : (intRange lo hi).Nodup := by
  unfold intRange
  apply List.Nodup.map
  · intro a b hab
    simpa using hab
  · exact List.nodup_range _

theorem countP_one_unique {α : Type} (p : α → Bool) (l : List α) (h : l.countP p = 1)
    (x y : α) (hx : x ∈ l) (hy : y ∈ l) (px : p x = true) (py : p y = true) : x = y := by
  induction l with
  | nil => cases hx
  | cons a l ih =>
    rw [List.countP_cons] at h
    by_cases pa : p a = true
    · simp only [pa, if_true] at h
      have h0 : l.countP p = 0 := by omega
      rw [List.countP_eq_zero] at h0
      rcases List.mem_cons.mp hx with rfl | hxl
      · rcases List.mem_cons.mp hy with rfl | hyl
        · rfl
        · exact absurd py (h0 y hyl)
      · exact absurd px (h0 x hxl)
    · simp only [pa, if_false, add_zero] at h
      rcases List.mem_cons.mp hx with rfl | hxl
      · exact absurd px pa
      · rcases List.mem_cons.mp hy with rfl | hyl
        · exact absurd py pa
        · exact ih h hxl hyl

theorem countP_one_of_unique {α : Type} (p : α → Bool) (l : List α) (hnd : l.Nodup)
    (x : α) (hx : x ∈ l) (px : p x = true) (huniq : ∀ y ∈ l, p y = true → y = x) :
    l.countP p = 1 := by
  induction l with
  | nil => cases hx
  | cons a l ih =>
    rw [List.nodup_cons] at hnd
    rw [List.countP_cons]
    rcases List.mem_cons.mp hx with rfl | hxl
    · have h0 : l.countP p = 0 := by
        rw [List.countP_eq_zero]
        intro y hy py
        have := huniq y (List.mem_cons_of_mem _ hy) py
        rw [this] at hy
        exact hnd.1 hy
      simp [px, h0]
    · have pa : ¬ p a = true := by
        intro pa
        have := huniq a (List.mem_cons_self _ _) pa
        rw [this] at hnd
        exact hnd.1 hxl
      simp only [pa, if_false, add_zero]
      exact ih hnd.2 hxl (fun y hy py => huniq y (List.mem_cons_of_mem _ hy) py)

/-- `conflictAt` only reads the values of the cells of the grid. -/
theorem conflictAt_of_agree (g : Globals) (b b2 : Board)
    (h : ∀ r, 0 ≤ r → r < g.N → ∀ c, 0 ≤ c → c < g.N →
      (b2.cells r c).number = (b.cells r c).number)
    (r c v : Int) : conflictAt g b2 r c v ↔ conflictAt g b r c v := by
  unfold conflictAt
  constructor
  · rintro ⟨r2, h1, h2, c2, h3, h4, hne, hu, hv⟩
    exact ⟨r2, h1, h2, c2, h3, h4, hne, hu, by rw [← h r2 h1 h2 c2 h3 h4]; exact hv⟩
  · rintro ⟨r2, h1, h2, c2, h3, h4, hne, hu, hv⟩
    exact ⟨r2, h1, h2, c2, h3, h4, hne, hu, by rw [h r2 h1 h2 c2 h3 h4]; exact hv⟩

/-- One step of the `k` loop of `auto_fill` on a copy that agrees with `b` on the grid. -/
theorem auto_fill_try_spec (g : Globals) (hg : g.WF) (b : Board) (i j : Int)
    (hi : 0 ≤ i ∧ i < g.N) (hj : 0 ≤ j ∧ j < g.N) (st : AutoFillState) (k : Int)
    (hagree : ∀ r, 0 ≤ r → r < g.N → ∀ c, 0 ≤ c → c < g.N →
      (st.copyOfBoard.cells r c).number = (b.cells r c).number) :
    (auto_fill_try g i j st k).board = st.board ∧
    (auto_fill_try g i j st k).fillFlag = st.fillFlag ∧
    (∀ r, 0 ≤ r → r < g.N → ∀ c, 0 ≤ c → c < g.N →
      ((auto_fill_try g i j st k).copyOfBoard.cells r c).number = (b.cells r c).number) ∧
    (¬ conflictAt g b i j k →
      (auto_fill_try g i j st k).candidate = k ∧
      (auto_fill_try g i j st k).numOfCandidates = st.numOfCandidates + 1) ∧
    (conflictAt g b i j k →
      (auto_fill_try g i j st k).candidate = st.candidate ∧
      (auto_fill_try g i j st k).numOfCandidates = st.numOfCandidates) := by
  have e1 : i + 1 - 1 = i := by omega
  have e2 : j + 1 - 1 = j := by omega
  have hres := valid_check_false_iff g hg st.copyOfBoard (j + 1) (i + 1) k
    ⟨by omega, by omega⟩ ⟨by omega, by omega⟩
  rw [e1, e2, conflictAt_of_agree g b st.copyOfBoard hagree] at hres
  have hfo := (valid_check_frame g st.copyOfBoard (j + 1) (i + 1) k).1
  have hagree2 : ∀ r, 0 ≤ r → r < g.N → ∀ c, 0 ≤ c → c < g.N →
      ((valid_check g st.copyOfBoard (j + 1) (i + 1) k).2.cells r c).number
        = (b.cells r c).number := by
    intro r h1 h2 c h3 h4
    rw [(hfo r c).1]
    exact hagree r h1 h2 c h3 h4
  unfold auto_fill_try
  dsimp only
  split
  · rename_i hv
    refine ⟨rfl, rfl, hagree2, fun _ => ⟨rfl, rfl⟩, ?_⟩
    intro hcon
    rw [hres.mpr hcon] at hv
    cases hv
  · rename_i hv
    rw [Bool.not_eq_true] at hv
    refine ⟨rfl, rfl, hagree2, ?_, fun _ => ⟨rfl, rfl⟩⟩
    intro hcon
    exact absurd (hres.mp hv) hcon

/-- The `k` loop of `auto_fill` counts the legal values and remembers the last one. -/
theorem auto_fill_tries_spec (g : Globals) (hg : g.WF) (b : Board) (i j : Int)
    (hi : 0 ≤ i ∧ i < g.N) (hj : 0 ≤ j ∧ j < g.N) (l : List Int) :
    ∀ st : AutoFillState,
      (∀ r, 0 ≤ r → r < g.N → ∀ c, 0 ≤ c → c < g.N →
        (st.copyOfBoard.cells r c).number = (b.cells r c).number) →
      (l.foldl (auto_fill_try g i j) st).board = st.board ∧
      (l.foldl (auto_fill_try g i j) st).fillFlag = st.fillFlag ∧
      (∀ r, 0 ≤ r → r < g.N → ∀ c, 0 ≤ c → c < g.N →
        ((l.foldl (auto_fill_try g i j) st).copyOfBoard.cells r c).number
          = (b.cells r c).number) ∧
      (l.foldl (auto_fill_try g i j) st).numOfCandidates
        = st.numOfCandidates
          + ((l.countP (fun k => decide (¬ conflictAt g b i j k)) : Nat) : Int) ∧
      ((∃ k ∈ l, ¬ conflictAt g b i j k) →
        (l.foldl (auto_fill_try g i j) st).candidate ∈ l ∧
        ¬ conflictAt g b i j (l.foldl (auto_fill_try g i j) st).candidate) ∧
      ((¬ ∃ k ∈ l, ¬ conflictAt g b i j k) →
        (l.foldl (auto_fill_try g i j) st).candidate = st.candidate) := by
  induction l with
  | nil =>
    intro st hagree
    simp only [List.foldl_nil, List.countP_nil, Nat.cast_zero, add_zero, List.not_mem_nil,
      false_and, exists_false, not_false_eq_true, true_and, forall_true_left]
    exact ⟨hagree, id, trivial⟩
  | cons a l ih =>
    intro st hagree
    simp only [List.foldl_cons]
    obtain ⟨s1, s2, s3, s4, s5⟩ := auto_fill_try_spec g hg b i j hi hj st a hagree
    obtain ⟨t1, t2, t3, t4, t5, t6⟩ := ih (auto_fill_try g i j st a) s3
    refine ⟨t1.trans s1, t2.trans s2, t3, ?_, ?_, ?_⟩
    · rw [t4, List.countP_cons]
      by_cases hl : conflictAt g b i j a
      · rw [(s5 hl).2]
        simp [hl]
      · rw [(s4 hl).2]
        simp only [hl, not_false_eq_true, decide_True, if_true, Nat.cast_add, Nat.cast_one]
        ring
    · rintro ⟨k, hk, hleg⟩
      by_cases hex : ∃ k ∈ l, ¬ conflictAt g b i j k
      · exact ⟨List.mem_cons_of_mem _ (t5 hex).1, (t5 hex).2⟩
      · rw [t6 hex]
        rcases List.mem_cons.mp hk with rfl | hkl
        · rw [(s4 hleg).1]
          exact ⟨List.mem_cons_self _ _, hleg⟩
        · exact absurd ⟨k, hkl, hleg⟩ hex
    · intro hnone
      have hnl : ¬ ∃ k ∈ l, ¬ conflictAt g b i j k := by
        rintro ⟨k, hk, hleg⟩
        exact hnone ⟨k, List.mem_cons_of_mem _ hk, hleg⟩
      have ha : conflictAt g b i j a := by
        by_contra hleg
        exact hnone ⟨a, List.mem_cons_self _ _, hleg⟩
      rw [t6 hnl, (s5 ha).1]

theorem auto_fill_body_spec (g : Globals) (hg : g.WF) (b : Board) (i j : Int)
    (hi : 0 ≤ i ∧ i < g.N) (hj : 0 ≤ j ∧ j < g.N) (st : AutoFillState)
    (hinv : AutoFillInv g b st) :
    AutoFillInv g b (auto_fill_body g i st j) ∧
    (∀ k, SingleCandidate g b i j k →
      ((auto_fill_body g i st j).board.cells i j).number = k ∧
      (auto_fill_body g i st j).fillFlag = true) ∧
    (∀ r c, ¬ (r = i ∧ c = j) →
      (auto_fill_body g i st j).board.cells r c = st.board.cells r c) ∧
    (st.fillFlag = true → (auto_fill_body g i st j).fillFlag = true) := by
  obtain ⟨hun, hagree, hnum, hvals, hflag⟩ := hinv
  have key := auto_fill_tries_spec g hg b i j hi hj
    (intRange 1 (g.blockRows * g.blockCols + 1)) st hagree
  have hmemL : ∀ k, k ∈ intRange 1 (g.blockRows * g.blockCols + 1) ↔ 1 ≤ k ∧ k ≤ g.N := by
    intro k
    rw [mem_intRange]
    unfold Globals.N
    constructor
    · rintro ⟨h1, h2⟩; exact ⟨h1, by omega⟩
    · rintro ⟨h1, h2⟩; exact ⟨h1, by omega⟩
  unfold auto_fill_body
  dsimp only
  generalize (intRange 1 (g.blockRows * g.blockCols + 1)).foldl (auto_fill_try g i j) st
    = st1 at key
  obtain ⟨k1, k2, k3, k4, k5, k6⟩ := key
  rw [hnum, zero_add] at k4
  by_cases hz : (st.copyOfBoard.cells i j).number = UNASSIGNED
  · rw [if_pos hz]
    have hb0 : (b.cells i j).number = 0 := by
      rw [← hagree i hi.1 hi.2 j hj.1 hj.2]; exact hz
    by_cases hone : st1.numOfCandidates = 1
    · rw [if_pos hone]
      dsimp only
      have hc1 : (intRange 1 (g.blockRows * g.blockCols + 1)).countP
          (fun k => decide (¬ conflictAt g b i j k)) = 1 := by
        rw [k4] at hone
        exact_mod_cast hone
      have hex : ∃ k ∈ intRange 1 (g.blockRows * g.blockCols + 1), ¬ conflictAt g b i j k := by
        have hpos : 0 < (intRange 1 (g.blockRows * g.blockCols + 1)).countP
            (fun k => decide (¬ conflictAt g b i j k)) := by omega
        rw [List.countP_pos_iff] at hpos
        obtain ⟨k, hk, hp⟩ := hpos
        exact ⟨k, hk, by simpa using hp⟩
      obtain ⟨hcm, hcl⟩ := k5 hex
      have hsc : SingleCandidate g b i j st1.candidate := by
        refine ⟨hb0, ⟨((hmemL _).mp hcm).1, ((hmemL _).mp hcm).2, hcl⟩, ?_⟩
        intro k2 h1 h2 hleg
        exact countP_one_unique _ _ hc1 k2 st1.candidate ((hmemL k2).mpr ⟨h1, h2⟩) hcm
          (by simpa using hleg) (by simpa using hcl)
      have hclean : Unflagged g (setNumber st1.board i j st1.candidate) := by
        intro r h1 h2 c h3 h4
        rw [setNumber_asterisk, k1]
        exact hun r h1 h2 c h3 h4
      rw [validate_risks_clean g hg _ (j + 1) (i + 1) ⟨by omega, by omega⟩
        ⟨by omega, by omega⟩ hclean]
      dsimp only
      refine ⟨⟨hclean, k3, rfl, ?_, fun _ => ⟨i, hi.1, hi.2, j, hj.1, hj.2, _, hsc⟩⟩,
        ?_, ?_, fun _ => rfl⟩
      · intro r h1 h2 c h3 h4
        rw [setNumber_number]
        split
        · rename_i hrc
          rw [hrc.1, hrc.2]
          exact Or.inr hsc
        · rw [k1]
          exact hvals r h1 h2 c h3 h4
      · intro k hk
        refine ⟨?_, rfl⟩
        rw [setNumber_number, if_pos ⟨rfl, rfl⟩]
        exact (hk.2.2 st1.candidate hsc.2.1.1 hsc.2.1.2.1 hsc.2.1.2.2)
      · intro r c hrc
        unfold setNumber
        dsimp only
        rw [if_neg hrc, k1]
    · rw [if_neg hone]
      dsimp only
      have hnosc : ∀ k, ¬ SingleCandidate g b i j k := by
        intro k hk
        apply hone
        rw [k4]
        have := countP_one_of_unique (fun k => decide (¬ conflictAt g b i j k))
          (intRange 1 (g.blockRows * g.blockCols + 1)) (nodup_intRange _ _) k
          ((hmemL k).mpr ⟨hk.2.1.1, hk.2.1.2.1⟩) (by simpa using hk.2.1.2.2)
          (by
            intro y hy hp
            exact hk.2.2 y ((hmemL y).mp hy).1 ((hmemL y).mp hy).2 (by simpa using hp))
        rw [this]
        rfl
      refine ⟨⟨by rw [k1]; exact hun, k3, rfl, by rw [k1]; exact hvals,
        by rw [k2]; exact hflag⟩, fun k hk => absurd hk (hnosc k), ?_, ?_⟩
      · intro r c _
        rw [k1]
      · intro h
        rw [k2]; exact h
  · rw [if_neg hz]
    have hb0 : (b.cells i j).number ≠ 0 := by
      rw [← hagree i hi.1 hi.2 j hj.1 hj.2]; exact hz
    exact ⟨⟨hun, hagree, hnum, hvals, hflag⟩, fun k hk => absurd hk.1 hb0,
      fun _ _ _ => rfl, fun h => h⟩

/-- The loop of `auto_fill`, started on a board without asterisks. -/
theorem auto_fill_loop_spec (g : Globals) (hg : g.WF) (b : Board) (st0 : AutoFillState)
    (hinv : AutoFillInv g b st0) :
    AutoFillInv g b
      ((pairs (intRange 0 g.N) (intRange 0 g.N)).foldl
        (fun st p => auto_fill_body g p.1 st p.2) st0) ∧
    ∀ r, 0 ≤ r → r < g.N → ∀ c, 0 ≤ c → c < g.N → ∀ k, SingleCandidate g b r c k →
      (((pairs (intRange 0 g.N) (intRange 0 g.N)).foldl
        (fun st p => auto_fill_body g p.1 st p.2) st0).board.cells r c).number = k ∧
      ((pairs (intRange 0 g.N) (intRange 0 g.N)).foldl
        (fun st p => auto_fill_body g p.1 st p.2) st0).fillFlag = true := by
  constructor
  · apply foldl_inv (fun st => AutoFillInv g b st)
    · exact hinv
    · intro st p hp hst
      rw [mem_pairs, mem_intRange, mem_intRange] at hp
      exact (auto_fill_body_spec g hg b p.1 p.2 hp.1 hp.2 st hst).1
  · intro r h1 h2 c h3 h4
    exact foldl_track (fun st => AutoFillInv g b st)
      (fun (p : Int × Int) (st : AutoFillState) =>
        ∀ k, SingleCandidate g b p.1 p.2 k →
          (st.board.cells p.1 p.2).number = k ∧ st.fillFlag = true)
      (fun st (p : Int × Int) => auto_fill_body g p.1 st p.2)
      (pairs (intRange 0 g.N) (intRange 0 g.N)) st0 hinv
      (by
        intro st p hp hst
        rw [mem_pairs, mem_intRange, mem_intRange] at hp
        exact (auto_fill_body_spec g hg b p.1 p.2 hp.1 hp.2 st hst).1)
      (by
        intro st p hp hst
        rw [mem_pairs, mem_intRange, mem_intRange] at hp
        exact (auto_fill_body_spec g hg b p.1 p.2 hp.1 hp.2 st hst).2.1)
      (by
        intro st p q hq hst hps
        rw [mem_pairs, mem_intRange, mem_intRange] at hq
        obtain ⟨-, hset, hother, hff⟩ := auto_fill_body_spec g hg b q.1 q.2 hq.1 hq.2 st hst
        by_cases hpq : p.1 = q.1 ∧ p.2 = q.2
        · rw [hpq.1, hpq.2]
          exact hset
        · intro k hk
          rw [hother p.1 p.2 hpq]
          exact ⟨(hps k hk).1, hff (hps k hk).2⟩)
      (r, c) (mem_pairs.mpr ⟨mem_intRange.mpr ⟨h1, h2⟩, mem_intRange.mpr ⟨h3, h4⟩⟩)

/-- C12: for every board with no flagged cell, after `auto_fill` each empty cell for which
exactly one value `k` of `1..N` was legal on the board as it was before the call holds
that `k`, every other cell keeps its value, and `auto_fill` returns `true` iff at least
one such single-candidate cell existed. -/
theorem auto_fill_fills_single_candidates (g : Globals) (hg : g.WF) (b : Board)
    (h : Unflagged g b) :
    (∀ r, 0 ≤ r → r < g.N → ∀ c, 0 ≤ c → c < g.N → ∀ k, SingleCandidate g b r c k →
      ((auto_fill g b).2.cells r c).number = k) ∧
    (∀ r, 0 ≤ r → r < g.N → ∀ c, 0 ≤ c → c < g.N → (¬ ∃ k, SingleCandidate g b r c k) →
      ((auto_fill g b).2.cells r c).number = (b.cells r c).number) ∧
    ((auto_fill g b).1 = true ↔
      ∃ r, 0 ≤ r ∧ r < g.N ∧ ∃ c, 0 ≤ c ∧ c < g.N ∧ ∃ k, SingleCandidate g b r c k) := by
  have hne : ¬ check_board_erroneous g b = true := by
    rw [Bool.not_eq_true, check_board_erroneous_false_iff]; exact h
  have hinv0 : AutoFillInv g b
      { board := b, copyOfBoard := copy_board g b (generate_empty_board g),
        fillFlag := false, candidate := 0, numOfCandidates := 0 } := by
    refine ⟨h, ?_, rfl, fun _ _ _ _ _ _ => Or.inl rfl, fun hf => by cases hf⟩
    intro r h1 h2 c h3 h4
    dsimp only
    rw [copy_board_cells, if_pos ⟨⟨h1, h2⟩, h3, h4⟩]
  have e : auto_fill g b
      = (((pairs (intRange 0 g.N) (intRange 0 g.N)).foldl
          (fun st p => auto_fill_body g p.1 st p.2)
          { board := b, copyOfBoard := copy_board g b (generate_empty_board g),
            fillFlag := false, candidate := 0, numOfCandidates := 0 }).fillFlag,
         ((pairs (intRange 0 g.N) (intRange 0 g.N)).foldl
          (fun st p => auto_fill_body g p.1 st p.2)
          { board := b, copyOfBoard := copy_board g b (generate_empty_board g),
            fillFlag := false, candidate := 0, numOfCandidates := 0 }).board) := by
    unfold auto_fill
    dsimp only
    rw [if_neg hne]
    unfold Globals.N
    rw [foldl_pairs (auto_fill_body g)]
  obtain ⟨hfin, hq⟩ := auto_fill_loop_spec g hg b _ hinv0
  rw [e]
  dsimp only
  refine ⟨fun r h1 h2 c h3 h4 k hk => (hq r h1 h2 c h3 h4 k hk).1, ?_, ?_⟩
  · intro r h1 h2 c h3 h4 hnone
    rcases hfin.2.2.2.1 r h1 h2 c h3 h4 with hv | hv
    · exact hv
    · exact absurd ⟨_, hv⟩ hnone
  · constructor
    · exact hfin.2.2.2.2
    · rintro ⟨r, h1, h2, c, h3, h4, k, hk⟩
      exact (hq r h1 h2 c h3 h4 k hk).2

set_option maxRecDepth 100000 in
theorem auto_fill_fills_single_candidates_witness :
    dims2x2.WF ∧ Unflagged dims2x2 boardAutoFill ∧
    ((∀ r, 0 ≤ r → r < dims2x2.N → ∀ c, 0 ≤ c → c < dims2x2.N →
        ∀ k, SingleCandidate dims2x2 boardAutoFill r c k →
          ((auto_fill dims2x2 boardAutoFill).2.cells r c).number = k) ∧
      (∀ r, 0 ≤ r → r < dims2x2.N → ∀ c, 0 ≤ c → c < dims2x2.N →
        (¬ ∃ k, SingleCandidate dims2x2 boardAutoFill r c k) →
          ((auto_fill dims2x2 boardAutoFill).2.cells r c).number
            = (boardAutoFill.cells r c).number) ∧
      ((auto_fill dims2x2 boardAutoFill).1 = true ↔
        ∃ r, 0 ≤ r ∧ r < dims2x2.N ∧ ∃ c, 0 ≤ c ∧ c < dims2x2.N ∧
          ∃ k, SingleCandidate dims2x2 boardAutoFill r c k)) :=
  ⟨by decide, by decide,
    auto_fill_fills_single_candidates dims2x2 (by decide) boardAutoFill (by decide)⟩

/-! ## The text written by `save_command` -/

theorem foldl_append_flatten {α : Type} (f : α → List Char) (l : List α) (init : List Char) :
    l.foldl (fun out x => out ++ f x) init = init ++ (l.map f).flatten := by
  induction l generalizing init with
  | nil => simp
  | cons a l ih =>
    simp only [List.foldl_cons, List.map_cons, List.flatten_cons]
    rw [ih, List.append_assoc]

theorem save_command_text (g : Globals) (ILP : Board → Option Board) (mode : Char)
    (b : Board) (text : List Char) (h : save_command g ILP mode b = some text) :
    text = (printInt g.blockRows ++ [' '] ++ printInt g.blockCols ++ ['\n'])
      ++ ((intRange 0 g.N).map (rowLine g mode b)).flatten := by
  unfold save_command at h
  split at h
  · cases h
  · split at h
    · cases h
    · injection h with h
      rw [← h]
      have hrow : (fun (out : List Char) (i : Int) =>
          (intRange 0 (g.blockRows * g.blockCols)).foldl
            (fun out j => out ++ save_cell mode (b.cells i j)) out ++ ['\n'])
          = (fun out i => out ++ rowLine g mode b i) := by
        funext out i
        rw [foldl_append_flatten (fun j => save_cell mode (b.cells i j)), List.append_assoc]
        have : (fun j => save_cell mode (b.cells i j))
            = (fun j => cellToken mode (b.cells i j) ++ [' ']) := by
          funext j
          simp [save_cell, cellToken]
        rw [this]
        rfl
      rw [hrow, foldl_append_flatten]
      rfl

/-! ## Reading lines and tokens -/

theorem fgetsTake_line (line rest : List Char) (k : Nat)
    (hnl : ∀ c ∈ line, c ≠ '\n') (hlen : line.length < k) :
    fgetsTake k (line ++ '\n' :: rest) = (line ++ ['\n'], rest) := by
  induction line generalizing k with
  | nil =>
    cases k with
    | zero => cases hlen
    | succ k => simp [fgetsTake]
  | cons c line ih =>
    cases k with
    | zero => cases hlen
    | succ k =>
      have hc : c ≠ '\n' := hnl c (List.mem_cons_self _ _)
      have hrest := ih k (fun x hx => hnl x (List.mem_cons_of_mem _ hx))
        (by simp only [List.length_cons] at hlen; omega)
      rw [List.cons_append, fgetsTake, if_neg hc, hrest]
      rfl

theorem fgets_line (line rest : List Char) (n : Nat)
    (hnl : ∀ c ∈ line, c ≠ '\n') (hlen : line.length + 1 < n) :
    fgets n (line ++ '\n' :: rest) = some (line ++ ['\n'], rest) := by
  have h := fgetsTake_line line rest (n - 1) hnl (by omega)
  cases hl : line ++ '\n' :: rest with
  | nil =>
    have : (line ++ '\n' :: rest).length = 0 := by rw [hl]; rfl
    simp at this
  | cons c cs =>
    rw [hl] at h
    simp only [fgets, h]

theorem tokensAux_token (tok rest cur : List Char)
    (h : ∀ c ∈ tok, isDelimiter c = false) :
    tokensAux (tok ++ rest) cur = tokensAux rest (cur ++ tok) := by
  induction tok generalizing cur with
  | nil => simp
  | cons c tok ih =>
    have hc : isDelimiter c = false := h c (List.mem_cons_self _ _)
    rw [List.cons_append, tokensAux, if_neg (by rw [hc]; simp)]
    rw [ih (cur ++ [c]) (fun x hx => h x (List.mem_cons_of_mem _ hx))]
    simp

theorem tokensAux_delimiter (d : Char) (rest cur : List Char) (hd : isDelimiter d = true)
    (hcur : cur ≠ []) : tokensAux (d :: rest) cur = cur :: tokensAux rest [] := by
  simp [tokensAux, hd, hcur]

/-- `strtok` recovers the tokens of a line made of tokens each followed by a blank, and a
final newline. -/
theorem strtokAll_line (toks : List (List Char))
    (h : ∀ t ∈ toks, t ≠ [] ∧ ∀ c ∈ t, isDelimiter c = false) :
    strtokAll ((toks.map (fun t => t ++ [' '])).flatten ++ ['\n']) = toks := by
  unfold strtokAll
  induction toks with
  | nil => simp [tokensAux, isDelimiter]
  | cons t toks ih =>
    obtain ⟨hne, hnd⟩ := h t (List.mem_cons_self _ _)
    simp only [List.map_cons, List.flatten_cons, List.append_assoc]
    rw [tokensAux_token t _ [] hnd, List.nil_append]
    rw [List.singleton_append, tokensAux_delimiter ' ' _ t (by decide) hne]
    rw [ih (fun x hx => h x (List.mem_cons_of_mem _ hx))]

theorem strtokAll_header (t1 t2 : List Char)
    (h1 : t1 ≠ [] ∧ ∀ c ∈ t1, isDelimiter c = false)
    (h2 : t2 ≠ [] ∧ ∀ c ∈ t2, isDelimiter c = false) :
    strtokAll (t1 ++ [' '] ++ t2 ++ ['\n']) = [t1, t2] := by
  unfold strtokAll
  rw [List.append_assoc, List.append_assoc, tokensAux_token t1 _ [] h1.2, List.nil_append]
  rw [List.singleton_append, tokensAux_delimiter ' ' _ t1 (by decide) h1.1]
  rw [tokensAux_token t2 _ [] h2.2, List.nil_append]
  rw [tokensAux_delimiter '\n' _ t2 (by decide) h2.1]
  simp [tokensAux]

/-- The facts about a one-digit cell token that `load_board` relies on. -/
theorem cellToken_facts :
    ∀ n : Int, 0 ≤ n → n ≤ 9 → ∀ d : Bool,
      ((printInt n ++ (if d = true then ['.'] else [])).all (fun c => !isDelimiter c) = true) ∧
      (printInt n ++ (if d = true then ['.'] else [])) ≠ [] ∧
      ((((printInt n ++ (if d = true then ['.'] else [])).getD 0 (Char.ofNat 0)).toNat : Int)
        - 48 = n) ∧
      (((printInt n ++ (if d = true then ['.'] else [])).getD 1 (Char.ofNat 0) = '.')
        ↔ d = true) ∧
      ((printInt n ++ (if d = true then ['.'] else [])).getD 1 (Char.ofNat 0) ≠ '*') ∧
      (printInt n ++ (if d = true then ['.'] else [])).length ≤ 2 := by
  decide

/-- The facts about the printed block sides that `load_board` relies on. -/
theorem printInt_facts :
    ∀ n : Int, 1 ≤ n → n ≤ 84 →
      ((printInt n).all (fun c => !isDelimiter c) = true) ∧ printInt n ≠ [] ∧
      atoi (printInt n) = n ∧ (printInt n).length ≤ 2 := by
  decide

/-! ## `load_board` on a saved text -/

theorem mark_asterisks_flagOnly (g : Globals) (b : Board) : FlagOnly b (mark_asterisks g b) := by
  unfold mark_asterisks
  dsimp only
  apply foldl_inv (fun s : Board => FlagOnly b s)
  · exact FlagOnly.unchanged b
  · intro s i _ hs
    apply foldl_inv (fun s : Board => FlagOnly b s)
    · exact hs
    · intro s2 j _ hs2
      unfold mark_asterisks_body
      split
      · exact hs2.followedBy (valid_check_frame g s2 (j + 1) (i + 1) _).1
      · exact hs2

theorem load_cell_other (mode : Char) (bd : Board) (i j : Int) (tok : List Char) (r c : Int)
    (h : ¬ (r = i ∧ c = j)) : (load_cell mode bd i j tok).cells r c = bd.cells r c := by
  unfold load_cell
  dsimp only
  split
  · simp only [setIsFixed, setNumber, if_neg h]
  · split
    · simp only [setAsterisk, setNumber, if_neg h]
    · simp only [setNumber, if_neg h]

theorem setIsFixed_number (b : Board) (r c : Int) (v : Bool) (i j : Int) :
    ((setIsFixed b r c v).cells i j).number = (b.cells i j).number := by
  unfold setIsFixed; dsimp only; split <;> rfl

theorem setIsFixed_isFixed (b : Board) (r c : Int) (v : Bool) (i j : Int) :
    ((setIsFixed b r c v).cells i j).isFixed
      = if i = r ∧ j = c then v else (b.cells i j).isFixed := by
  unfold setIsFixed; dsimp only; split <;> rfl

theorem load_cell_self (mode : Char) (bd : Board) (i j : Int) (tok : List Char) :
    ((load_cell mode bd i j tok).cells i j).number
      = ((tok.getD 0 (Char.ofNat 0)).toNat : Int) - 48 ∧
    (((load_cell mode bd i j tok).cells i j).isFixed = true ↔
      ((tok.getD 1 (Char.ofNat 0) = '.' ∧ mode = 'S') ∨ (bd.cells i j).isFixed = true)) := by
  unfold load_cell
  dsimp only
  split
  · rename_i h
    refine ⟨?_, ?_⟩
    · rw [setIsFixed_number, setNumber_number, if_pos ⟨rfl, rfl⟩]
    · rw [setIsFixed_isFixed, if_pos ⟨rfl, rfl⟩]
      exact ⟨fun _ => Or.inl h, fun _ => rfl⟩
  · rename_i h
    split
    · refine ⟨?_, ?_⟩
      · rw [setAsterisk_number, setNumber_number, if_pos ⟨rfl, rfl⟩]
      · rw [setAsterisk_isFixed, setNumber_isFixed]
        constructor
        · exact Or.inr
        · rintro (h2 | h2)
          · exact absurd h2 h
          · exact h2
    · refine ⟨?_, ?_⟩
      · rw [setNumber_number, if_pos ⟨rfl, rfl⟩]
      · rw [setNumber_isFixed]
        constructor
        · exact Or.inr
        · rintro (h2 | h2)
          · exact absurd h2 h
          · exact h2

theorem load_row_tokens (mode : Char) (i : Int) (f : Int → List Char)
    (more : List (List Char)) (js : List Int) :
    ∀ board : Board,
      js.foldl (load_row_step mode i) (some (board, js.map f ++ more))
        = some (js.foldl (fun bd j => load_cell mode bd i j (f j)) board, more) := by
  induction js with
  | nil => intro board; rfl
  | cons j js ih =>
    intro board
    simp only [List.foldl_cons, List.map_cons, List.cons_append, load_row_step]
    exact ih _

theorem length_flatten_le {α : Type} (f : α → List Char) (k : Nat) (l : List α)
    (h : ∀ x ∈ l, (f x).length ≤ k) : (l.map f).flatten.length ≤ k * l.length := by
  induction l with
  | nil => simp
  | cons a l ih =>
    simp only [List.map_cons, List.flatten_cons, List.length_append, List.length_cons]
    have h1 := h a (List.mem_cons_self _ _)
    have h2 := ih (fun x hx => h x (List.mem_cons_of_mem _ hx))
    rw [Nat.mul_add, Nat.mul_one]
    omega

theorem mem_flatten_map {α : Type} (f : α → List Char) (l : List α) (c : Char)
    (hc : c ∈ (l.map f).flatten) : ∃ x ∈ l, c ∈ f x := by
  rw [List.mem_flatten] at hc
  obtain ⟨t, ht, hct⟩ := hc
  rw [List.mem_map] at ht
  obtain ⟨x, hx, rfl⟩ := ht
  exact ⟨x, hx, hct⟩

theorem cellToken_spec (mode : Char) (c : cell) (h0 : 0 ≤ c.number) (h9 : c.number ≤ 9) :
    (∀ x ∈ cellToken mode c, isDelimiter x = false) ∧ cellToken mode c ≠ [] ∧
    (((cellToken mode c).getD 0 (Char.ofNat 0)).toNat : Int) - 48 = c.number ∧
    ((cellToken mode c).getD 1 (Char.ofNat 0) = '.' ↔
      ((c.isFixed = true ∨ mode = 'E') ∧ c.number ≠ 0)) ∧
    (cellToken mode c).length ≤ 2 := by
  have e : cellToken mode c = printInt c.number
      ++ (if decide ((c.isFixed = true ∨ mode = 'E') ∧ c.number ≠ UNASSIGNED) = true
          then ['.'] else []) := by
    unfold cellToken
    by_cases h : (c.isFixed = true ∨ mode = 'E') ∧ c.number ≠ UNASSIGNED
    · rw [if_pos h, if_pos (decide_eq_true h)]
    · rw [if_neg h, if_neg (by rw [decide_eq_false h]; simp)]
  obtain ⟨f1, f2, f3, f4, -, f6⟩ := cellToken_facts c.number h0 h9
    (decide ((c.isFixed = true ∨ mode = 'E') ∧ c.number ≠ UNASSIGNED))
  rw [← e] at f1 f2 f3 f4 f6
  refine ⟨?_, f2, f3, ?_, f6⟩
  · intro x hx
    rw [List.all_eq_true] at f1
    have := f1 x hx
    simpa using this
  · rw [f4, decide_eq_true_eq]
    rfl

/-- The tokens of the line written for a row whose values are single digits. -/
theorem rowLine_spec (g : Globals) (mode : Char) (b : Board) (i : Int)
    (hN : g.N ≤ 84)
    (hvals : ∀ c, 0 ≤ c → c < g.N → 0 ≤ (b.cells i c).number ∧ (b.cells i c).number ≤ 9)
    (rest : List Char) :
    strtokAll (rowLine g mode b i)
      = (intRange 0 g.N).map (fun j => cellToken mode (b.cells i j)) ∧
    fgets 256 (rowLine g mode b i ++ rest) = some (rowLine g mode b i, rest) := by
  have htok : ∀ j ∈ intRange 0 g.N,
      (∀ x ∈ cellToken mode (b.cells i j), isDelimiter x = false) ∧
      cellToken mode (b.cells i j) ≠ [] ∧ (cellToken mode (b.cells i j)).length ≤ 2 := by
    intro j hj
    rw [mem_intRange] at hj
    obtain ⟨t1, t2, -, -, t5⟩ := cellToken_spec mode (b.cells i j)
      (hvals j hj.1 hj.2).1 (hvals j hj.1 hj.2).2
    exact ⟨t1, t2, t5⟩
  constructor
  · have h := strtokAll_line ((intRange 0 g.N).map (fun j => cellToken mode (b.cells i j)))
      (by
        intro t ht
        rw [List.mem_map] at ht
        obtain ⟨j, hj, rfl⟩ := ht
        exact ⟨(htok j hj).2.1, (htok j hj).1⟩)
    rw [List.map_map] at h
    exact h
  · unfold rowLine
    rw [List.append_assoc, List.singleton_append]
    apply fgets_line
    · intro c hc
      obtain ⟨j, hj, hcj⟩ := mem_flatten_map _ _ c hc
      rw [List.mem_append] at hcj
      rcases hcj with hcj | hcj
      · intro hnl
        have := (htok j hj).1 c hcj
        rw [hnl] at this
        exact absurd this (by decide)
      · rw [List.mem_singleton] at hcj
        rw [hcj]
        decide
    · have hlen := length_flatten_le (fun j => cellToken mode (b.cells i j) ++ [' ']) 3
        (intRange 0 g.N) (by
          intro j hj
          have := (htok j hj).2.2
          simp only [List.length_append, List.length_singleton]
          omega)
      rw [length_intRange] at hlen
      have : (g.N - 0).toNat ≤ 84 := by omega
      omega

/-- The `i` loop of `load_board` on the lines written for the rows `is`. -/
theorem load_rows_spec (g : Globals) (mode : Char) (b : Board) (hN : g.N ≤ 84)
    (hvals : ∀ r, 0 ≤ r → r < g.N → ∀ c, 0 ≤ c → c < g.N →
      0 ≤ (b.cells r c).number ∧ (b.cells r c).number ≤ 9)
    (more : List Char) (is : List Int) (his : ∀ i ∈ is, 0 ≤ i ∧ i < g.N) :
    ∀ st : LoadState, st.file = (is.map (rowLine g mode b)).flatten ++ more →
      ∃ st2 : LoadState,
        is.foldl (load_rows_step mode g.N) (some st) = some st2 ∧
        st2.board = is.foldl
          (fun bd i => (intRange 0 g.N).foldl
            (fun bd j => load_cell mode bd i j (cellToken mode (b.cells i j))) bd)
          st.board := by
  induction is with
  | nil =>
    intro st _
    exact ⟨st, rfl, rfl⟩
  | cons i is ih =>
    intro st hfile
    have hi := his i (List.mem_cons_self _ _)
    obtain ⟨htoks, hread⟩ := rowLine_spec g mode b i hN (hvals i hi.1 hi.2)
      ((is.map (rowLine g mode b)).flatten ++ more)
    have hrow := load_row_tokens mode i (fun j => cellToken mode (b.cells i j)) []
      (intRange 0 g.N) st.board
    rw [List.append_nil] at hrow
    have hstep : load_rows_step mode g.N (some st) i
        = some { file := (is.map (rowLine g mode b)).flatten ++ more,
                 line := lineAfterStrtok (rowLine g mode b i),
                 board := (intRange 0 g.N).foldl
                   (fun bd j => load_cell mode bd i j (cellToken mode (b.cells i j)))
                   st.board } := by
      unfold load_rows_step
      dsimp only
      rw [hfile, List.map_cons, List.flatten_cons, List.append_assoc, hread]
      dsimp only
      unfold load_row
      rw [htoks, hrow]
    rw [List.foldl_cons, hstep]
    obtain ⟨st2, h1, h2⟩ := ih (fun x hx => his x (List.mem_cons_of_mem _ hx))
      { file := (is.map (rowLine g mode b)).flatten ++ more,
        line := lineAfterStrtok (rowLine g mode b i),
        board := (intRange 0 g.N).foldl
          (fun bd j => load_cell mode bd i j (cellToken mode (b.cells i j))) st.board }
      rfl
    exact ⟨st2, h1, h2⟩

/-- The board built by `load_board` from the tokens of a saved board, before
`mark_asterisks`: every cell of the grid receives its value, and is fixed exactly when
its token carries a dot and the mode is `'S'`. -/
theorem loaded_cells (g : Globals) (mode : Char) (b : Board)
    (hvals : ∀ r, 0 ≤ r → r < g.N → ∀ c, 0 ≤ c → c < g.N →
      0 ≤ (b.cells r c).number ∧ (b.cells r c).number ≤ 9)
    (B0 : Board)
    (hB0 : ∀ r, 0 ≤ r → r < g.N → ∀ c, 0 ≤ c → c < g.N → (B0.cells r c).isFixed = false) :
    ∀ r, 0 ≤ r → r < g.N → ∀ c, 0 ≤ c → c < g.N →
      (((pairs (intRange 0 g.N) (intRange 0 g.N)).foldl
        (fun bd p => load_cell mode bd p.1 p.2 (cellToken mode (b.cells p.1 p.2)))
        B0).cells r c).number = (b.cells r c).number ∧
      ((((pairs (intRange 0 g.N) (intRange 0 g.N)).foldl
        (fun bd p => load_cell mode bd p.1 p.2 (cellToken mode (b.cells p.1 p.2)))
        B0).cells r c).isFixed = true ↔
        (((b.cells r c).isFixed = true ∨ mode = 'E') ∧ (b.cells r c).number ≠ 0)
          ∧ mode = 'S') := by
  have hstep : ∀ (s : Board) (p : Int × Int), p ∈ pairs (intRange 0 g.N) (intRange 0 g.N) →
      ((load_cell mode s p.1 p.2 (cellToken mode (b.cells p.1 p.2))).cells p.1 p.2).number
        = (b.cells p.1 p.2).number ∧
      (((load_cell mode s p.1 p.2 (cellToken mode (b.cells p.1 p.2))).cells p.1 p.2).isFixed
        = true ↔
        ((((b.cells p.1 p.2).isFixed = true ∨ mode = 'E') ∧ (b.cells p.1 p.2).number ≠ 0)
          ∧ mode = 'S') ∨ (s.cells p.1 p.2).isFixed = true) := by
    intro s p hp
    rw [mem_pairs, mem_intRange, mem_intRange] at hp
    obtain ⟨-, -, t3, t4, -⟩ := cellToken_spec mode (b.cells p.1 p.2)
      (hvals p.1 hp.1.1 hp.1.2 p.2 hp.2.1 hp.2.2).1 (hvals p.1 hp.1.1 hp.1.2 p.2 hp.2.1 hp.2.2).2
    obtain ⟨l1, l2⟩ := load_cell_self mode s p.1 p.2 (cellToken mode (b.cells p.1 p.2))
    rw [t3] at l1
    rw [t4] at l2
    exact ⟨l1, l2⟩
  have hP := foldl_inv
    (fun s : Board => ∀ r, 0 ≤ r → r < g.N → ∀ c, 0 ≤ c → c < g.N →
      (s.cells r c).isFixed = true →
        (((b.cells r c).isFixed = true ∨ mode = 'E') ∧ (b.cells r c).number ≠ 0) ∧ mode = 'S')
    (fun bd (p : Int × Int) => load_cell mode bd p.1 p.2 (cellToken mode (b.cells p.1 p.2)))
    (pairs (intRange 0 g.N) (intRange 0 g.N)) B0
    (by
      intro r h1 h2 c h3 h4 hf
      rw [hB0 r h1 h2 c h3 h4] at hf
      cases hf)
    (by
      intro s p hp hs r h1 h2 c h3 h4 hf
      by_cases hrc : r = p.1 ∧ c = p.2
      · rw [hrc.1, hrc.2] at hf ⊢
        rcases (hstep s p hp).2.mp hf with h | h
        · exact h
        · rw [← hrc.1, ← hrc.2] at h ⊢
          exact hs r h1 h2 c h3 h4 h
      · rw [load_cell_other mode s p.1 p.2 _ r c hrc] at hf
        exact hs r h1 h2 c h3 h4 hf)
  have hQ := foldl_track (fun _ : Board => True)
    (fun (p : Int × Int) (s : Board) =>
      (s.cells p.1 p.2).number = (b.cells p.1 p.2).number ∧
      (((((b.cells p.1 p.2).isFixed = true ∨ mode = 'E') ∧ (b.cells p.1 p.2).number ≠ 0)
        ∧ mode = 'S') → (s.cells p.1 p.2).isFixed = true))
    (fun bd (p : Int × Int) => load_cell mode bd p.1 p.2 (cellToken mode (b.cells p.1 p.2)))
    (pairs (intRange 0 g.N) (intRange 0 g.N)) B0 trivial
    (fun _ _ _ _ => trivial)
    (by
      intro s p hp _
      exact ⟨(hstep s p hp).1, fun h => (hstep s p hp).2.mpr (Or.inl h)⟩)
    (by
      intro s p q hq _ hps
      by_cases hpq : p.1 = q.1 ∧ p.2 = q.2
      · rw [hpq.1, hpq.2]
        exact ⟨(hstep s q hq).1, fun h => (hstep s q hq).2.mpr (Or.inl h)⟩
      · rw [load_cell_other mode s q.1 q.2 _ p.1 p.2 hpq]
        exact hps)
  intro r h1 h2 c h3 h4
  have hq := hQ (r, c) (mem_pairs.mpr ⟨mem_intRange.mpr ⟨h1, h2⟩, mem_intRange.mpr ⟨h3, h4⟩⟩)
  exact ⟨hq.1, hP r h1 h2 c h3 h4, hq.2⟩

theorem dims_le_side (g : Globals) (hr : 1 ≤ g.blockRows) (hc : 1 ≤ g.blockCols) :
    g.blockRows ≤ g.N ∧ g.blockCols ≤ g.N := by
  unfold Globals.N
  constructor <;> nlinarith

/-- C18 (amended): for block sides of at least 1 with `N ≤ 84` (so that a line fits the
256-character buffer) and a board whose values all lie in `0..9`, if `save_command`
writes a text in session mode `mode`, then `load_board` in the same mode, called while the
globals `rows` and `cols` equal the block sides written to the file, reads it back,
restores `blockRows` and `blockCols` (so that the globals are consistent again), yields
the same value in every cell, and yields a fixed cell exactly where the mode is `'S'` and
the saved cell was fixed and not empty. -/
theorem save_load_round_trip (g g0 : Globals) (ILP : Board → Option Board) (mode : Char)
    (b : Board) (text : List Char)
    (hr : 1 ≤ g.blockRows) (hc : 1 ≤ g.blockCols) (hN : g.N ≤ 84)
    (hg0 : g0.rows = g.blockRows ∧ g0.cols = g.blockCols)
    (hvals : ∀ r, 0 ≤ r → r < g.N → ∀ c, 0 ≤ c → c < g.N →
      0 ≤ (b.cells r c).number ∧ (b.cells r c).number ≤ 9)
    (hsave : save_command g ILP mode b = some text) :
    ∃ (g1 : Globals) (b1 : Board),
      load_board g0 mode text = some (g1, b1) ∧ g1.WF ∧
      g1.blockRows = g.blockRows ∧ g1.blockCols = g.blockCols ∧
      ∀ r, 0 ≤ r → r < g.N → ∀ c, 0 ≤ c → c < g.N →
        (b1.cells r c).number = (b.cells r c).number ∧
        ((b1.cells r c).isFixed = true ↔
          (mode = 'S' ∧ (b.cells r c).isFixed = true ∧ (b.cells r c).number ≠ 0)) := by
  have htext := save_command_text g ILP mode b text hsave
  obtain ⟨hbr, hbc⟩ := dims_le_side g hr hc
  obtain ⟨r1, r2, r3, r4⟩ := printInt_facts g.blockRows hr (by omega)
  obtain ⟨c1, c2, c3, c4⟩ := printInt_facts g.blockCols hc (by omega)
  have r1' : ∀ x ∈ printInt g.blockRows, isDelimiter x = false := by
    intro x hx
    rw [List.all_eq_true] at r1
    simpa using r1 x hx
  have c1' : ∀ x ∈ printInt g.blockCols, isDelimiter x = false := by
    intro x hx
    rw [List.all_eq_true] at c1
    simpa using c1 x hx
  have hhead : fgets 257 text
      = some (printInt g.blockRows ++ [' '] ++ printInt g.blockCols ++ ['\n'],
          ((intRange 0 g.N).map (rowLine g mode b)).flatten) := by
    rw [htext, List.append_assoc (printInt g.blockRows ++ [' '] ++ printInt g.blockCols),
      List.singleton_append]
    apply fgets_line
    · intro x hx
      rw [List.mem_append, List.mem_append] at hx
      rcases hx with (hx | hx) | hx
      · intro hnl
        have := r1' x hx
        rw [hnl] at this
        exact absurd this (by decide)
      · rw [List.mem_singleton] at hx
        rw [hx]; decide
      · intro hnl
        have := c1' x hx
        rw [hnl] at this
        exact absurd this (by decide)
    · simp only [List.length_append, List.length_singleton]
      omega
  have htoks := strtokAll_header (printInt g.blockRows) (printInt g.blockCols)
    ⟨r2, r1'⟩ ⟨c2, c1'⟩
  obtain ⟨st2, hrows, hboard⟩ := load_rows_spec g mode b hN hvals [] (intRange 0 g.N)
    (fun i hi => mem_intRange.mp hi)
    { file := ((intRange 0 g.N).map (rowLine g mode b)).flatten,
      line := lineAfterStrtok
        (printInt g.blockRows ++ [' '] ++ printInt g.blockCols ++ ['\n']),
      board := generate_empty_board
        { g0 with blockRows := g.blockRows, blockCols := g.blockCols } }
    (by rw [List.append_nil])
  have hload : load_board g0 mode text
      = some ({ g0 with blockRows := g.blockRows, blockCols := g.blockCols },
          mark_asterisks { g0 with blockRows := g.blockRows, blockCols := g.blockCols }
            st2.board) := by
    unfold load_board
    rw [hhead]
    dsimp only
    rw [htoks]
    dsimp only
    rw [r3, c3]
    unfold load_rows
    have hN1 : g.blockRows * g.blockCols = g.N := rfl
    rw [hN1, hrows]
  refine ⟨_, _, hload, ⟨by show 0 < g.blockRows; omega, by show 0 < g.blockCols; omega,
    hg0.1, hg0.2⟩, rfl, rfl, ?_⟩
  intro r h1 h2 c h3 h4
  have hfo := mark_asterisks_flagOnly
    { g0 with blockRows := g.blockRows, blockCols := g.blockCols } st2.board r c
  rw [hfo.1, hfo.2, hboard]
  dsimp only
  rw [foldl_pairs (fun i bd j => load_cell mode bd i j (cellToken mode (b.cells i j)))]
  have hcells := loaded_cells g mode b hvals
    (generate_empty_board { g0 with blockRows := g.blockRows, blockCols := g.blockCols })
    (by
      intro r h1 h2 c h3 h4
      unfold generate_empty_board
      rw [empty_board_cells, if_pos ⟨⟨h1, h2⟩, h3, h4⟩])
    r h1 h2 c h3 h4
  refine ⟨hcells.1, hcells.2.trans ?_⟩
  constructor
  · rintro ⟨⟨hf | hE, hn⟩, hS⟩
    · exact ⟨hS, hf, hn⟩
    · rw [hS] at hE
      exact absurd hE (by decide)
  · rintro ⟨hS, hf, hn⟩
    exact ⟨⟨Or.inl hf, hn⟩, hS⟩

set_option maxRecDepth 1000000 in
theorem save_load_round_trip_witness :
    ∃ text : List Char,
      (1 ≤ dims2x2.blockRows ∧ 1 ≤ dims2x2.blockCols ∧ dims2x2.N ≤ 84) ∧
      (dims2x2.rows = dims2x2.blockRows ∧ dims2x2.cols = dims2x2.blockCols) ∧
      (∀ r, 0 ≤ r → r < dims2x2.N → ∀ c, 0 ≤ c → c < dims2x2.N →
        0 ≤ (boardFixedPair.cells r c).number ∧ (boardFixedPair.cells r c).number ≤ 9) ∧
      save_command dims2x2 (fun _ => none) 'S' boardFixedPair = some text ∧
      ∃ (g1 : Globals) (b1 : Board),
        load_board dims2x2 'S' text = some (g1, b1) ∧ g1.WF ∧
        g1.blockRows = dims2x2.blockRows ∧ g1.blockCols = dims2x2.blockCols ∧
        ∀ r, 0 ≤ r → r < dims2x2.N → ∀ c, 0 ≤ c → c < dims2x2.N →
          (b1.cells r c).number = (boardFixedPair.cells r c).number ∧
          ((b1.cells r c).isFixed = true ↔
            ('S' = 'S' ∧ (boardFixedPair.cells r c).isFixed = true ∧
              (boardFixedPair.cells r c).number ≠ 0)) := by
  have hs : (save_command dims2x2 (fun _ => none) 'S' boardFixedPair).isSome = true := by
    decide
  obtain ⟨text, htext⟩ : ∃ text,
      save_command dims2x2 (fun _ => none) 'S' boardFixedPair = some text := by
    cases h : save_command dims2x2 (fun _ => none) 'S' boardFixedPair with
    | none => rw [h] at hs; cases hs
    | some t => exact ⟨t, rfl⟩
  exact ⟨text, by decide, by decide, by decide, htext,
    save_load_round_trip dims2x2 dims2x2 (fun _ => none) 'S' boardFixedPair text
      (by decide) (by decide) (by decide) (by decide) (by decide) htext⟩

set_option maxRecDepth 1000000 in
/-- C18 (as stated, refuted): on a 10x10 grid (blocks of 2 rows and 5 columns) a cell
holding `10` is written as `10` and read back as `1`, in session mode `'S'`; on a 4x4
grid in session mode `'E'` a fixed cell holding `2` is read back not fixed; and on an
85x85 grid (blocks of 5 rows and 17 columns) whose first row holds 85 fixed `1`s,
`save_command` writes a first row of 256 characters, one more than `load_board` reads
into its line buffer, and `load_board` runs out of tokens on the next row. -/
theorem save_load_loses_information :
    (∀ r, 0 ≤ r → r < dims2x5.N → ∀ c, 0 ≤ c → c < dims2x5.N →
      0 ≤ (boardSingleTen.cells r c).number ∧ (boardSingleTen.cells r c).number ≤ dims2x5.N) ∧
    (boardSingleTen.cells 0 0).number = 10 ∧
    ((save_command dims2x5 (fun _ => none) 'S' boardSingleTen).bind
      (load_board dims2x5 'S')).map (fun res => (res.2.cells 0 0).number) = some 1 ∧
    (boardFixedTwo.cells 0 0).isFixed = true ∧
    ((save_command dims2x2 (fun b => some b) 'E' boardFixedTwo).bind
      (load_board dims2x2 'E')).map
        (fun res => ((res.2.cells 0 0).number, (res.2.cells 0 0).isFixed))
      = some (2, false) ∧
    dims5x17.WF ∧ dims5x17.N = 85 ∧
    (∀ r c, 0 ≤ (boardFixedRow.cells r c).number ∧ (boardFixedRow.cells r c).number ≤ 9) ∧
    (save_command dims5x17 (fun _ => none) 'S' boardFixedRow).isSome = true ∧
    ((save_command dims5x17 (fun _ => none) 'S' boardFixedRow).bind
      (load_board dims5x17 'S')).isSome = false := by
  refine ⟨by decide, by decide, by decide, by decide, by decide, by decide, by decide,
    ?_, by decide, ?_⟩
  · intro r c
    unfold boardFixedRow
    dsimp only
    split <;> decide
  · cases h : save_command dims5x17 (fun _ => none) 'S' boardFixedRow with
    | none => rfl
    | some text =>
      have ht := save_command_text dims5x17 (fun _ => none) 'S' boardFixedRow text h
      subst ht
      decide

/-! ## The full-board scan on a board with one duplicate -/

/-- C21: on the 4x4 board with row 1 = [2,1,0,0] and row 2 = [1,0,0,0],
which has no flag and no fixed cell, `mark_asterisks` leaves a flag on the `2` of row 1 /
column 1, although no other cell of its row, column or block holds `2`, and on the empty
cell of row 2 / column 2. -/
theorem mark_asterisks_flags_unique_value :
    Unflagged dims2x2 boardScan ∧
    (∀ r, 0 ≤ r → r < dims2x2.N → ∀ c, 0 ≤ c → c < dims2x2.N →
      (boardScan.cells r c).isFixed = false) ∧
    (mark_asterisks dims2x2 boardScan).cells 0 0 = ⟨2, false, true⟩ ∧
    ¬ conflictAt dims2x2 (mark_asterisks dims2x2 boardScan) 0 0 2 ∧
    (mark_asterisks dims2x2 boardScan).cells 1 1 = ⟨0, false, true⟩ := by
  decide

/-! ## `fill_cell` and the candidate array -/

/-- C22: on the 4x4 board with row 1 = [1,2,3,0] the empty cell of row 1 /
column 4 has the legal value `4`, yet with a random stream that always yields `1`
`fill_cell` returns false. -/
theorem fill_cell_misses_legal_value :
    (boardRowThree.cells 0 3).number = UNASSIGNED ∧
    (1 ≤ (4 : Int) ∧ (4 : Int) ≤ dims2x2.N ∧ ¬ conflictAt dims2x2 boardRowThree 0 3 4) ∧
    (fill_cell dims2x2 randOnes boardRowThree 3 0 0).1 = false := by
  decide

/-- C23: on the 4x4 board whose only value is a `2` at row 1 / column 1,
`fill_cell` on the empty cell of row 1 / column 2 with a random stream that always yields
`1` returns true and places `3`, and the cell of row 1 / column 1, which is another cell,
comes back flagged. -/
theorem fill_cell_flags_other_cell :
    (boardSingleTwo.cells 0 1).number = UNASSIGNED ∧
    boardSingleTwo.cells 0 0 = ⟨2, false, false⟩ ∧
    (fill_cell dims2x2 randOnes boardSingleTwo 1 0 0).1 = true ∧
    (fill_cell dims2x2 randOnes boardSingleTwo 1 0 0).2.1.cells 0 1 = ⟨3, false, false⟩ ∧
    (fill_cell dims2x2 randOnes boardSingleTwo 1 0 0).2.1.cells 0 0 = ⟨2, false, true⟩ := by
  decide

/-! ## Setting a value and clearing it again -/

/-- C24: on the 4x4 board whose only value is a `1` at row 1 / column 1,
with no flag, no fixed cell and no duplicate, `set` of `1` into the empty cell of row 2 /
column 2 followed by `set` of `0` into the same cell both return true, and the board that
results is flagged: it differs from the original and `check_board_erroneous` is true. -/
theorem set_then_clear_leaves_flags :
    Unflagged dims2x2 boardSingleOne ∧
    (∀ r, 0 ≤ r → r < dims2x2.N → ∀ c, 0 ≤ c → c < dims2x2.N →
      (boardSingleOne.cells r c).isFixed = false) ∧
    ¬ AnyConflict dims2x2 boardSingleOne ∧
    (boardSingleOne.cells 1 1).number = UNASSIGNED ∧
    (set dims2x2 boardSingleOne 2 2 1 'E').1 = true ∧
    (set dims2x2 (set dims2x2 boardSingleOne 2 2 1 'E').2 2 2 0 'E').1 = true ∧
    (set dims2x2 (set dims2x2 boardSingleOne 2 2 1 'E').2 2 2 0 'E').2.cells 0 2
      = ⟨0, false, true⟩ ∧
    ¬ SameCells dims2x2 boardSingleOne
      (set dims2x2 (set dims2x2 boardSingleOne 2 2 1 'E').2 2 2 0 'E').2 ∧
    check_board_erroneous dims2x2
      (set dims2x2 (set dims2x2 boardSingleOne 2 2 1 'E').2 2 2 0 'E').2 = true := by
  decide

/-! ## `del_from_arr` -/

theorem shift_left_elems (lo : Int) (a0 : IntArray) (n : Nat) (k : Int) :
    (((List.range n).map (fun (i : Nat) => lo + (i : Int))).foldl
        (fun a c => setElem a c (a.elems (c + 1))) a0).elems k
      = if lo ≤ k ∧ k < lo + n then a0.elems (k + 1) else a0.elems k := by
  induction n generalizing k with
  | zero =>
    rw [if_neg (by push_cast; omega)]
    rfl
  | succ n ih =>
    rw [List.range_succ, List.map_append, List.foldl_append]
    simp only [List.map_cons, List.map_nil, List.foldl_cons, List.foldl_nil]
    have hstep : ∀ (a : IntArray) (c : Int),
        (setElem a c (a.elems (c + 1))).elems k
          = if k = c then a.elems (c + 1) else a.elems k := fun _ _ => rfl
    rw [hstep]
    by_cases hk : k = lo + n
    · rw [if_pos hk, ih, if_neg (by omega), if_pos (by push_cast; omega), hk]
    · rw [if_neg hk, ih]
      by_cases h : lo ≤ k ∧ k < lo + n
      · rw [if_pos h, if_pos (by push_cast; omega)]
      · rw [if_neg h, if_neg (by push_cast; omega)]

/-- What `del_from_arr` leaves in the array: the entries from index `position - 1` up to
index `numbersLeft - 2` receive their right neighbour, every other entry is kept. -/
theorem del_from_arr_elems (position numbersLeft : Int) (a : IntArray) (k : Int) :
    (del_from_arr position numbersLeft a).elems k
      = if position - 1 ≤ k ∧ k < numbersLeft - 1 then a.elems (k + 1) else a.elems k := by
  unfold del_from_arr intRange
  rw [shift_left_elems]
  by_cases h : position - 1 ≤ k ∧ k < numbersLeft - 1
  · rw [if_pos h, if_pos (by omega)]
  · rw [if_neg h, if_neg (by omega)]

/-- C26: called as `fill_cell` calls it on a 4x4 grid after the candidate
at index `1` failed (`position = 1`, `numbersLeft = 3`, candidates `1,2,3,4`),
`del_from_arr` leaves `2,3,3` in entries `0..2`, where removing the entry at index `1`
gives `1,3,4`; the last candidate, at index `3`, is never read; and with `position = 0`
it writes index `-1`. -/
theorem del_from_arr_deletes_wrong_entry :
    (intRange 0 4).map (generate_int_array 4).elems = [1, 2, 3, 4] ∧
    (intRange 0 3).map (del_from_arr 1 3 (generate_int_array 4)).elems = [2, 3, 3] ∧
    (intRange 0 3).map (deleted_at 1 (generate_int_array 4)).elems = [1, 3, 4] ∧
    del_from_arr_reads 1 3 = [1, 2] ∧
    del_from_arr_writes 0 3 = [-1, 0, 1] := by
  decide

/-! ## Block origins -/

/-- C25: on a grid of side `N = blockRows * blockCols` with `rows = blockRows > 0` and
`cols = blockCols > 0`, for a 1-based column and row in `1..N`, `get_block_col_index` is
`cols * ((column - 1) div cols)`, at most `column - 1`, more than `column - 1 - cols`, and
at most `N - cols`; likewise `get_block_row_index` with `rows`; and every index of the
block loops of `val_in_block` and `validate_risks` lies in `[0, N)`. -/
theorem block_origin_arithmetic (g : Globals) (hg : g.WF) (column row : Int)
    (hc : 1 ≤ column ∧ column ≤ g.N) (hr : 1 ≤ row ∧ row ≤ g.N) :
    (get_block_col_index g column = g.cols * ((column - 1) / g.cols) ∧
      get_block_col_index g column ≤ column - 1 ∧
      column - 1 < get_block_col_index g column + g.cols ∧
      get_block_col_index g column + g.cols ≤ g.N) ∧
    (get_block_row_index g row = g.rows * ((row - 1) / g.rows) ∧
      get_block_row_index g row ≤ row - 1 ∧
      row - 1 < get_block_row_index g row + g.rows ∧
      get_block_row_index g row + g.rows ≤ g.N) ∧
    (∀ colIndex ∈ intRange (get_block_col_index g column)
        (g.blockCols + get_block_col_index g column), 0 ≤ colIndex ∧ colIndex < g.N) ∧
    (∀ rowIndex ∈ intRange (get_block_row_index g row)
        (g.blockRows + get_block_row_index g row), 0 ≤ rowIndex ∧ rowIndex < g.N) := by
  obtain ⟨h1, h2, h3, h4⟩ := hg
  have hN : g.N = g.blockCols * g.blockRows := by unfold Globals.N; ring
  have hN2 : g.N = g.blockRows * g.blockCols := rfl
  have bc := block_origin_bounds g.blockCols g.blockRows (column - 1) h2 (by omega)
    (by rw [← hN2]; omega)
  have br := block_origin_bounds g.blockRows g.blockCols (row - 1) h1 (by omega)
    (by rw [← hN]; omega)
  have ec : get_block_col_index g column = g.blockCols * ((column - 1) / g.blockCols) := by
    unfold get_block_col_index
    rw [h4, Int.tdiv_eq_ediv (by omega) (le_of_lt h2)]
    ring
  have er : get_block_row_index g row = g.blockRows * ((row - 1) / g.blockRows) := by
    unfold get_block_row_index
    rw [h3, Int.tdiv_eq_ediv (by omega) (le_of_lt h1)]
    ring
  have ec2 : g.blockCols * (1 + Int.tdiv (column - 1) g.blockCols - 1)
      = get_block_col_index g column := by
    unfold get_block_col_index; rw [h4]
  have er2 : g.blockRows * (1 + Int.tdiv (row - 1) g.blockRows - 1)
      = get_block_row_index g row := by
    unfold get_block_row_index; rw [h3]
  rw [ec2] at bc
  rw [er2] at br
  rw [← hN2] at bc
  rw [← hN] at br
  obtain ⟨c0, c1, c2, c3, -⟩ := bc
  obtain ⟨r0, r1, r2, r3, -⟩ := br
  refine ⟨⟨?_, c1, ?_, ?_⟩, ⟨?_, r1, ?_, ?_⟩, ?_, ?_⟩
  · rw [h4]; exact ec
  · rw [h4]; omega
  · rw [h4]; omega
  · rw [h3]; exact er
  · rw [h3]; omega
  · rw [h3]; omega
  · intro colIndex hmem
    rw [mem_intRange] at hmem
    omega
  · intro rowIndex hmem
    rw [mem_intRange] at hmem
    omega

theorem block_origin_arithmetic_witness :
    dims2x2.WF ∧ ((1 : Int) ≤ 3 ∧ (3 : Int) ≤ dims2x2.N) ∧
    ((1 : Int) ≤ 2 ∧ (2 : Int) ≤ dims2x2.N) ∧
    get_block_col_index dims2x2 3 = 2 ∧ get_block_row_index dims2x2 2 = 0 ∧
    ((get_block_col_index dims2x2 3 = dims2x2.cols * ((3 - 1) / dims2x2.cols) ∧
      get_block_col_index dims2x2 3 ≤ 3 - 1 ∧
      3 - 1 < get_block_col_index dims2x2 3 + dims2x2.cols ∧
      get_block_col_index dims2x2 3 + dims2x2.cols ≤ dims2x2.N) ∧
    (get_block_row_index dims2x2 2 = dims2x2.rows * ((2 - 1) / dims2x2.rows) ∧
      get_block_row_index dims2x2 2 ≤ 2 - 1 ∧
      2 - 1 < get_block_row_index dims2x2 2 + dims2x2.rows ∧
      get_block_row_index dims2x2 2 + dims2x2.rows ≤ dims2x2.N) ∧
    (∀ colIndex ∈ intRange (get_block_col_index dims2x2 3)
        (dims2x2.blockCols + get_block_col_index dims2x2 3),
      0 ≤ colIndex ∧ colIndex < dims2x2.N) ∧
    (∀ rowIndex ∈ intRange (get_block_row_index dims2x2 2)
        (dims2x2.blockRows + get_block_row_index dims2x2 2),
      0 ≤ rowIndex ∧ rowIndex < dims2x2.N)) :=
  ⟨by decide, by decide, by decide, by decide, by decide,
    block_origin_arithmetic dims2x2 (by decide) 3 2 (by decide) (by decide)⟩

/-! ## What `fill_cell` does guarantee -/

theorem fill_cell_loop_spec (g : Globals) (hg : g.WF) (rand : Nat → Int)
    (hrand : ∀ p, 0 ≤ rand p) (board : Board) (column row : Int)
    (hc : 0 ≤ column ∧ column < g.N) (hr : 0 ≤ row ∧ row < g.N)
    (hempty : (board.cells row column).number = UNASSIGNED) :
    ∀ (n : Nat) (a : IntArray) (copy : Board) (pos : Nat),
      (∀ k, 0 ≤ k → k < (n : Int) → 1 ≤ a.elems k ∧ a.elems k ≤ g.N) →
      (∀ i, 0 ≤ i → i < g.N → ∀ j, 0 ≤ j → j < g.N →
        (copy.cells i j).number = (board.cells i j).number ∧
        (copy.cells i j).isFixed = (board.cells i j).isFixed) →
      ∀ res, fill_cell_loop g rand column row n a copy board pos = res →
        (res.1 = false → res.2.1 = board) ∧
        (res.1 = true →
          (∀ i j, (res.2.1.cells i j).isFixed = (board.cells i j).isFixed) ∧
          (∀ i j, ¬ (i = row ∧ j = column) →
            (res.2.1.cells i j).number = (board.cells i j).number) ∧
          1 ≤ (res.2.1.cells row column).number ∧
          (res.2.1.cells row column).number ≤ g.N ∧
          ¬ conflictAt g board row column (res.2.1.cells row column).number) := by
  intro n
  induction n with
  | zero =>
    intro a copy pos _ _ res hres
    rw [fill_cell_loop] at hres
    subst hres
    exact ⟨fun _ => rfl, fun h => by cases h⟩
  | succ n ih =>
    intro a copy pos ha hcopy res hres
    have hidx0 : 0 ≤ Int.tmod (rand pos) ((n : Int) + 1) := Int.tmod_nonneg _ (hrand pos)
    have hidx1 : Int.tmod (rand pos) ((n : Int) + 1) < (n : Int) + 1 :=
      Int.tmod_lt_of_pos _ (by omega)
    have hval := ha (Int.tmod (rand pos) ((n : Int) + 1)) hidx0 (by push_cast; omega)
    have hframe := (valid_check_frame g copy (column + 1) (row + 1)
      (a.elems (Int.tmod (rand pos) ((n : Int) + 1)))).1
    rw [fill_cell_loop] at hres
    dsimp only at hres
    by_cases hv : (valid_check g copy (column + 1) (row + 1)
        (a.elems (Int.tmod (rand pos) ((n : Int) + 1)))).1 = true
    · rw [if_pos hv] at hres
      subst hres
      have hcell : (copy_board g (setNumber (valid_check g copy (column + 1) (row + 1)
          (a.elems (Int.tmod (rand pos) ((n : Int) + 1)))).2 row column
          (a.elems (Int.tmod (rand pos) ((n : Int) + 1)))) board).cells row column
          = (setNumber (valid_check g copy (column + 1) (row + 1)
          (a.elems (Int.tmod (rand pos) ((n : Int) + 1)))).2 row column
          (a.elems (Int.tmod (rand pos) ((n : Int) + 1)))).cells row column := by
        rw [copy_board_cells, if_pos ⟨hr, hc⟩]
      have hnum : ((copy_board g (setNumber (valid_check g copy (column + 1) (row + 1)
          (a.elems (Int.tmod (rand pos) ((n : Int) + 1)))).2 row column
          (a.elems (Int.tmod (rand pos) ((n : Int) + 1)))) board).cells row column).number
          = a.elems (Int.tmod (rand pos) ((n : Int) + 1)) := by
        rw [hcell, setNumber_number, if_pos ⟨rfl, rfl⟩]
      refine ⟨fun h => (by cases h), fun _ => ⟨?_, ?_, ?_, ?_, ?_⟩⟩
      · intro i j
        rw [copy_board_cells]
        by_cases hin : (0 ≤ i ∧ i < g.N) ∧ (0 ≤ j ∧ j < g.N)
        · rw [if_pos hin, setNumber_isFixed, (hframe i j).2]
          exact (hcopy i hin.1.1 hin.1.2 j hin.2.1 hin.2.2).2
        · rw [if_neg hin]
      · intro i j hij
        rw [copy_board_cells]
        by_cases hin : (0 ≤ i ∧ i < g.N) ∧ (0 ≤ j ∧ j < g.N)
        · rw [if_pos hin, setNumber_number, if_neg hij, (hframe i j).1]
          exact (hcopy i hin.1.1 hin.1.2 j hin.2.1 hin.2.2).1
        · rw [if_neg hin]
      · rw [hnum]; exact hval.1
      · rw [hnum]; exact hval.2
      · rw [hnum]
        intro hconf
        have h1 : conflictAt g copy (row + 1 - 1) (column + 1 - 1)
            (a.elems (Int.tmod (rand pos) ((n : Int) + 1))) := by
          have e1 : row + 1 - 1 = row := by ring
          have e2 : column + 1 - 1 = column := by ring
          rw [e1, e2]
          exact (conflictAt_of_agree g board copy
            (fun r h1 h2 c h3 h4 => (hcopy r h1 h2 c h3 h4).1) row column _).2 hconf
        have h2 := (valid_check_false_iff g hg copy (column + 1) (row + 1)
          (a.elems (Int.tmod (rand pos) ((n : Int) + 1)))
          ⟨by omega, by omega⟩ ⟨by omega, by omega⟩).2 h1
        rw [hv] at h2
        cases h2
    · rw [if_neg hv] at hres
      refine ih _ _ _ ?_ ?_ res hres
      · intro k hk0 hk1
        by_cases hn : (n : Int) + 1 - 1 > 0
        · rw [if_pos hn, del_from_arr_elems]
          by_cases hk : Int.tmod (rand pos) ((n : Int) + 1) - 1 ≤ k ∧ k < (n : Int) + 1 - 1 - 1
          · rw [if_pos hk]
            exact ha (k + 1) (by omega) (by push_cast; omega)
          · rw [if_neg hk]
            exact ha k hk0 (by push_cast; omega)
        · exfalso; omega
      · intro i hi0 hi1 j hj0 hj1
        rw [setAsterisk_number, setAsterisk_isFixed, setNumber_isFixed, setNumber_number]
        refine ⟨?_, ?_⟩
        · by_cases hij : i = row ∧ j = column
          · rw [if_pos hij, hij.1, hij.2, hempty]
          · rw [if_neg hij, (hframe i j).1]
            exact (hcopy i hi0 hi1 j hj0 hj1).1
        · rw [(hframe i j).2]
          exact (hcopy i hi0 hi1 j hj0 hj1).2

theorem fill_cell_loop_writes_lt (g : Globals) (rand : Nat → Int) (column row : Int) :
    ∀ (n : Nat) (a : IntArray) (copy : Board) (pos : Nat),
      ∀ k ∈ fill_cell_loop_writes g rand column row n a copy pos, k + 1 < (n : Int) := by
  intro n
  induction n with
  | zero =>
    intro a copy pos k hk
    rw [fill_cell_loop_writes] at hk
    cases hk
  | succ n ih =>
    intro a copy pos k hk
    rw [fill_cell_loop_writes] at hk
    dsimp only at hk
    by_cases hv : (valid_check g copy (column + 1) (row + 1)
        (a.elems (Int.tmod (rand pos) ((n : Int) + 1)))).1 = true
    · rw [if_pos hv] at hk
      cases hk
    · rw [if_neg hv] at hk
      by_cases hn : (n : Int) + 1 - 1 > 0
      · rw [if_pos hn, List.mem_append] at hk
        rcases hk with hk | hk
        · unfold del_from_arr_writes at hk
          rw [mem_intRange] at hk
          push_cast
          omega
        · have := ih _ _ _ k hk
          push_cast
          omega
      · rw [if_neg hn] at hk
        have := ih _ _ _ k hk
        push_cast
        omega

/-- What `fill_cell` guarantees on an empty cell of the grid, for a random stream of
non-negative numbers and a run in which `delFromArr` writes no index below `0` (no failed
try at index `0` is followed by another try): every index written lies in `[0, N)`; a
false return hands back the board as it was; after a true return the fixed markers are as
before, every other cell holds its former value, and the chosen cell holds a value of
`1..N` that no other cell of its row, column or block holds.  The flags of the other
cells are not covered. -/
theorem fill_cell_sound (g : Globals) (hg : g.WF) (rand : Nat → Int)
    (hrand : ∀ p, 0 ≤ rand p) (board : Board) (column row : Int)
    (hc : 0 ≤ column ∧ column < g.N) (hr : 0 ≤ row ∧ row < g.N)
    (hempty : (board.cells row column).number = UNASSIGNED) (pos : Nat)
    (hw : ∀ k ∈ fill_cell_writes g rand board column row pos, 0 ≤ k) :
    (∀ k ∈ fill_cell_writes g rand board column row pos, 0 ≤ k ∧ k < g.N) ∧
    ((fill_cell g rand board column row pos).1 = false →
      (fill_cell g rand board column row pos).2.1 = board) ∧
    ((fill_cell g rand board column row pos).1 = true →
      (∀ i j, ((fill_cell g rand board column row pos).2.1.cells i j).isFixed
        = (board.cells i j).isFixed) ∧
      (∀ i j, ¬ (i = row ∧ j = column) →
        ((fill_cell g rand board column row pos).2.1.cells i j).number
          = (board.cells i j).number) ∧
      1 ≤ ((fill_cell g rand board column row pos).2.1.cells row column).number ∧
      ((fill_cell g rand board column row pos).2.1.cells row column).number ≤ g.N ∧
      ¬ conflictAt g board row column
        ((fill_cell g rand board column row pos).2.1.cells row column).number) := by
  have hN : 0 ≤ g.blockRows * g.blockCols :=
    Int.mul_nonneg (le_of_lt hg.1) (le_of_lt hg.2.1)
  refine ⟨fun k hk => ⟨hw k hk, ?_⟩, ?_⟩
  · have h := fill_cell_loop_writes_lt g rand column row _ _ _ _ k hk
    rw [Int.toNat_of_nonneg hN] at h
    unfold Globals.N
    omega
  refine fill_cell_loop_spec g hg rand hrand board column row hc hr hempty
    (g.blockRows * g.blockCols).toNat (generate_int_array (g.blockRows * g.blockCols))
    (copy_board g board (generate_empty_board g)) pos ?_ ?_ _ rfl
  · intro k hk0 hk1
    rw [Int.toNat_of_nonneg hN] at hk1
    unfold generate_int_array
    dsimp only
    rw [if_pos ⟨hk0, hk1⟩]
    unfold Globals.N
    omega
  · intro i hi0 hi1 j hj0 hj1
    rw [copy_board_cells, if_pos ⟨⟨hi0, hi1⟩, ⟨hj0, hj1⟩⟩]
    exact ⟨rfl, rfl⟩

set_option maxRecDepth 100000 in
/-- The guarantees of `fill_cell` at work on the 4x4 board whose only value is `2`, for the
empty cell of row 1 / column 2 and `rand()` always `1`: the indices written are `0, 1`. -/
theorem fill_cell_sound_example :
    fill_cell_writes dims2x2 randOnes boardSingleTwo 1 0 0 = [0, 1] ∧
    (fill_cell dims2x2 randOnes boardSingleTwo 1 0 0).1 = true ∧
    ((fill_cell dims2x2 randOnes boardSingleTwo 1 0 0).2.1.cells 0 1).number = 3 ∧
    ¬ conflictAt dims2x2 boardSingleTwo 0 1 3 := by
  decide

/-- When no value of `1..N` is legal at the chosen empty cell, `fill_cell` returns
false, for a random stream of non-negative numbers and a run in which `delFromArr` writes
no index below `0`. -/
theorem fill_cell_false_of_no_legal_value (g : Globals) (hg : g.WF) (rand : Nat → Int)
    (hrand : ∀ p, 0 ≤ rand p) (board : Board) (column row : Int)
    (hc : 0 ≤ column ∧ column < g.N) (hr : 0 ≤ row ∧ row < g.N)
    (hempty : (board.cells row column).number = UNASSIGNED) (pos : Nat)
    (hw : ∀ k ∈ fill_cell_writes g rand board column row pos, 0 ≤ k)
    (hnone : ∀ v, 1 ≤ v → v ≤ g.N → conflictAt g board row column v) :
    (fill_cell g rand board column row pos).1 = false := by
  cases h : (fill_cell g rand board column row pos).1 with
  | false => rfl
  | true =>
    obtain ⟨-, -, h1, h2, h3⟩ :=
      (fill_cell_sound g hg rand hrand board column row hc hr hempty pos hw).2.2 h
    exact absurd (hnone _ h1 h2) h3

end Sudoku
